import Mathlib

/-!
World-state engine (`libbrcdchain/State.cpp`): account cache, change log, asset operations

A shallow embedding of `dev::brc::State`.  Unsigned 256-bit integers are natural numbers
with explicit reduction modulo `2 ^ 256`; `std::unordered_map` / `std::unordered_set` are
association lists / lists looked up by key; a C++ exception is an `Outcome` whose `error`
field is set, carrying the state the object is left in.
-/

namespace Brc

/-! ## Machine integers -/

/-- Addresses are 20-byte identifiers, used only as map keys. -/
abbrev Address := Nat

/-- Byte strings. -/
abbrev Bytes := List Nat

/-- Addition on `u256`: wraps at `2 ^ 256`. -/
def u256.add (a b : Nat) : Nat := (a + b) % 2 ^ 256

/-- Subtraction on `u256`: wraps at `2 ^ 256` (the C++ `a - b` on `u256`). -/
def u256.sub (a b : Nat) : Nat := (a + (2 ^ 256 - b % 2 ^ 256)) % 2 ^ 256

/-- Multiplication on `u256`: wraps at `2 ^ 256`. -/
def u256.mul (a b : Nat) : Nat := (a * b) % 2 ^ 256

/-- Modelled from the spec: the constant `Invalid256`, the start-nonce sentinel of §7 (its
header is not part of the sources); taken as the all-ones `u256`. -/
def Invalid256 : Nat := 2 ^ 256 - 1

/-- Modelled from the spec: the constant `EmptySHA3` (`EMPTY_CODE_HASH` of §3.1), keccak256 of
the empty byte string. -/
def EmptySHA3 : Nat := 0xc5d2460186f7233c927e7db2dcc703c0e500b653ca82273b7bfad8045d85a470

/-- Modelled from the spec: the constant `EmptyTrie` (`EMPTY_TRIE_ROOT` of §3.1), root hash of
the empty trie. -/
def EmptyTrie : Nat := 0x56e81f171bcc55a6ff8345e692c0f86e5b48e01b996cadc001622fb5e363b421

/-! ## Key-value containers -/

/-- Lookup in an association list (`unordered_map::find`): the entry stored under `k`. -/
def Map.find {β : Type} : List (Nat × β) → Nat → Option β
  | [], _ => none
  | (k', v) :: t, k => if k' = k then some v else Map.find t k

/-- In-place update through a pointer/reference to the entry stored under `k`. -/
def Map.modify {β : Type} (m : List (Nat × β)) (k : Nat) (f : β → β) : List (Nat × β) :=
  m.map (fun p => if p.1 = k then (p.1, f p.2) else p)

/-- Removal of key `k` (`unordered_map::erase`). -/
def Map.erase {β : Type} (m : List (Nat × β)) (k : Nat) : List (Nat × β) :=
  m.filter (fun p => decide (p.1 ≠ k))

/-- Insertion that keeps an existing entry (`unordered_map::emplace` / `insert`). -/
def Map.emplace {β : Type} (m : List (Nat × β)) (k : Nat) (v : β) : List (Nat × β) :=
  match Map.find m k with
  | some _ => m
  | none => (k, v) :: m

/-- Assignment `m[k] = v`: overwrite the entry, or create it. -/
def Map.assign {β : Type} (m : List (Nat × β)) (k : Nat) (v : β) : List (Nat × β) :=
  match Map.find m k with
  | some _ => Map.modify m k (fun _ => v)
  | none => (k, v) :: m

/-- Insertion into an `unordered_set`. -/
def AddressSet.insert (s : List Nat) (k : Nat) : List Nat :=
  if k ∈ s then s else k :: s

/-- Removal from an `unordered_set`. -/
def AddressSet.erase (s : List Nat) (k : Nat) : List Nat :=
  s.filter (fun x => decide (x ≠ k))

/-! ## Account entity -/

/-- Modelled from the spec: the `Account` entity of §3.2 (its header is not part of the
sources).  `dirty` is the negation of the C++ `Unchanged` mark. -/
structure Account where
  nonce : Nat := 0
  balance : Nat := 0
  storageRoot : Nat := EmptyTrie
  codeHash : Nat := EmptySHA3
  ballot : Nat := 0
  poll : Nat := 0
  brc : Nat := 0
  fbrc : Nat := 0
  fbalance : Nat := 0
  voteLedger : List (Address × Nat) := []
  sysVoteSet : List Address := []
  code : Bytes := []
  storageOverlay : List (Nat × Nat) := []
  dirty : Bool := true
  alive : Bool := false
  hasNewCode : Bool := false
deriving DecidableEq, Repr

namespace Account

/-- Modelled from the spec: `Account(nonce, balance)`, a new alive and dirty account (§4.1
`getOrCreate`). -/
def create (nonce balance : Nat) : Account :=
  { nonce := nonce, balance := balance, dirty := true, alive := true }

/-- Modelled from the spec: `Account(nonce, balance, brc)`, used by `addBRC` to create an
account "with brc = amt". -/
def createBRC (nonce balance brc : Nat) : Account :=
  { nonce := nonce, balance := balance, brc := brc, dirty := true, alive := true }

/-- Modelled from the spec: the account built from a trie record, a clean alive entry. -/
def load (nonce balance storageRoot codeHash ballot poll brc fbrc fbalance : Nat) : Account :=
  { nonce := nonce, balance := balance, storageRoot := storageRoot, codeHash := codeHash,
    ballot := ballot, poll := poll, brc := brc, fbrc := fbrc, fbalance := fbalance,
    dirty := false, alive := true }

/-- Modelled from the spec: the default-constructed `Account()` that `m_cache[addr]` inserts
for a missing key: all fields zero or empty, not alive, not marked unchanged. -/
def init : Account := {}

/-- Modelled from the spec: `isDirty()`, the dirty bit. -/
def isDirty (a : Account) : Bool := a.dirty

/-- Modelled from the spec: `isAlive()`, the alive bit. -/
def isAlive (a : Account) : Bool := a.alive

/-- Modelled from the spec: "Empty ⇔ nonce == 0 ∧ balance == 0 ∧ codeHash == EMPTY_CODE_HASH
(the auxiliary asset fields follow the same rule in this repo)": the ballot, the poll, the
BRC, the frozen BRC and the frozen balance are zero as well. -/
def isEmpty (a : Account) : Bool :=
  a.nonce == 0 && a.balance == 0 && a.codeHash == EmptySHA3 &&
  a.ballot == 0 && a.poll == 0 && a.brc == 0 && a.fbrc == 0 && a.fbalance == 0

/-- Modelled from the spec: `untouch()`, "clear dirty bit". -/
def untouch (a : Account) : Account := { a with dirty := false }

/-- Modelled from the spec: `kill()`, "clears alive, sets dirty". -/
def kill (a : Account) : Account := { a with alive := false, dirty := true }

/-- Modelled from the spec: `addBalance(v)`, `balance += v` on `u256`, sets dirty. -/
def addBalance (a : Account) (v : Nat) : Account :=
  { a with balance := u256.add a.balance v, dirty := true }

/-- Modelled from the spec: `addBallot(v)`, `ballot += v` on `u256`, sets dirty. -/
def addBallot (a : Account) (v : Nat) : Account :=
  { a with ballot := u256.add a.ballot v, dirty := true }

/-- Modelled from the spec: `addPoll(v)`, `poll += v` on `u256`, sets dirty. -/
def addPoll (a : Account) (v : Nat) : Account :=
  { a with poll := u256.add a.poll v, dirty := true }

/-- Modelled from the spec: `addBRC(v)`, `brc += v` on `u256`, sets dirty. -/
def addBRC (a : Account) (v : Nat) : Account :=
  { a with brc := u256.add a.brc v, dirty := true }

/-- Modelled from the spec: `addFBRC(v)`, `fbrc += v` on `u256`, sets dirty. -/
def addFBRC (a : Account) (v : Nat) : Account :=
  { a with fbrc := u256.add a.fbrc v, dirty := true }

/-- Modelled from the spec: `addFBalance(v)`, `fbalance += v` on `u256`, sets dirty. -/
def addFBalance (a : Account) (v : Nat) : Account :=
  { a with fbalance := u256.add a.fbalance v, dirty := true }

/-- Modelled from the spec: `incNonce()`, `++nonce` on `u256`, sets dirty. -/
def incNonce (a : Account) : Account :=
  { a with nonce := u256.add a.nonce 1, dirty := true }

/-- Modelled from the spec: `setNonce(n)`, sets dirty. -/
def setNonce (a : Account) (n : Nat) : Account :=
  { a with nonce := n, dirty := true }

/-- Modelled from the spec: `vote(receiver)`, the ledger entry for `receiver`, zero when there
is none. -/
def vote (a : Account) (receiver : Address) : Nat :=
  (Map.find a.voteLedger receiver).getD 0

/-- Modelled from the spec: `addVote((receiver, amt))`, `voteLedger[receiver] += amt` on
`u256`, sets dirty. -/
def addVote (a : Account) (p : Address × Nat) : Account :=
  { a with voteLedger := Map.assign a.voteLedger p.1 (u256.add (a.vote p.1) p.2), dirty := true }

/-- Modelled from the spec: `voteAll()`, the sum of the ledger entries on `u256`. -/
def voteAll (a : Account) : Nat :=
  a.voteLedger.foldl (fun acc p => u256.add acc p.2) 0

/-- Modelled from the spec: `setVoteDate(ledger)`, installs the ledger read from the record
without marking the account dirty. -/
def setVoteDate (a : Account) (ledger : List (Address × Nat)) : Account :=
  { a with voteLedger := ledger }

/-- Modelled from the spec: `manageSysVote(member, isAdd, _)`, adds or removes a member of the
system vote set, sets dirty. -/
def manageSysVote (a : Account) (member : Address) (isAdd : Bool) : Account :=
  { a with sysVoteSet := if isAdd then AddressSet.insert a.sysVoteSet member
                         else AddressSet.erase a.sysVoteSet member,
           dirty := true }

/-- Modelled from the spec: `setStorage(key, value)`, a write into the storage overlay. -/
def setStorage (a : Account) (key value : Nat) : Account :=
  { a with storageOverlay := Map.assign a.storageOverlay key value, dirty := true }

/-- Modelled from the spec: `setStorageRoot(root)`, "replace account.storageRoot, clear
overlay". -/
def setStorageRoot (a : Account) (root : Nat) : Account :=
  { a with storageRoot := root, storageOverlay := [], dirty := true }

/-- Modelled from the spec: `clearStorage()`, empties the overlay and resets the root. -/
def clearStorage (a : Account) : Account :=
  { a with storageRoot := EmptyTrie, storageOverlay := [], dirty := true }

/-- Modelled from the spec: `setCode(code)`, installs new code and its hash; the hash
function is a parameter. -/
def setCode (sha3 : Bytes → Nat) (a : Account) (code : Bytes) : Account :=
  { a with code := code, codeHash := sha3 code, hasNewCode := true, dirty := true }

end Account

/-! ## Trie records -/

/-- Modelled from the spec: one item of the serialised account record of §6.3 (the RLP codec
is not part of the sources).  An item is either an integer / hash payload, or the byte string
holding the vote ledger (an inner list whose first element is the entry count, followed by
the `(address, amount)` pairs). -/
inductive RLPItem where
  | data (n : Nat)
  | votes (num : Nat) (pairs : List (Address × Nat))
deriving DecidableEq, Repr

namespace RLPItem

/-- Modelled from the spec: integer / hash payload of an item (`toInt<u256>()`,
`toHash<h256>()`). -/
def toInt : RLPItem → Nat
  | data n => n
  | votes _ _ => 0

/-- The vote ledger read by `State::account`: entries `vote[1] .. vote[num]` are inserted
in order into a fresh map (`insert` keeps the first entry of a key). -/
def toVotes : RLPItem → List (Address × Nat)
  | data _ => []
  | votes num pairs => (pairs.take num).foldl (fun m p => Map.emplace m p.1 p.2) []

end RLPItem

/-- A serialised account record: the list of its items. -/
abbrev RLPRecord := List RLPItem

/-- Item `i` of a record (`state[i]`). -/
def RLPRecord.item (r : RLPRecord) (i : Nat) : RLPItem := r.getD i (RLPItem.data 0)

/-- The account `State::account` builds from a trie record: fields 0..5 and 7..9 through the
ten-argument constructor with `Account::Unchanged`, then `setVoteDate` with field 6. -/
def decodeAccount (state : RLPRecord) : Account :=
  (Account.load (state.item 0).toInt (state.item 1).toInt (state.item 2).toInt
    (state.item 3).toInt (state.item 4).toInt (state.item 5).toInt (state.item 7).toInt
    (state.item 8).toInt (state.item 9).toInt).setVoteDate (state.item 6).toVotes

/-! ## Change log -/

/-- Modelled from the spec: the kinds of change-log record of §3.4 (`Change::Kind`, declared
in a header that is not part of the sources). -/
inductive Change.Kind where
  | Balance | Storage | StorageRoot | Nonce | Create | Code | Touch
  | Ballot | Poll | Vote | SysVoteData | BRC | FBRC | FBalance
deriving DecidableEq, Repr

/-- Modelled from the spec: a change-log record of §3.4 (`struct Change`): kind, address and
the payload of the kind, with the member names `State::rollback` reads. -/
structure Change where
  kind : Change.Kind
  address : Address
  value : Nat := 0
  key : Nat := 0
  oldCode : Bytes := []
  vote : Address × Nat := (0, 0)
  sysVotedate : Address × Bool := (0, false)
deriving DecidableEq, Repr

/-! ## State -/

/-- Domain errors raised by `State` (the exception classes thrown in `State.cpp`).  The last
constructor, `DanglingPointer`, is not an exception: it marks a call in which the source
dereferences an `Account*` after a later `account()` call erased the cache entry it points to
(`clearCacheIfTooLarge`), which is undefined behaviour. -/
inductive Error where
  | NotEnoughCash | NotEnoughBallot | NotEnoughPoll | NotEnoughVoteLog
  | InvalidAddress | InvalidAddressAddr | InvalidSysAddress
  | InvalidAccountStartNonceInState | IncorrectAccountStartNonceInState
  | DanglingPointer
deriving DecidableEq, Repr

/-- Modelled from the spec: the backing node database of §2 (`OverlayDB`): code by code hash,
storage tries by root. -/
structure OverlayDB where
  code : List (Nat × Bytes) := []
  storage : List (Nat × List (Nat × Nat)) := []
deriving DecidableEq, Repr

/-- The members of `dev::brc::State`, with the account trie `m_state` as a key-to-record map
and the global random engine as the list of its future draws.  The root the trie `m_state` was
anchored at by `setRoot` is kept in `m_stateRoot`; it is `none` when the root is the one
computed from the contents (a fresh trie, or a trie a commit has written to). -/
structure State where
  m_db : OverlayDB := {}
  m_state : List (Address × RLPRecord) := []
  m_cache : List (Address × Account) := []
  m_unchangedCacheEntries : List Address := []
  m_nonExistingAccountsCache : List Address := []
  m_touched : List Address := []
  m_accountStartNonce : Nat := 0
  m_changeLog : List Change := []
  s_fixedHashEngine : List Nat := []
  m_stateRoot : Option Nat := none
deriving DecidableEq, Repr

/-- Result of a mutator: the state the object is left in, and the exception thrown, if any. -/
structure Outcome where
  error : Option Error
  state : State
deriving DecidableEq, Repr

/-- Normal return. -/
def Outcome.ok (s : State) : Outcome := { error := none, state := s }

/-- Exceptional return (`BOOST_THROW_EXCEPTION`). -/
def Outcome.throw (e : Error) (s : State) : Outcome := { error := some e, state := s }

/-- Sequencing of two calls: the second runs only if the first returned normally. -/
def Outcome.andThen (o : Outcome) (f : State → Outcome) : Outcome :=
  match o.error with
  | some _ => o
  | none => f o.state

namespace State

/-- Appends a record to the change log (`m_changeLog.emplace_back`). -/
def log (s : State) (c : Change) : State := { s with m_changeLog := s.m_changeLog ++ [c] }

/-- Applies an `Account` member function through a pointer to the cache entry of `addr`. -/
def modifyAccount (s : State) (addr : Address) (f : Account → Account) : State :=
  { s with m_cache := Map.modify s.m_cache addr f }

end State

/-- One iteration of the loop of `State::clearCacheIfTooLarge`: draw an index, swap the entry
with the last one and pop it, and erase the cache entry if it is not dirty. -/
def clearCacheStep (s : State) : State :=
  let n := s.m_unchangedCacheEntries.length
  let randomIndex := s.s_fixedHashEngine.headD 0 % n
  let addr := s.m_unchangedCacheEntries.getD randomIndex 0
  let entries := (s.m_unchangedCacheEntries.set randomIndex
    (s.m_unchangedCacheEntries.getD (n - 1) 0)).dropLast
  let cache := match Map.find s.m_cache addr with
    | some a => if !a.isDirty then Map.erase s.m_cache addr else s.m_cache
    | none => s.m_cache
  { s with m_unchangedCacheEntries := entries, m_cache := cache,
           s_fixedHashEngine := s.s_fixedHashEngine.tail }

/-- The loop of `State::clearCacheIfTooLarge`, bounded by the number of clean entries. -/
def clearCacheLoop : Nat → State → State
  | 0, s => s
  | fuel + 1, s =>
    if s.m_unchangedCacheEntries.length > 1000 then clearCacheLoop fuel (clearCacheStep s) else s

/-- The function `State::clearCacheIfTooLarge`. -/
def clearCacheIfTooLarge (s : State) : State :=
  clearCacheLoop s.m_unchangedCacheEntries.length s

/-- The function `State::account`: the cached entity, loaded from the trie if absent; `none`
is the null pointer.  A returned pointer is the cache entry of `_addr` in the new state. -/
def account (s : State) (_addr : Address) : Option Account × State :=
  match Map.find s.m_cache _addr with
  | some a => (some a, s)
  | none =>
    if _addr ∈ s.m_nonExistingAccountsCache then (none, s)
    else
      match Map.find s.m_state _addr with
      | none =>
        (none, { s with m_nonExistingAccountsCache :=
                          AddressSet.insert s.m_nonExistingAccountsCache _addr })
      | some stateBack =>
        let s1 := clearCacheIfTooLarge s
        let a := decodeAccount stateBack
        (some a, { s1 with m_cache := Map.emplace s1.m_cache _addr a,
                           m_unchangedCacheEntries := s1.m_unchangedCacheEntries ++ [_addr] })

/-- The function `State::requireAccountStartNonce`; `none` is the thrown
`InvalidAccountStartNonceInState`. -/
def requireAccountStartNonce (s : State) : Option Nat :=
  if s.m_accountStartNonce = Invalid256 then none else some s.m_accountStartNonce

/-- The function `State::createAccount` (its `assert` is a precondition, not executed). -/
def createAccount (s : State) (_address : Address) (_account : Account) : State :=
  { s with m_cache := Map.assign s.m_cache _address _account,
           m_nonExistingAccountsCache := AddressSet.erase s.m_nonExistingAccountsCache _address,
           m_changeLog := s.m_changeLog ++ [{ kind := Change.Kind.Create, address := _address }] }

/-! ## Reads -/

/-- The function `State::addressInUse`. -/
def addressInUse (s : State) (_id : Address) : Bool × State :=
  let r := account s _id
  (r.1.isSome, r.2)

/-- The function `State::balance`. -/
def balance (s : State) (_id : Address) : Nat × State :=
  let r := account s _id
  match r.1 with
  | some a => (a.balance, r.2)
  | none => (0, r.2)

/-- The function `State::ballot`. -/
def ballot (s : State) (_id : Address) : Nat × State :=
  let r := account s _id
  match r.1 with
  | some a => (a.ballot, r.2)
  | none => (0, r.2)

/-- The function `State::BRC`. -/
def BRC (s : State) (_id : Address) : Nat × State :=
  let r := account s _id
  match r.1 with
  | some a => (a.brc, r.2)
  | none => (0, r.2)

/-- The function `State::FBRC`. -/
def FBRC (s : State) (_id : Address) : Nat × State :=
  let r := account s _id
  match r.1 with
  | some a => (a.fbrc, r.2)
  | none => (0, r.2)

/-- The function `State::FBalance`. -/
def FBalance (s : State) (_id : Address) : Nat × State :=
  let r := account s _id
  match r.1 with
  | some a => (a.fbalance, r.2)
  | none => (0, r.2)

/-- The function `State::poll`. -/
def poll (s : State) (_addr : Address) : Nat × State :=
  let r := account s _addr
  match r.1 with
  | some a => (a.poll, r.2)
  | none => (0, r.2)

/-- The function `State::voteAll`. -/
def voteAll (s : State) (_id : Address) : Nat × State :=
  let r := account s _id
  match r.1 with
  | some a => (a.voteAll, r.2)
  | none => (0, r.2)

/-- The function `State::voteAdress`. -/
def voteAdress (s : State) (_id _recivedAddr : Address) : Nat × State :=
  let r := account s _id
  match r.1 with
  | some a => (a.vote _recivedAddr, r.2)
  | none => (0, r.2)

/-- The function `State::getNonce`. -/
def getNonce (s : State) (_addr : Address) : Nat × State :=
  let r := account s _addr
  match r.1 with
  | some a => (a.nonce, r.2)
  | none => (s.m_accountStartNonce, r.2)

/-! ## Mutators -/

/-- The function `State::incNonce`. -/
def incNonce (s : State) (_addr : Address) : Outcome :=
  let r := account s _addr
  match r.1 with
  | some a =>
    Outcome.ok ((r.2.modifyAccount _addr Account.incNonce).log
      { kind := Change.Kind.Nonce, address := _addr, value := a.nonce })
  | none =>
    match requireAccountStartNonce r.2 with
    | none => Outcome.throw Error.InvalidAccountStartNonceInState r.2
    | some n => Outcome.ok (createAccount r.2 _addr (Account.create (u256.add n 1) 0))

/-- The function `State::setNonce`. -/
def setNonce (s : State) (_addr : Address) (_newNonce : Nat) : Outcome :=
  let r := account s _addr
  match r.1 with
  | some a =>
    Outcome.ok ((r.2.modifyAccount _addr (fun x => x.setNonce _newNonce)).log
      { kind := Change.Kind.Nonce, address := _addr, value := a.nonce })
  | none => Outcome.ok (createAccount r.2 _addr (Account.create _newNonce 0))

/-- The common tail `if (_amount) m_changeLog.emplace_back(kind, _id, _amount)`. -/
def logIfNonZero (s : State) (kind : Change.Kind) (_id : Address) (_amount : Nat) : State :=
  if _amount ≠ 0 then s.log { kind := kind, address := _id, value := _amount } else s

/-- The common head `if (!a->isDirty() && a->isEmpty()) m_changeLog.emplace_back(Touch, _id)`. -/
def logTouch (s : State) (a : Account) (_id : Address) : State :=
  if !a.isDirty && a.isEmpty then s.log { kind := Change.Kind.Touch, address := _id } else s

/-- The function `State::addBalance`. -/
def addBalance (s : State) (_id : Address) (_amount : Nat) : Outcome :=
  let r := account s _id
  match r.1 with
  | some a =>
    Outcome.ok (logIfNonZero
      ((logTouch r.2 a _id).modifyAccount _id (fun x => x.addBalance _amount))
      Change.Kind.Balance _id _amount)
  | none =>
    match requireAccountStartNonce r.2 with
    | none => Outcome.throw Error.InvalidAccountStartNonceInState r.2
    | some n =>
      Outcome.ok (logIfNonZero (createAccount r.2 _id (Account.create n _amount))
        Change.Kind.Balance _id _amount)

/-- The function `State::addBallot`. -/
def addBallot (s : State) (_id : Address) (_amount : Nat) : Outcome :=
  let r := account s _id
  match r.1 with
  | some a =>
    Outcome.ok (logIfNonZero
      ((logTouch r.2 a _id).modifyAccount _id (fun x => x.addBallot _amount))
      Change.Kind.Ballot _id _amount)
  | none => Outcome.throw Error.InvalidAddress r.2

/-- The function `State::subBalance`. -/
def subBalance (s : State) (_addr : Address) (_value : Nat) : Outcome :=
  if _value = 0 then Outcome.ok s
  else
    let r := account s _addr
    match r.1 with
    | none => Outcome.throw Error.NotEnoughCash r.2
    | some a =>
      if a.balance < _value then Outcome.throw Error.NotEnoughCash r.2
      else addBalance r.2 _addr (u256.sub 0 _value)

/-- The function `State::subBallot`. -/
def subBallot (s : State) (_addr : Address) (_value : Nat) : Outcome :=
  if _value = 0 then Outcome.ok s
  else
    let r := account s _addr
    match r.1 with
    | none => Outcome.throw Error.NotEnoughBallot r.2
    | some a =>
      if a.ballot < _value then Outcome.throw Error.NotEnoughBallot r.2
      else addBallot r.2 _addr (u256.sub 0 _value)

/-- The function `State::setBalance`. -/
def setBalance (s : State) (_addr : Address) (_value : Nat) : Outcome :=
  let r := account s _addr
  let original := match r.1 with
    | some a => a.balance
    | none => 0
  addBalance r.2 _addr (u256.sub _value original)

/-- The function `State::addBRC`. -/
def addBRC (s : State) (_addr : Address) (_value : Nat) : Outcome :=
  let r := account s _addr
  match r.1 with
  | some a =>
    Outcome.ok (logIfNonZero
      ((logTouch r.2 a _addr).modifyAccount _addr (fun x => x.addBRC _value))
      Change.Kind.BRC _addr _value)
  | none =>
    match requireAccountStartNonce r.2 with
    | none => Outcome.throw Error.InvalidAccountStartNonceInState r.2
    | some n =>
      Outcome.ok (logIfNonZero (createAccount r.2 _addr (Account.createBRC n 0 _value))
        Change.Kind.BRC _addr _value)

/-- The function `State::subBRC`. -/
def subBRC (s : State) (_addr : Address) (_value : Nat) : Outcome :=
  if _value = 0 then Outcome.ok s
  else
    let r := account s _addr
    match r.1 with
    | none => Outcome.throw Error.NotEnoughCash r.2
    | some a =>
      if a.brc < _value then Outcome.throw Error.NotEnoughCash r.2
      else addBRC r.2 _addr (u256.sub 0 _value)

/-- The function `State::setBRC`. -/
def setBRC (s : State) (_addr : Address) (_value : Nat) : Outcome :=
  let r := account s _addr
  let original := match r.1 with
    | some a => a.brc
    | none => 0
  addBRC r.2 _addr (u256.sub _value original)

/-- The function `State::addFBRC`. -/
def addFBRC (s : State) (_addr : Address) (_value : Nat) : Outcome :=
  let r := account s _addr
  let s1 := match r.1 with
    | some a => (logTouch r.2 a _addr).modifyAccount _addr (fun x => x.addFBRC _value)
    | none => r.2
  Outcome.ok (logIfNonZero s1 Change.Kind.FBRC _addr _value)

/-- The function `State::subFBRC`. -/
def subFBRC (s : State) (_addr : Address) (_value : Nat) : Outcome :=
  if _value = 0 then Outcome.ok s
  else
    let r := account s _addr
    match r.1 with
    | none => Outcome.throw Error.NotEnoughCash r.2
    | some a =>
      if a.fbrc < _value then Outcome.throw Error.NotEnoughCash r.2
      else addFBRC r.2 _addr (u256.sub 0 _value)

/-- The function `State::addFBalance`. -/
def addFBalance (s : State) (_addr : Address) (_value : Nat) : Outcome :=
  let r := account s _addr
  let s1 := match r.1 with
    | some a => (logTouch r.2 a _addr).modifyAccount _addr (fun x => x.addFBalance _value)
    | none => r.2
  Outcome.ok (logIfNonZero s1 Change.Kind.FBalance _addr _value)

/-- The function `State::subFBalance`. -/
def subFBalance (s : State) (_addr : Address) (_value : Nat) : Outcome :=
  if _value = 0 then Outcome.ok s
  else
    let r := account s _addr
    match r.1 with
    | none => Outcome.throw Error.NotEnoughCash r.2
    | some a =>
      if a.fbalance < _value then Outcome.throw Error.NotEnoughCash r.2
      else addFBalance r.2 _addr (u256.sub 0 _value)

/-- The function `State::kill`. -/
def kill (s : State) (_addr : Address) : State :=
  let r := account s _addr
  match r.1 with
  | some _ => r.2.modifyAccount _addr Account.kill
  | none => r.2

/-- The function `State::addPoll`. -/
def addPoll (s : State) (_addr : Address) (_value : Nat) : Outcome :=
  let r := account s _addr
  match r.1 with
  | some _ =>
    Outcome.ok (logIfNonZero (r.2.modifyAccount _addr (fun x => x.addBalance _value))
      Change.Kind.Poll _addr _value)
  | none => Outcome.throw Error.InvalidAddressAddr r.2

/-- The function `State::subPoll`. -/
def subPoll (s : State) (_addr : Address) (_value : Nat) : Outcome :=
  if _value = 0 then Outcome.ok s
  else
    let r := account s _addr
    match r.1 with
    | none => Outcome.throw Error.NotEnoughPoll r.2
    | some a =>
      if a.poll < _value then Outcome.throw Error.NotEnoughPoll r.2
      else addPoll r.2 _addr (u256.sub 0 _value)

/-- The function `State::addVote`.  The pointer `a` is fetched before `account(_recivedAddr)`
and dereferenced after it: it is read through the cache entry of `_id` in the state after the
second lookup, and the call is marked `DanglingPointer` when that lookup erased the entry. -/
def addVote (s : State) (_id _recivedAddr : Address) (_value : Nat) : Outcome :=
  let r := account s _id
  let rec_r := account r.2 _recivedAddr
  match r.1, rec_r.1 with
  | some _, some _ =>
    match Map.find rec_r.2.m_cache _id with
    | none => Outcome.throw Error.DanglingPointer rec_r.2
    | some a =>
      if a.ballot < _value then Outcome.throw Error.NotEnoughBallot rec_r.2
      else
        let s1 := rec_r.2.modifyAccount _id (fun x => x.addBallot (u256.sub 0 _value))
        let s2 := s1.modifyAccount _recivedAddr (fun x => x.addPoll _value)
        let s3 := s2.modifyAccount _id (fun x => x.addVote (_recivedAddr, _value))
        if _value ≠ 0 then
          Outcome.ok (((s3.log
            { kind := Change.Kind.Vote, address := _id, vote := (_recivedAddr, _value) }).log
            { kind := Change.Kind.Ballot, address := _id, value := u256.sub 0 _value }).log
            { kind := Change.Kind.Poll, address := _id, value := _value })
        else Outcome.ok s3
  | _, _ => Outcome.throw Error.InvalidAddressAddr rec_r.2

/-- The clamp `if (rec_a->poll() < _value) _value = rec_a->poll();` of `State::subVote`. -/
def clampTo (poll _value : Nat) : Nat := if poll < _value then poll else _value

/-- The function `State::subVote`.  The pointer `rec_a` is fetched before `account(_id)` and
dereferenced after the voter's entry has been updated: the receiver's poll is read through its
cache entry, and the call is marked `DanglingPointer` when the second lookup erased it. -/
def subVote (s : State) (_id _recivedAddr : Address) (_value : Nat) : Outcome :=
  let rec_r := account s _recivedAddr
  let r := account rec_r.2 _id
  match r.1, rec_r.1 with
  | some a, some _ =>
    if a.vote _recivedAddr < _value then Outcome.throw Error.NotEnoughVoteLog r.2
    else
      let s1 := r.2.modifyAccount _id (fun x => x.addVote (_recivedAddr, u256.sub 0 _value))
      let s2 := s1.modifyAccount _id (fun x => x.addBallot _value)
      match Map.find s2.m_cache _recivedAddr with
      | none => Outcome.throw Error.DanglingPointer s2
      | some rec_a =>
        let clamped := clampTo rec_a.poll _value
        let s3 := s2.modifyAccount _recivedAddr (fun x => x.addPoll (u256.sub 0 clamped))
        Outcome.ok
          (if clamped ≠ 0 then
            ((s3.log
              { kind := Change.Kind.Vote, address := _id,
                vote := (_recivedAddr, u256.sub 0 clamped) }).log
              { kind := Change.Kind.Ballot, address := _id, value := clamped }).log
              { kind := Change.Kind.Poll, address := _id, value := u256.sub 0 clamped }
           else s3)
  | _, _ => Outcome.throw Error.InvalidAddressAddr r.2

/-- The function `State::addSysVoteDate`.  The pointer `sysAddr` is dereferenced after
`account(_id)`: the call is marked `DanglingPointer` when that lookup erased its entry. -/
def addSysVoteDate (s : State) (_sysAddress _id : Address) : Outcome :=
  let sys_r := account s _sysAddress
  let r := account sys_r.2 _id
  let created : Outcome :=
    match sys_r.1 with
    | some _ => Outcome.ok r.2
    | none =>
      match requireAccountStartNonce r.2 with
      | none => Outcome.throw Error.InvalidAccountStartNonceInState r.2
      | some n =>
        Outcome.ok (account (createAccount r.2 _sysAddress (Account.create n 0)) _sysAddress).2
  created.andThen (fun t =>
    match r.1 with
    | none => Outcome.throw Error.InvalidAddressAddr t
    | some _ =>
      match Map.find t.m_cache _sysAddress with
      | none => Outcome.throw Error.DanglingPointer t
      | some _ =>
        Outcome.ok ((t.modifyAccount _sysAddress (fun x => x.manageSysVote _id true)).log
          { kind := Change.Kind.SysVoteData, address := _sysAddress,
            sysVotedate := (_id, true) }))

/-- The function `State::subSysVoteDate`.  The pointer `sysAddr` is dereferenced after
`account(_id)`: the call is marked `DanglingPointer` when that lookup erased its entry. -/
def subSysVoteDate (s : State) (_sysAddress _id : Address) : Outcome :=
  let sys_r := account s _sysAddress
  let r := account sys_r.2 _id
  match sys_r.1 with
  | none => Outcome.throw Error.InvalidSysAddress r.2
  | some _ =>
    match r.1 with
    | none => Outcome.throw Error.InvalidAddressAddr r.2
    | some _ =>
      match Map.find r.2.m_cache _sysAddress with
      | none => Outcome.throw Error.DanglingPointer r.2
      | some _ =>
        Outcome.ok ((r.2.modifyAccount _sysAddress (fun x => x.manageSysVote _id false)).log
          { kind := Change.Kind.SysVoteData, address := _sysAddress,
            sysVotedate := (_id, false) })

/-- The function `State::transferBallotBuy`; the constant `BALLOTPRICE`, declared outside the
sources, is a parameter. -/
def transferBallotBuy (BALLOTPRICE : Nat) (s : State) (_from _to : Address) (_value : Nat) :
    Outcome :=
  (subBRC s _from (u256.mul _value BALLOTPRICE)).andThen (fun s1 =>
    (addBRC s1 _to (u256.mul _value BALLOTPRICE)).andThen (fun s2 =>
      addBallot s2 _from _value))

/-- The function `State::transferBallotSell`; the constant `BALLOTPRICE`, declared outside the
sources, is a parameter. -/
def transferBallotSell (BALLOTPRICE : Nat) (s : State) (_from _to : Address) (_value : Nat) :
    Outcome :=
  (subBallot s _from _value).andThen (fun s1 =>
    (addBRC s1 _from (u256.mul _value BALLOTPRICE)).andThen (fun s2 =>
      subBRC s2 _to BALLOTPRICE))

/-- Modelled from the spec: the four order kinds of §4.6 (`PendingOrderEnum`, declared in a
header that is not part of the sources). -/
inductive PendingOrderEnum where
  | EBuyBrcPendingOrder | ESellBrcPendingOrder | EBuyFuelPendingOrder | ESellFuelPendingOrder
deriving DecidableEq, Repr

/-- The function `State::brcPendingOrder` (the time stamp it takes and the order hash are not
used). -/
def brcPendingOrder (s : State) (_addr : Address) (_value _pendingOrderPrice : Nat)
    (_pendingOrderHash : Nat) (_pendingOrderType : PendingOrderEnum) : Outcome :=
  match _pendingOrderType with
  | PendingOrderEnum.EBuyBrcPendingOrder =>
    (subBalance s _addr (u256.mul _value _pendingOrderPrice)).andThen (fun t =>
      addFBalance t _addr (u256.mul _value _pendingOrderPrice))
  | PendingOrderEnum.ESellBrcPendingOrder =>
    (subBRC s _addr _value).andThen (fun t => addFBRC t _addr _value)
  | _ => Outcome.ok s

/-- The function `State::fuelPendingOrder` (the time stamp it takes and the order hash are not
used). -/
def fuelPendingOrder (s : State) (_addr : Address) (_value _pendingOrderPrice : Nat)
    (_pendingOrderHash : Nat) (_pendingOrderType : PendingOrderEnum) : Outcome :=
  match _pendingOrderType with
  | PendingOrderEnum.EBuyFuelPendingOrder =>
    (subBRC s _addr (u256.mul _value _pendingOrderPrice)).andThen (fun t =>
      addFBRC t _addr (u256.mul _value _pendingOrderPrice))
  | PendingOrderEnum.ESellFuelPendingOrder =>
    (subBalance s _addr _value).andThen (fun t => addFBalance t _addr _value)
  | _ => Outcome.ok s

/-- The function `State::cancelPendingOrder`: the four branches on the order type are empty,
and the same two calls follow for every type. -/
def cancelPendingOrder (s : State) (_addr : Address) (_value : Nat)
    (_pendingOrderType : PendingOrderEnum) (_pendingOrderHash : Nat) : Outcome :=
  (subFBRC s _addr _value).andThen (fun t => addBRC t _addr _value)

/-- The calls of the mutators of `State` that either raise before they change anything or do
not raise at all: the primitive add / sub / set operations, the nonce operations, `addVote`,
`subVote`, `subSysVoteDate`, and the order operations. -/
inductive Call where
  | addBalance (addr amount : Nat)
  | subBalance (addr value : Nat)
  | setBalance (addr value : Nat)
  | addBRC (addr value : Nat)
  | subBRC (addr value : Nat)
  | setBRC (addr value : Nat)
  | addFBRC (addr value : Nat)
  | subFBRC (addr value : Nat)
  | addFBalance (addr value : Nat)
  | subFBalance (addr value : Nat)
  | addBallot (addr amount : Nat)
  | subBallot (addr value : Nat)
  | addPoll (addr value : Nat)
  | subPoll (addr value : Nat)
  | incNonce (addr : Nat)
  | setNonce (addr newNonce : Nat)
  | addVote (voter receiver value : Nat)
  | subVote (voter receiver value : Nat)
  | subSysVoteDate (sysAddress member : Nat)
  | brcPendingOrder (addr value price hash : Nat) (type : PendingOrderEnum)
  | fuelPendingOrder (addr value price hash : Nat) (type : PendingOrderEnum)
  | cancelPendingOrder (addr value : Nat) (type : PendingOrderEnum) (hash : Nat)

/-- Runs a call on a state. -/
def Call.run (c : Call) (s : State) : Outcome :=
  match c with
  | .addBalance a v => Brc.addBalance s a v
  | .subBalance a v => Brc.subBalance s a v
  | .setBalance a v => Brc.setBalance s a v
  | .addBRC a v => Brc.addBRC s a v
  | .subBRC a v => Brc.subBRC s a v
  | .setBRC a v => Brc.setBRC s a v
  | .addFBRC a v => Brc.addFBRC s a v
  | .subFBRC a v => Brc.subFBRC s a v
  | .addFBalance a v => Brc.addFBalance s a v
  | .subFBalance a v => Brc.subFBalance s a v
  | .addBallot a v => Brc.addBallot s a v
  | .subBallot a v => Brc.subBallot s a v
  | .addPoll a v => Brc.addPoll s a v
  | .subPoll a v => Brc.subPoll s a v
  | .incNonce a => Brc.incNonce s a
  | .setNonce a n => Brc.setNonce s a n
  | .addVote v r x => Brc.addVote s v r x
  | .subVote v r x => Brc.subVote s v r x
  | .subSysVoteDate y m => Brc.subSysVoteDate s y m
  | .brcPendingOrder a v p h t => Brc.brcPendingOrder s a v p h t
  | .fuelPendingOrder a v p h t => Brc.fuelPendingOrder s a v p h t
  | .cancelPendingOrder a v t h => Brc.cancelPendingOrder s a v t h

/-! ## Savepoint and rollback -/

/-- The function `State::savepoint`. -/
def savepoint (s : State) : Nat := s.m_changeLog.length

/-- The body of the loop of `State::rollback` for the record `change` at the back of the log:
`m_cache[change.address]` (which inserts a default account for a missing key), the undo
selected by the kind, and `pop_back`. -/
def rollbackStep (sha3 : Bytes → Nat) (s : State) (change : Change) : State :=
  let s0 : State := { s with m_cache := Map.emplace s.m_cache change.address Account.init }
  let s1 : State :=
    match change.kind with
    | Change.Kind.Storage =>
      s0.modifyAccount change.address (fun x => x.setStorage change.key change.value)
    | Change.Kind.StorageRoot =>
      s0.modifyAccount change.address (fun x => x.setStorageRoot change.value)
    | Change.Kind.Balance =>
      s0.modifyAccount change.address (fun x => x.addBalance (u256.sub 0 change.value))
    | Change.Kind.BRC =>
      s0.modifyAccount change.address (fun x => x.addBRC (u256.sub 0 change.value))
    | Change.Kind.Nonce =>
      s0.modifyAccount change.address (fun x => x.setNonce change.value)
    | Change.Kind.Create =>
      { s0 with m_cache := Map.erase s0.m_cache change.address }
    | Change.Kind.Code =>
      s0.modifyAccount change.address (fun x => x.setCode sha3 change.oldCode)
    | Change.Kind.Touch =>
      { s0.modifyAccount change.address Account.untouch with
        m_unchangedCacheEntries := s0.m_unchangedCacheEntries ++ [change.address] }
    | Change.Kind.Ballot =>
      s0.modifyAccount change.address (fun x => x.addBallot (u256.sub 0 change.value))
    | Change.Kind.Poll =>
      s0.modifyAccount change.address (fun x => x.addPoll (u256.sub 0 change.value))
    | Change.Kind.Vote =>
      s0.modifyAccount change.address (fun x => x.addVote change.vote)
    | Change.Kind.SysVoteData =>
      s0.modifyAccount change.address
        (fun x => x.manageSysVote change.sysVotedate.1 (!change.sysVotedate.2))
    | Change.Kind.FBRC =>
      s0.modifyAccount change.address (fun x => x.addFBRC (u256.sub 0 change.value))
    | Change.Kind.FBalance =>
      s0.modifyAccount change.address (fun x => x.addFBalance (u256.sub 0 change.value))
  { s1 with m_changeLog := s1.m_changeLog.dropLast }

/-- The loop `while (_savepoint != m_changeLog.size())` of `State::rollback`, bounded by the
length of the log. -/
def rollbackLoop (sha3 : Bytes → Nat) : Nat → Nat → State → State
  | 0, _, s => s
  | fuel + 1, _savepoint, s =>
    if _savepoint ≠ s.m_changeLog.length then
      match s.m_changeLog.getLast? with
      | some change => rollbackLoop sha3 fuel _savepoint (rollbackStep sha3 s change)
      | none => s
    else s

/-- The function `State::rollback`. -/
def rollback (sha3 : Bytes → Nat) (s : State) (_savepoint : Nat) : State :=
  rollbackLoop sha3 s.m_changeLog.length _savepoint s

/-! ## Start nonce, contract creation and commit -/

/-- The function `State::noteAccountStartNonce`. -/
def noteAccountStartNonce (s : State) (_actual : Nat) : Outcome :=
  if s.m_accountStartNonce = Invalid256 then
    Outcome.ok { s with m_accountStartNonce := _actual }
  else if s.m_accountStartNonce ≠ _actual then
    Outcome.throw Error.IncorrectAccountStartNonceInState s
  else Outcome.ok s

/-- The function `State::createContract`. -/
def createContract (s : State) (_address : Address) : Outcome :=
  match requireAccountStartNonce s with
  | none => Outcome.throw Error.InvalidAccountStartNonceInState s
  | some n => Outcome.ok (createAccount s _address (Account.create n 0))

/-- The function `State::removeEmptyAccounts`. -/
def removeEmptyAccounts (s : State) : State :=
  { s with
    m_cache :=
      s.m_cache.map (fun i => if i.2.isDirty && i.2.isEmpty then (i.1, i.2.kill) else i) }

/-- Modelled from the spec: the two commit behaviours of §4.7 (`State::CommitBehaviour`,
declared in a header that is not part of the sources). -/
inductive CommitBehaviour where
  | KeepEmptyAccounts | RemoveEmptyAccounts
deriving DecidableEq, Repr

/-- Modelled from the spec: the flush of a storage overlay of §4.7 (`SecureTrieDB<h256, DB>`
is not part of the sources).  The sub-trie stored under `baseRoot` gets a `put` for every
non-zero value and a `remove` for every zero value; the new contents are stored under their
root, computed by the parameter `trieRoot`.  Returns the new root and the database. -/
def flushStorage (trieRoot : List (Nat × Nat) → Nat) (db : OverlayDB) (baseRoot : Nat)
    (overlay : List (Nat × Nat)) : Nat × OverlayDB :=
  let base := (Map.find db.storage baseRoot).getD []
  let contents := overlay.foldl
    (fun t j => if j.2 ≠ 0 then Map.assign t j.1 j.2 else Map.erase t j.1) base
  (trieRoot contents, { db with storage := Map.assign db.storage (trieRoot contents) contents })

/-- The record `dev::brc::commit` streams for an account (`RLPStream s(10)`): nonce, balance,
storage root, code hash, ballot, poll, the vote ledger as a count followed by the pairs, BRC,
FBRC and FBalance. -/
def encodeAccount (storageRoot : Nat) (a : Account) : RLPRecord :=
  [RLPItem.data a.nonce, RLPItem.data a.balance, RLPItem.data storageRoot,
   RLPItem.data a.codeHash, RLPItem.data a.ballot, RLPItem.data a.poll,
   RLPItem.votes a.voteLedger.length a.voteLedger,
   RLPItem.data a.brc, RLPItem.data a.fbrc, RLPItem.data a.fbalance]

/-- What `dev::brc::commit` has produced so far: the set of committed addresses, the account
trie and the node database under it. -/
structure CommitResult where
  ret : List Address := []
  state : List (Address × RLPRecord) := []
  db : OverlayDB := {}
deriving DecidableEq, Repr

/-- The body of the loop of `dev::brc::commit` for the cache entry `i`: a dirty entry is
removed from the trie when it is not alive, and otherwise its storage overlay is flushed, its
new code is stored under the code hash, and its record is inserted (the code-size cache is
not modelled). -/
def commitEntry (trieRoot : List (Nat × Nat) → Nat) (r : CommitResult)
    (i : Address × Account) : CommitResult :=
  if i.2.isDirty then
    if !i.2.isAlive then
      { r with state := Map.erase r.state i.1, ret := AddressSet.insert r.ret i.1 }
    else
      let flushed :=
        if i.2.storageOverlay.isEmpty then (i.2.storageRoot, r.db)
        else flushStorage trieRoot r.db i.2.storageRoot i.2.storageOverlay
      let db :=
        if i.2.hasNewCode then
          { flushed.2 with code := Map.assign flushed.2.code i.2.codeHash i.2.code }
        else flushed.2
      { state := Map.assign r.state i.1 (encodeAccount flushed.1 i.2), db := db,
        ret := AddressSet.insert r.ret i.1 }
  else r

/-- The function `dev::brc::commit`: the loop over the cache, in the order of the list. -/
def dev.brc.commit (trieRoot : List (Nat × Nat) → Nat) (_cache : List (Address × Account))
    (_state : List (Address × RLPRecord)) (db : OverlayDB) : CommitResult :=
  _cache.foldl (commitEntry trieRoot) { state := _state, db := db }

/-- The function `State::commit`.  The root the trie is anchored at stays the same when the
commit leaves the contents of the trie as they are, and is the root of the new contents
otherwise. -/
def commit (trieRoot : List (Nat × Nat) → Nat) (s : State)
    (_commitBehaviour : CommitBehaviour) : State :=
  let s1 := if _commitBehaviour = CommitBehaviour.RemoveEmptyAccounts
    then removeEmptyAccounts s else s
  let r := dev.brc.commit trieRoot s1.m_cache s1.m_state s1.m_db
  { s1 with m_touched := r.ret.foldl AddressSet.insert s1.m_touched,
            m_state := r.state, m_db := r.db,
            m_stateRoot := if r.state = s1.m_state then s1.m_stateRoot else none,
            m_changeLog := [], m_cache := [], m_unchangedCacheEntries := [] }

/-- A sequence of lookups `account(b)` for the addresses of `bs`, in order. -/
def loads (s : State) (bs : List Address) : State :=
  bs.foldl (fun t b => (account t b).2) s

/-! ## Storage, code and the trie root -/

/-- Modelled from the spec: `storageValue(key, db)` of §3.2: a value of the storage overlay
shadows the storage sub-trie stored under the storage root; a missing key reads 0. -/
def Account.storageValue (a : Account) (key : Nat) (db : OverlayDB) : Nat :=
  (Map.find a.storageOverlay key).getD
    ((Map.find ((Map.find db.storage a.storageRoot).getD []) key).getD 0)

/-- The function `State::storage(Address, u256)`. -/
def storage (s : State) (_id : Address) (_key : Nat) : Nat × State :=
  let r := account s _id
  ((r.1.map (fun a => a.storageValue _key r.2.m_db)).getD 0, r.2)

/-- The function `State::setStorage`: the record with the old value is appended, then the
value is written through `m_cache[_contract]` (which inserts a default account for a missing
key). -/
def setStorage (s : State) (_contract : Address) (_key _value : Nat) : State :=
  let r := storage s _contract _key
  let s1 := r.2.log
    { kind := Change.Kind.Storage, address := _contract, key := _key, value := r.1 }
  ({ s1 with m_cache := Map.emplace s1.m_cache _contract Account.init }).modifyAccount
    _contract (fun x => x.setStorage _key _value)

/-- The function `State::clearStorage`. -/
def clearStorage (s : State) (_contract : Address) : State :=
  let s0 : State := { s with m_cache := Map.emplace s.m_cache _contract Account.init }
  let oldHash := ((Map.find s0.m_cache _contract).map Account.storageRoot).getD EmptyTrie
  if oldHash = EmptyTrie then s0
  else
    (s0.log { kind := Change.Kind.StorageRoot, address := _contract, value := oldHash }
      ).modifyAccount _contract Account.clearStorage

/-- The function `State::code`: the code of the account, read from the database under the
code hash and noted in the entry when it is not resolved yet (`noteCode`, modelled from the
spec). -/
def code (s : State) (_addr : Address) : Bytes × State :=
  let r := account s _addr
  match r.1 with
  | none => ([], r.2)
  | some a =>
    if a.codeHash = EmptySHA3 then ([], r.2)
    else if a.code.isEmpty then
      ((Map.find r.2.m_db.code a.codeHash).getD [],
        r.2.modifyAccount _addr
          (fun x => { x with code := (Map.find r.2.m_db.code a.codeHash).getD [] }))
    else (a.code, r.2)

/-- The function `State::setCode`; the hash function is a parameter. -/
def setCode (sha3 : Bytes → Nat) (s : State) (_address : Address) (_code : Bytes) : State :=
  let r := code s _address
  let s1 := r.2.log { kind := Change.Kind.Code, address := _address, oldCode := r.1 }
  ({ s1 with m_cache := Map.emplace s1.m_cache _address Account.init }).modifyAccount
    _address (fun x => x.setCode sha3 _code)

/-- The function `State::setRoot`.  Modelled from the spec: `m_state.setRoot(_r)` re-anchors
the trie to the root `_r`; the contents the node database holds under a root are given by the
parameter `trieAt`. -/
def setRoot (trieAt : Nat → List (Address × RLPRecord)) (s : State) (_r : Nat) : State :=
  { s with m_cache := [], m_unchangedCacheEntries := [], m_nonExistingAccountsCache := [],
           m_state := trieAt _r, m_stateRoot := some _r }

/-- Modelled from the spec: `rootHash()` "returns `trie.root()`": the root the trie is anchored
at, which is the one given to `setRoot`, or else the root of the contents, computed by the root
function of the account trie (a parameter). -/
def rootHash (stateRoot : List (Address × RLPRecord) → Nat) (s : State) : Nat :=
  match s.m_stateRoot with
  | some r => r
  | none => stateRoot s.m_state

/-! ## Transaction execution -/

/-- The public mutators of `State` a transaction may call, beside the calls of `Call`. -/
inductive Op where
  | call (c : Call)
  | transferBallotBuy (_from _to : Address) (_value : Nat)
  | transferBallotSell (_from _to : Address) (_value : Nat)
  | addSysVoteDate (_sysAddress _id : Address)
  | createContract (_address : Address)
  | kill (_addr : Address)
  | setStorage (_contract : Address) (_key _value : Nat)
  | clearStorage (_contract : Address)
  | setCode (_address : Address) (_code : Bytes)

/-- Runs a mutator on a state. -/
def Op.run (sha3 : Bytes → Nat) (BALLOTPRICE : Nat) (op : Op) (s : State) : Outcome :=
  match op with
  | .call c => c.run s
  | .transferBallotBuy f t v => Brc.transferBallotBuy BALLOTPRICE s f t v
  | .transferBallotSell f t v => Brc.transferBallotSell BALLOTPRICE s f t v
  | .addSysVoteDate y m => Brc.addSysVoteDate s y m
  | .createContract a => Brc.createContract s a
  | .kill a => Outcome.ok (Brc.kill s a)
  | .setStorage a k v => Outcome.ok (Brc.setStorage s a k v)
  | .clearStorage a => Outcome.ok (Brc.clearStorage s a)
  | .setCode a c => Outcome.ok (Brc.setCode sha3 s a c)

/-- A sequence of mutator calls; it stops at the first call that raises. -/
def runOps (sha3 : Bytes → Nat) (BALLOTPRICE : Nat) : List Op → State → Outcome
  | [], s => Outcome.ok s
  | op :: rest, s => (op.run sha3 BALLOTPRICE s).andThen (runOps sha3 BALLOTPRICE rest)

/-- An exception that leaves the VM: a domain error of a mutator, or an internal one. -/
inductive Exception where
  | domain (e : Error)
  | internal (what : Nat)
deriving DecidableEq, Repr

/-- How a run of the VM ends after its calls: a normal return with the status code of
`finalize()`, or an internal exception. -/
inductive VMEnd where
  | returns (status : Bool)
  | raises (what : Nat)
deriving DecidableEq, Repr

/-- Modelled from the spec: a run of the VM (`Executive::initialize`, `execute`, `go` and
`finalize`, which are not part of the sources) as a sequence of mutator calls followed by a
normal return or an exception. -/
structure VMRun where
  ops : List Op
  finish : VMEnd

/-- What a transaction leaves: the exception thrown, if any, the status code, the state. -/
structure Execution where
  thrown : Option Exception
  status : Bool
  state : State
deriving DecidableEq, Repr

/-- The `try` block of `State::executeTransaction`: the run of the VM. -/
def VMRun.exec (sha3 : Bytes → Nat) (BALLOTPRICE : Nat) (run : VMRun) (s : State) :
    Execution :=
  match (runOps sha3 BALLOTPRICE run.ops s).error with
  | some e =>
    { thrown := some (Exception.domain e), status := false,
      state := (runOps sha3 BALLOTPRICE run.ops s).state }
  | none =>
    match run.finish with
    | VMEnd.returns status =>
      { thrown := none, status := status,
        state := (runOps sha3 BALLOTPRICE run.ops s).state }
    | VMEnd.raises what =>
      { thrown := some (Exception.internal what), status := false,
        state := (runOps sha3 BALLOTPRICE run.ops s).state }

/-- The function `State::executeTransaction`: on an exception, `rollback(savept)` and
rethrow. -/
def executeTransaction (sha3 : Bytes → Nat) (BALLOTPRICE : Nat) (s : State) (run : VMRun) :
    Execution :=
  let savept := savepoint s
  let r := run.exec sha3 BALLOTPRICE s
  match r.thrown with
  | some _ => { r with state := rollback sha3 r.state savept }
  | none => r

/-- Modelled from the spec: the permanence of an execution (`Permanence`, declared in a
header that is not part of the sources). -/
inductive Permanence where
  | Reverted | Committed | Uncommitted
deriving DecidableEq, Repr

/-- The function `State::execute`, without the receipt: the transaction, then the switch on
the permanence; an exception of `executeTransaction` propagates.  The fork test that selects
the commit behaviour is the parameter `removeEmptyAccounts`. -/
def execute (sha3 : Bytes → Nat) (trieRoot : List (Nat × Nat) → Nat) (BALLOTPRICE : Nat)
    (s : State) (run : VMRun) (_p : Permanence) (removeEmptyAccounts : Bool) : Execution :=
  let r := executeTransaction sha3 BALLOTPRICE s run
  match r.thrown with
  | some _ => r
  | none =>
    match _p with
    | Permanence.Reverted => { r with state := { r.state with m_cache := [] } }
    | Permanence.Committed =>
      let behaviour := if removeEmptyAccounts then CommitBehaviour.RemoveEmptyAccounts
        else CommitBehaviour.KeepEmptyAccounts
      { r with state := commit trieRoot r.state behaviour }
    | Permanence.Uncommitted => r

/-! ## Paged address listing -/

/-- Insertion into the ordered map `AddressMap` (`std::map<h256, Address>`): the entries are
kept in increasing order of the key, and an existing key keeps its entry. -/
def AddressMap.emplace : List (Nat × Address) → Nat → Address → List (Nat × Address)
  | [], h, a => [(h, a)]
  | (h1, a1) :: t, h, a =>
    if h < h1 then (h, a) :: (h1, a1) :: t
    else if h = h1 then (h1, a1) :: t
    else (h1, a1) :: AddressMap.emplace t h a

/-- The map `cacheAddresses` of `State::addresses`: the hashed addresses of the dirty alive
cache entries whose hash is at least `_beginHash`. -/
def cacheAddresses (hash : Address → Nat) (cache : List (Address × Account))
    (_beginHash : Nat) : List (Nat × Address) :=
  cache.foldl (fun m i =>
    if i.2.isDirty && i.2.isAlive && decide (_beginHash ≤ hash i.1)
    then AddressMap.emplace m (hash i.1) i.1 else m) []

/-- The function `State::addresses(h256 const&, size_t)` built without `BRC_FATDB`: the
entries of the cache, merged into the empty result and cut after `_maxResults` entries; the
next key is the first key cut off, or zero.  The hash of an address is a parameter. -/
def addresses (hash : Address → Nat) (s : State) (_beginHash _maxResults : Nat) :
    List (Nat × Address) × Nat :=
  let merged := (cacheAddresses hash s.m_cache _beginHash).foldl
    (fun m p => AddressMap.emplace m p.1 p.2) []
  if merged.length > _maxResults then
    (merged.take _maxResults, ((merged.drop _maxResults).head?.map Prod.fst).getD 0)
  else (merged, 0)

/-! ## Peers -/

/-- The kinds of peer `Peer::fallbackSeconds` tells apart (`PeerType`, declared in a header
that is not part of the sources). -/
inductive PeerType where
  | Optional | Required
deriving DecidableEq, Repr

/-- The reasons of the last disconnect `Peer::fallbackSeconds` tells apart
(`DisconnectReason`, declared in a header that is not part of the sources); every reason
without a case of its own is `other`. -/
inductive DisconnectReason where
  | BadProtocol | UselessPeer | TooManyPeers | ClientQuit | NoDisconnect
  | other (reason : Nat)
deriving DecidableEq, Repr

/-- The members of `dev::p2p::Peer` that `fallbackSeconds` reads. -/
structure Peer where
  peerType : PeerType := PeerType.Optional
  m_lastDisconnect : DisconnectReason := DisconnectReason.NoDisconnect
  m_failedAttempts : Nat := 0
deriving DecidableEq, Repr

/-- The function `Peer::fallbackSeconds`, on `unsigned` (32 bits). -/
def Peer.fallbackSeconds (p : Peer) : Nat :=
  if p.peerType = PeerType.Required then 5
  else
    match p.m_lastDisconnect with
    | DisconnectReason.BadProtocol => (30 * ((p.m_failedAttempts + 1) % 2 ^ 32)) % 2 ^ 32
    | DisconnectReason.UselessPeer => (25 * ((p.m_failedAttempts + 1) % 2 ^ 32)) % 2 ^ 32
    | DisconnectReason.TooManyPeers => (25 * ((p.m_failedAttempts + 1) % 2 ^ 32)) % 2 ^ 32
    | DisconnectReason.ClientQuit => (15 * ((p.m_failedAttempts + 1) % 2 ^ 32)) % 2 ^ 32
    | _ =>
      if p.m_failedAttempts < 5 then
        if p.m_failedAttempts ≠ 0 then (p.m_failedAttempts * 5) % 2 ^ 32 else 5
      else if p.m_failedAttempts < 15 then
        (25 + ((p.m_failedAttempts - 5) * 10) % 2 ^ 32) % 2 ^ 32
      else
        (25 + 100 + ((p.m_failedAttempts - 15) * 20) % 2 ^ 32) % 2 ^ 32

/-- The attempt counts for which the `unsigned` arithmetic of `Peer::fallbackSeconds` does
not overflow, by branch. -/
def Peer.noOverflow (p : Peer) : Prop :=
  match p.m_lastDisconnect with
  | DisconnectReason.BadProtocol => 30 * (p.m_failedAttempts + 1) < 2 ^ 32
  | DisconnectReason.UselessPeer => 25 * (p.m_failedAttempts + 1) < 2 ^ 32
  | DisconnectReason.TooManyPeers => 25 * (p.m_failedAttempts + 1) < 2 ^ 32
  | DisconnectReason.ClientQuit => 15 * (p.m_failedAttempts + 1) < 2 ^ 32
  | _ => 125 + 20 * (p.m_failedAttempts - 15) < 2 ^ 32

/-! ## Eviction and frames -/

/-- The state `s'` is `s` after dropping cache entries that are not dirty: only the cache, the
clean-entry list and the random engine differ. -/
structure Evicts (s s' : State) : Prop where
  db : s'.m_db = s.m_db
  trie : s'.m_state = s.m_state
  nonExisting : s'.m_nonExistingAccountsCache = s.m_nonExistingAccountsCache
  touched : s'.m_touched = s.m_touched
  startNonce : s'.m_accountStartNonce = s.m_accountStartNonce
  changeLog : s'.m_changeLog = s.m_changeLog
  sub : ∀ p ∈ s'.m_cache, p ∈ s.m_cache
  cache : ∀ b, Map.find s'.m_cache b = Map.find s.m_cache b ∨
    (Map.find s'.m_cache b = none ∧ ∃ a, Map.find s.m_cache b = some a ∧ a.dirty = false)

/-- The cache entry of `b` is untouched or dropped: it is in `t` what it was in `s`, or it was
an entry that is not dirty and `clearCacheIfTooLarge` erased it (no field of it was written;
the account is read from the trie again by the next lookup). -/
def keptOrDropped (s t : State) (b : Address) : Prop :=
  Map.find t.m_cache b = Map.find s.m_cache b ∨
    (Map.find t.m_cache b = none ∧ ∃ a, Map.find s.m_cache b = some a ∧ a.dirty = false)

/-- Nothing was written outside the addresses of `touched` on the way from `s` to `t`: the
trie, the node database and the start nonce are the same, and for every other address the
membership in the non-existence set is the same and the cache entry is untouched or dropped. -/
structure Frame (s t : State) (touched : List Address) : Prop where
  trie : t.m_state = s.m_state
  db : t.m_db = s.m_db
  startNonce : t.m_accountStartNonce = s.m_accountStartNonce
  nonExisting : ∀ b, b ∉ touched →
    (b ∈ t.m_nonExistingAccountsCache ↔ b ∈ s.m_nonExistingAccountsCache)
  cache : ∀ b, b ∉ touched → keptOrDropped s t b

/-- The cache entry of `b` can be dropped without a visible difference: if it is not dirty,
it is the decoded trie record of `b`, and `b` is not in the non-existence set. -/
def State.coherentAt (s : State) (b : Address) : Prop :=
  match Map.find s.m_cache b with
  | some a =>
    a.dirty = false →
      b ∉ s.m_nonExistingAccountsCache ∧ (Map.find s.m_state b).map decodeAccount = some a
  | none => True

instance (s : State) (b : Address) : Decidable (s.coherentAt b) := by
  unfold State.coherentAt; split <;> exact inferInstance

/-- No field of the account `b` was written on the way from `s` to `t`: its cache entry is
what it was, or it was absent or not dirty and is now absent (dropped by the eviction) or the
decoded trie record of `b` (loaded by a lookup). -/
def unwritten (s t : State) (b : Address) : Prop :=
  Map.find t.m_cache b = Map.find s.m_cache b ∨
  ((∀ a, Map.find s.m_cache b = some a → a.dirty = false) ∧
    (Map.find t.m_cache b = none ∨
      Map.find t.m_cache b = (Map.find s.m_state b).map decodeAccount))

/-- The state `t` is `s` after lookups only: the change log, the trie, the node database and
the start nonce are the same, no field of any account was written, coherent cache entries stay
coherent, and a lookup of an address whose cache entry is coherent returns what it returned
before. -/
structure Untouched (s t : State) : Prop where
  changeLog : t.m_changeLog = s.m_changeLog
  trie : t.m_state = s.m_state
  db : t.m_db = s.m_db
  startNonce : t.m_accountStartNonce = s.m_accountStartNonce
  cache : ∀ b, unwritten s t b
  coherent : ∀ b, s.coherentAt b → t.coherentAt b
  view : ∀ b, s.coherentAt b → (account t b).1 = (account s b).1

/-- The address `A` holds the account `x` in `t`, and nothing was written outside `A` on the way
from `s` to `t`. -/
structure Updates (s t : State) (A : Address) (x : Account) : Prop where
  self : (account t A).1 = some x
  frame : Frame s t [A]

/-! ## Concrete states used in the witnesses and evaluations -/

/-- A state with one account (address 1, balance 5) in the trie and nothing cached. -/
def stTrie : State :=
  { m_state := [(1, [.data 0, .data 5, .data EmptyTrie, .data EmptySHA3, .data 0, .data 0,
      .votes 0 [], .data 0, .data 0, .data 0])] }

/-- A state with one committed account (address 1, balance 1000, nonce 0) and start nonce 0. -/
def stThousand : State :=
  { m_state := [(1, [.data 0, .data 1000, .data EmptyTrie, .data EmptySHA3, .data 0, .data 0,
      .votes 0 [], .data 0, .data 0, .data 0])] }

/-- A state whose cache holds one account (address 1, balance 10). -/
def stTen : State := { m_cache := [(1, Account.create 0 10)] }

/-- The empty state whose start nonce was never set (it holds the sentinel). -/
def stUnset : State := { m_accountStartNonce := Invalid256 }

/-- A state whose cache holds a voter (address 1, ballot 100) and a receiver (address 2). -/
def stVote : State :=
  { m_cache := [(1, { Account.create 0 0 with ballot := 100 }), (2, Account.create 0 0)] }

/-- The empty state with start nonce 0. -/
def stEmpty : State := {}

/-- A voter (address 1, ballot 1) whose ledger entry for the receiver (address 2, poll 0) is
the largest `u256`. -/
def stLedgerFull : State :=
  { m_cache := [(1, { Account.create 0 0 with ballot := 1, voteLedger := [(2, 2 ^ 256 - 1)] }),
                (2, Account.create 0 0)] }

/-- A voter (address 1, ballot 60, 40 votes recorded for address 2) and a receiver (address 2)
whose poll is 0. -/
def stPollZero : State :=
  { m_cache := [(1, { Account.create 0 0 with ballot := 60, voteLedger := [(2, 40)] }),
                (2, Account.create 0 0)] }

/-- A voter (address 1, ballot 60, 40 votes recorded for address 2) and a receiver (address 2)
whose poll is 10. -/
def stPollTen : State :=
  { m_cache := [(1, { Account.create 0 0 with ballot := 60, voteLedger := [(2, 40)] }),
                (2, { Account.create 0 0 with poll := 10 })] }

/-- A seller (address 1, ballot 10) and a buyer (address 2, BRC 100). -/
def stSell : State :=
  { m_cache := [(1, { Account.create 0 0 with ballot := 10 }),
                (2, { Account.create 0 0 with brc := 100 })] }

/-- An account (address 1) with balance 100, BRC 50 and empty frozen pools. -/
def stOrder : State := { m_cache := [(1, { Account.create 0 100 with brc := 50 })] }

/-- An account (address 1, BRC 100) in a state whose start nonce was never set. -/
def stUnsetBRC : State :=
  { m_cache := [(1, { Account.create 0 0 with brc := 100 })], m_accountStartNonce := Invalid256 }

/-- An account (address 1, balance 10) with one pending storage write, key 1 to value 5. -/
def stStorage : State :=
  { m_cache := [(1, { Account.create 0 10 with storageOverlay := [(1, 5)] })] }

/-- A state whose trie holds the record of an empty account (address 1: nonce 0, balance 0,
no code, and ballot, poll, BRC, frozen BRC and frozen balance 0), with nothing cached. -/
def stEmptyRecord : State :=
  { m_state := [(1, encodeAccount EmptyTrie (Account.create 0 0))] }

/-- The empty state with start nonce 5. -/
def stNonceFive : State := { m_accountStartNonce := 5 }

/-- A crowded cache.  The trie holds a voter (address 1, ballot 100, 40 votes recorded for
address 2000) and a receiver (address 2000, poll 40); the cache holds the entry of the voter
as loaded from the trie (not dirty); the clean-entry list names 1001 addresses, the first one
being the voter, and the next draw of the random engine is 0. -/
def stCrowded : State :=
  { m_state :=
      [(1, encodeAccount EmptyTrie
            { Account.create 0 0 with ballot := 100, voteLedger := [(2000, 40)] }),
       (2000, encodeAccount EmptyTrie { Account.create 0 0 with poll := 40 })],
    m_cache :=
      [(1, decodeAccount (encodeAccount EmptyTrie
            { Account.create 0 0 with ballot := 100, voteLedger := [(2000, 40)] }))],
    m_unchangedCacheEntries := List.range' 1 1001,
    s_fixedHashEngine := [0] }

/-- The crowded cache of `stCrowded` with the roles exchanged: the cache holds the entry of the
receiver (address 2000), first in the clean-entry list, and the voter is in the trie only. -/
def stCrowdedReceiver : State :=
  { m_state := stCrowded.m_state,
    m_cache := [(2000, decodeAccount (encodeAccount EmptyTrie
                  { Account.create 0 0 with poll := 40 }))],
    m_unchangedCacheEntries := 2000 :: List.range' 2 1000,
    s_fixedHashEngine := [0] }

/-! ## Lemmas on the containers -/

theorem Map.find_modify {β : Type} (m : List (Nat × β)) (k k' : Nat) (f : β → β) :
    Map.find (Map.modify m k f) k' =
      if k' = k then (Map.find m k').map f else Map.find m k' := by
  induction m with
  | nil => simp [Map.modify, Map.find]
  | cons p t ih =>
    obtain ⟨a, b⟩ := p
    have ih' : Map.find (List.map (fun p => if p.1 = k then (p.1, f p.2) else p) t) k' =
        if k' = k then (Map.find t k').map f else Map.find t k' := ih
    show Map.find ((if a = k then (a, f b) else (a, b)) ::
        List.map (fun p => if p.1 = k then (p.1, f p.2) else p) t) k' = _
    by_cases h1 : a = k
    · rw [if_pos h1]
      simp only [Map.find, ih']
      by_cases h2 : a = k'
      · have h3 : k' = k := by omega
        simp [h2, h3]
      · simp [h2]
    · rw [if_neg h1]
      simp only [Map.find, ih']
      by_cases h2 : a = k'
      · have h3 : ¬ k' = k := by omega
        simp [h2, h3]
      · simp [h2]

theorem Map.find_erase {β : Type} (m : List (Nat × β)) (k k' : Nat) :
    Map.find (Map.erase m k) k' = if k' = k then none else Map.find m k' := by
  induction m with
  | nil => simp [Map.erase, Map.find]
  | cons p t ih =>
    obtain ⟨a, b⟩ := p
    simp only [Map.erase] at ih ⊢
    by_cases h1 : a = k <;> by_cases h2 : a = k' <;> by_cases h3 : k' = k <;>
      simp_all [Map.find, List.filter_cons]

theorem Map.find_emplace {β : Type} (m : List (Nat × β)) (k k' : Nat) (v : β) :
    Map.find (Map.emplace m k v) k' =
      if k' = k then some ((Map.find m k).getD v) else Map.find m k' := by
  unfold Map.emplace
  cases h : Map.find m k with
  | none =>
    by_cases h3 : k' = k
    · subst h3; simp [Map.find]
    · have h4 : ¬ k = k' := fun e => h3 e.symm
      simp [Map.find, h3, h4]
  | some a =>
    by_cases h3 : k' = k
    · subst h3; simp [h]
    · simp [h3]

theorem Map.find_assign {β : Type} (m : List (Nat × β)) (k k' : Nat) (v : β) :
    Map.find (Map.assign m k v) k' = if k' = k then some v else Map.find m k' := by
  unfold Map.assign
  cases h : Map.find m k with
  | none => by_cases h3 : k' = k <;> simp_all [Map.find, eq_comm]
  | some a => by_cases h3 : k' = k <;> simp_all [Map.find_modify]

theorem Map.mem_of_find {β : Type} (m : List (Nat × β)) (k : Nat) (v : β)
    (h : Map.find m k = some v) : (k, v) ∈ m := by
  induction m with
  | nil => simp [Map.find] at h
  | cons p t ih =>
    obtain ⟨a, b⟩ := p
    by_cases h1 : a = k
    · simp_all [Map.find]
    · simp only [Map.find, h1, if_false] at h
      exact List.mem_cons_of_mem _ (ih h)

theorem AddressSet.mem_insert (s : List Nat) (k x : Nat) :
    x ∈ AddressSet.insert s k ↔ x = k ∨ x ∈ s := by
  unfold AddressSet.insert
  by_cases h : k ∈ s
  · simp only [h, if_true]
    constructor
    · intro hx; exact Or.inr hx
    · rintro (rfl | hx)
      · exact h
      · exact hx
  · simp [h]

theorem AddressSet.mem_erase (s : List Nat) (k x : Nat) :
    x ∈ AddressSet.erase s k ↔ x ≠ k ∧ x ∈ s := by
  simp [AddressSet.erase, and_comm]

/-! ## Lemmas on eviction and on `account` -/

theorem Evicts.refl (s : State) : Evicts s s :=
  ⟨rfl, rfl, rfl, rfl, rfl, rfl, fun _ h => h, fun _ => Or.inl rfl⟩

theorem Evicts.trans {s s' s'' : State} (h1 : Evicts s s') (h2 : Evicts s' s'') :
    Evicts s s'' := by
  refine ⟨h2.db.trans h1.db, h2.trie.trans h1.trie, h2.nonExisting.trans h1.nonExisting,
    h2.touched.trans h1.touched, h2.startNonce.trans h1.startNonce,
    h2.changeLog.trans h1.changeLog, fun p hp => h1.sub p (h2.sub p hp), fun b => ?_⟩
  rcases h2.cache b with e2 | ⟨n2, a, ha, hd⟩
  · rcases h1.cache b with e1 | ⟨n1, a, ha, hd⟩
    · exact Or.inl (e2.trans e1)
    · exact Or.inr ⟨e2.trans n1, a, ha, hd⟩
  · rcases h1.cache b with e1 | ⟨n1, a', ha', _⟩
    · exact Or.inr ⟨n2, a, e1 ▸ ha, hd⟩
    · rw [n1] at ha; cases ha

theorem evictOne_find (m : List (Nat × Account)) (addr b : Nat) :
    Map.find (match Map.find m addr with
        | some a => if !a.isDirty then Map.erase m addr else m
        | none => m) b = Map.find m b ∨
    (Map.find (match Map.find m addr with
        | some a => if !a.isDirty then Map.erase m addr else m
        | none => m) b = none ∧ ∃ a, Map.find m b = some a ∧ a.dirty = false) := by
  cases h : Map.find m addr with
  | none => exact Or.inl rfl
  | some a =>
    by_cases hd : a.dirty = true
    · left; simp [Account.isDirty, hd]
    · have hd' : a.dirty = false := by simpa using hd
      simp only [Account.isDirty, hd', Bool.not_false, if_true]
      rw [Map.find_erase]
      by_cases hb : b = addr
      · right; subst hb; exact ⟨by simp, a, h, hd'⟩
      · left; simp [hb]

theorem evictOne_sub (m : List (Nat × Account)) (addr : Nat) :
    ∀ p ∈ (match Map.find m addr with
        | some a => if !a.isDirty then Map.erase m addr else m
        | none => m), p ∈ m := by
  intro p hp
  cases h : Map.find m addr with
  | none => simpa [h] using hp
  | some a =>
    rw [h] at hp
    simp only at hp
    split at hp
    · exact (List.mem_filter.mp hp).1
    · exact hp

theorem clearCacheStep_evicts (s : State) : Evicts s (clearCacheStep s) :=
  ⟨rfl, rfl, rfl, rfl, rfl, rfl, evictOne_sub _ _, evictOne_find _ _⟩

theorem clearCacheLoop_evicts (fuel : Nat) (s : State) : Evicts s (clearCacheLoop fuel s) := by
  induction fuel generalizing s with
  | zero => exact Evicts.refl s
  | succ n ih =>
    unfold clearCacheLoop
    split
    · exact (clearCacheStep_evicts s).trans (ih _)
    · exact Evicts.refl s

theorem clearCacheIfTooLarge_evicts (s : State) : Evicts s (clearCacheIfTooLarge s) :=
  clearCacheLoop_evicts _ s

/-- What `account` returns: the cache entry, else nothing for a known non-existing address,
else the decoded trie record. -/
theorem account_fst (s : State) (b : Address) :
    (account s b).1 =
      match Map.find s.m_cache b with
      | some a => some a
      | none =>
        if b ∈ s.m_nonExistingAccountsCache then none
        else (Map.find s.m_state b).map decodeAccount := by
  unfold account
  cases h : Map.find s.m_cache b with
  | some a => rfl
  | none =>
    by_cases hn : b ∈ s.m_nonExistingAccountsCache
    · simp [hn]
    · cases ht : Map.find s.m_state b <;> simp [hn]

/-- The pointer returned by `account` is the cache entry of the address in the new state. -/
theorem account_find (s : State) (b : Address) :
    Map.find (account s b).2.m_cache b = (account s b).1 := by
  unfold account
  cases h : Map.find s.m_cache b with
  | some a => simpa using h
  | none =>
    by_cases hn : b ∈ s.m_nonExistingAccountsCache
    · simpa [hn] using h
    · cases ht : Map.find s.m_state b with
      | none => simpa [hn] using h
      | some r =>
        simp only [hn, if_false, Map.find_emplace, if_true]
        rcases (clearCacheIfTooLarge_evicts s).cache b with e | ⟨e, _⟩
        · rw [e, h]; rfl
        · rw [e]; rfl

theorem account_hit (s : State) (b : Address) (a : Account)
    (h : Map.find s.m_cache b = some a) : account s b = (some a, s) := by
  unfold account; simp [h]

theorem account_known_miss (s : State) (b : Address) (h : Map.find s.m_cache b = none)
    (hn : b ∈ s.m_nonExistingAccountsCache) : account s b = (none, s) := by
  unfold account; simp [h, hn]

theorem account_miss_mem (s : State) (b : Address) (h1 : (account s b).1 = none) :
    b ∈ (account s b).2.m_nonExistingAccountsCache := by
  unfold account at h1 ⊢
  cases h : Map.find s.m_cache b with
  | some a => simp [h] at h1
  | none =>
    by_cases hn : b ∈ s.m_nonExistingAccountsCache
    · simp [hn]
    · cases ht : Map.find s.m_state b with
      | none => simp [hn, AddressSet.mem_insert]
      | some r => simp [h, hn, ht] at h1

/-- A second lookup of the same address changes nothing. -/
theorem account_account (s : State) (b : Address) :
    account (account s b).2 b = account s b := by
  have hf := account_find s b
  cases h1 : (account s b).1 with
  | some a =>
    rw [h1] at hf
    rw [account_hit _ _ _ hf, ← h1]
  | none =>
    have hmem := account_miss_mem s b h1
    rw [h1] at hf
    rw [account_known_miss _ _ hf hmem, ← h1]

/-- The four ways `account` can return. -/
theorem account_cases (s : State) (b : Address) :
    (∃ a, Map.find s.m_cache b = some a ∧ account s b = (some a, s)) ∨
    (Map.find s.m_cache b = none ∧ b ∈ s.m_nonExistingAccountsCache ∧
      account s b = (none, s)) ∨
    (Map.find s.m_cache b = none ∧ b ∉ s.m_nonExistingAccountsCache ∧
      Map.find s.m_state b = none ∧
      account s b =
        (none, { s with m_nonExistingAccountsCache :=
                          AddressSet.insert s.m_nonExistingAccountsCache b })) ∨
    (∃ r, Map.find s.m_cache b = none ∧ b ∉ s.m_nonExistingAccountsCache ∧
      Map.find s.m_state b = some r ∧
      account s b = (some (decodeAccount r),
        { clearCacheIfTooLarge s with
          m_cache := Map.emplace (clearCacheIfTooLarge s).m_cache b (decodeAccount r),
          m_unchangedCacheEntries :=
            (clearCacheIfTooLarge s).m_unchangedCacheEntries ++ [b] })) := by
  cases h : Map.find s.m_cache b with
  | some a => exact Or.inl ⟨a, rfl, account_hit s b a h⟩
  | none =>
    by_cases hn : b ∈ s.m_nonExistingAccountsCache
    · exact Or.inr (Or.inl ⟨rfl, hn, account_known_miss s b h hn⟩)
    · cases ht : Map.find s.m_state b with
      | none =>
        refine Or.inr (Or.inr (Or.inl ⟨rfl, hn, rfl, ?_⟩))
        unfold account; simp [h, hn, ht]
      | some r =>
        refine Or.inr (Or.inr (Or.inr ⟨r, rfl, hn, rfl, ?_⟩))
        unfold account; simp [h, hn, ht]

/-- A lookup changes neither the change log, the trie, the start nonce nor the database. -/
theorem account_frame (s : State) (b : Address) :
    (account s b).2.m_changeLog = s.m_changeLog ∧ (account s b).2.m_state = s.m_state ∧
    (account s b).2.m_accountStartNonce = s.m_accountStartNonce ∧
    (account s b).2.m_db = s.m_db := by
  have hev := clearCacheIfTooLarge_evicts s
  rcases account_cases s b with ⟨a, _, e⟩ | ⟨_, _, e⟩ | ⟨_, _, _, e⟩ | ⟨r, _, _, _, e⟩
  all_goals (rw [e]; simp [hev.changeLog, hev.trie, hev.startNonce, hev.db])

/-- A failed lookup leaves the cache as it is. -/
theorem account_none_cache (s : State) (b : Address) (h : (account s b).1 = none) :
    (account s b).2.m_cache = s.m_cache := by
  rcases account_cases s b with ⟨a, _, e⟩ | ⟨_, _, e⟩ | ⟨_, _, _, e⟩ | ⟨r, _, _, _, e⟩
  · rw [e] at h; simp at h
  · rw [e]
  · rw [e]
  · rw [e] at h; simp at h

/-- A failed lookup only records the address in the non-existence set. -/
theorem account_none_state (s : State) (b : Address) (h : (account s b).1 = none) :
    (account s b).2 =
      { s with m_nonExistingAccountsCache :=
                 AddressSet.insert s.m_nonExistingAccountsCache b } := by
  rcases account_cases s b with ⟨a, _, e⟩ | ⟨_, hn, e⟩ | ⟨_, _, _, e⟩ | ⟨r, _, _, _, e⟩
  · rw [e] at h; simp at h
  · rw [e]; simp [AddressSet.insert, hn]
  · rw [e]
  · rw [e] at h; simp at h

/-- What a lookup observes is determined by the cache entry, the non-existence set and the
trie; it is the same in two states that agree on these up to dropping a coherent entry and up
to recording addresses that do not exist. -/
theorem account_fst_congr (s s' : State) (c : Address) (hco : s.coherentAt c)
    (htrie : s'.m_state = s.m_state)
    (hmem1 : c ∈ s.m_nonExistingAccountsCache → c ∈ s'.m_nonExistingAccountsCache)
    (hmem2 : c ∈ s'.m_nonExistingAccountsCache →
      c ∈ s.m_nonExistingAccountsCache ∨
        (Map.find s.m_cache c = none ∧ Map.find s.m_state c = none))
    (hcache : keptOrDropped s s' c) :
    (account s' c).1 = (account s c).1 := by
  rw [account_fst, account_fst, htrie]
  rcases hcache with e | ⟨e, a, ha, hd⟩
  · rw [e]
    cases hc : Map.find s.m_cache c with
    | some a => rfl
    | none =>
      simp only
      by_cases h1 : c ∈ s.m_nonExistingAccountsCache
      · simp [h1, hmem1 h1]
      · by_cases h2 : c ∈ s'.m_nonExistingAccountsCache
        · rcases hmem2 h2 with hx | ⟨_, hx⟩
          · exact absurd hx h1
          · simp [h1, h2, hx]
        · simp [h1, h2]
  · rw [e, ha]
    unfold State.coherentAt at hco
    rw [ha] at hco
    have hw := hco hd
    have h2 : c ∉ s'.m_nonExistingAccountsCache := by
      intro hh
      rcases hmem2 hh with hx | ⟨hx, _⟩
      · exact hw.1 hx
      · rw [ha] at hx; cases hx
    simp only [h2, if_false]
    exact hw.2

/-- How a lookup of `b` changes the bookkeeping seen from an address `c`. -/
theorem account_effect (s : State) (b c : Address) :
    (c ∈ s.m_nonExistingAccountsCache → c ∈ (account s b).2.m_nonExistingAccountsCache) ∧
    (c ∈ (account s b).2.m_nonExistingAccountsCache →
      c ∈ s.m_nonExistingAccountsCache ∨
        (Map.find s.m_cache c = none ∧ Map.find s.m_state c = none)) ∧
    (c ≠ b → (Map.find (account s b).2.m_cache c = Map.find s.m_cache c ∨
      (Map.find (account s b).2.m_cache c = none ∧
        ∃ a, Map.find s.m_cache c = some a ∧ a.dirty = false))) := by
  have hev := clearCacheIfTooLarge_evicts s
  rcases account_cases s b with ⟨a, _, e⟩ | ⟨_, hn, e⟩ | ⟨hc, _, ht, e⟩ | ⟨r, _, _, _, e⟩
  · rw [e]; exact ⟨id, Or.inl, fun _ => Or.inl rfl⟩
  · rw [e]; exact ⟨id, Or.inl, fun _ => Or.inl rfl⟩
  · rw [e]
    refine ⟨fun h => (AddressSet.mem_insert _ _ _).mpr (Or.inr h), fun h => ?_,
      fun _ => Or.inl rfl⟩
    rcases (AddressSet.mem_insert _ _ _).mp h with rfl | h'
    · exact Or.inr ⟨hc, ht⟩
    · exact Or.inl h'
  · rw [e]
    refine ⟨fun h => by simpa [hev.nonExisting] using h,
      fun h => Or.inl (by simpa [hev.nonExisting] using h), fun hcb => ?_⟩
    simp only [Map.find_emplace, hcb, if_false]
    exact hev.cache c

/-- Reads do not disturb what later reads observe: after a lookup of `b`, a lookup of an
address whose cache entry is coherent returns what it would have returned before. -/
theorem account_view (s : State) (b c : Address) (hco : s.coherentAt c) :
    (account (account s b).2 c).1 = (account s c).1 := by
  by_cases hbc : c = b
  · subst hbc; rw [account_account]
  · have h := account_effect s b c
    exact account_fst_congr s _ c hco (account_frame s b).2.1 h.1 h.2.1 (h.2.2 hbc)

/-! ## Frames -/

theorem keptOrDropped.kept (s : State) (b : Address) : keptOrDropped s s b := Or.inl (Eq.refl _)

theorem keptOrDropped.andThen {s t u : State} {b : Address} (h1 : keptOrDropped s t b)
    (h2 : keptOrDropped t u b) : keptOrDropped s u b := by
  rcases h2 with e2 | ⟨e2, a, ha, hd⟩
  · rcases h1 with e1 | ⟨e1, a1, ha1, hd1⟩
    · exact Or.inl (e2.trans e1)
    · exact Or.inr ⟨e2.trans e1, a1, ha1, hd1⟩
  · rcases h1 with e1 | ⟨e1, a1, ha1, hd1⟩
    · exact Or.inr ⟨e2, a, e1 ▸ ha, hd⟩
    · rw [e1] at ha; cases ha

theorem Frame.rfl (s : State) (l : List Address) : Frame s s l :=
  ⟨Eq.refl _, Eq.refl _, Eq.refl _, fun _ _ => Iff.rfl, fun b _ => keptOrDropped.kept s b⟩

theorem Frame.chain {s t u : State} {l : List Address} (h1 : Frame s t l) (h2 : Frame t u l) :
    Frame s u l :=
  ⟨h2.trie.trans h1.trie, h2.db.trans h1.db, h2.startNonce.trans h1.startNonce,
   fun b hb => (h2.nonExisting b hb).trans (h1.nonExisting b hb),
   fun b hb => (h1.cache b hb).andThen (h2.cache b hb)⟩

theorem Frame.mono {s t : State} {l m : List Address} (h : Frame s t l)
    (hsub : ∀ b, b ∈ l → b ∈ m) : Frame s t m :=
  ⟨h.trie, h.db, h.startNonce, fun b hb => h.nonExisting b (fun hl => hb (hsub b hl)),
   fun b hb => h.cache b (fun hl => hb (hsub b hl))⟩

/-- A lookup of `a` writes nothing outside `a`. -/
theorem account_Frame (s : State) (a : Address) : Frame s (account s a).2 [a] := by
  have hf := account_frame s a
  refine ⟨hf.2.1, hf.2.2.2, hf.2.2.1, fun b hb => ?_, fun b hb => ?_⟩
  · have hba : b ≠ a := fun e => hb (by rw [e]; exact List.mem_singleton.mpr (Eq.refl _))
    have he := account_effect s a b
    constructor
    · intro h
      rcases he.2.1 h with h1 | ⟨hc, ht⟩
      · exact h1
      · rcases account_cases s a with ⟨x, _, e⟩ | ⟨_, _, e⟩ | ⟨_, _, _, e⟩ | ⟨r, _, _, _, e⟩
        · rw [e] at h; exact h
        · rw [e] at h; exact h
        · rw [e] at h
          rcases (AddressSet.mem_insert _ _ _).mp h with h2 | h2
          · exact absurd h2 hba
          · exact h2
        · rw [e] at h
          have hev := clearCacheIfTooLarge_evicts s
          simpa [hev.nonExisting] using h
    · exact he.1
  · have hba : b ≠ a := fun e => hb (by rw [e]; exact List.mem_singleton.mpr (Eq.refl _))
    exact (account_effect s a b).2.2 hba

/-- An update of the cache entry of `a` writes nothing outside `a`. -/
theorem modifyAccount_Frame (s : State) (a : Address) (f : Account → Account) :
    Frame s (s.modifyAccount a f) [a] := by
  refine ⟨Eq.refl _, Eq.refl _, Eq.refl _, fun _ _ => Iff.rfl, fun b hb => Or.inl ?_⟩
  have hba : b ≠ a := fun e => hb (by rw [e]; exact List.mem_singleton.mpr (Eq.refl _))
  simp [State.modifyAccount, Map.find_modify, hba]

theorem log_Frame (s : State) (c : Change) (l : List Address) : Frame s (s.log c) l :=
  ⟨Eq.refl _, Eq.refl _, Eq.refl _, fun _ _ => Iff.rfl, fun _ _ => Or.inl (Eq.refl _)⟩

theorem logTouch_Frame (s : State) (a : Account) (i : Address) (l : List Address) :
    Frame s (logTouch s a i) l := by
  unfold logTouch; split
  · exact log_Frame s _ l
  · exact Frame.rfl s l

theorem logIfNonZero_Frame (s : State) (k : Change.Kind) (i v : Nat) (l : List Address) :
    Frame s (logIfNonZero s k i v) l := by
  unfold logIfNonZero; split
  · exact log_Frame s _ l
  · exact Frame.rfl s l

/-- The creation of the account `a` writes nothing outside `a`. -/
theorem createAccount_Frame (s : State) (a : Address) (x : Account) :
    Frame s (createAccount s a x) [a] := by
  refine ⟨Eq.refl _, Eq.refl _, Eq.refl _, fun b hb => ?_, fun b hb => Or.inl ?_⟩
  · have hba : b ≠ a := fun e => hb (by rw [e]; exact List.mem_singleton.mpr (Eq.refl _))
    simp [createAccount, AddressSet.mem_erase, hba]
  · have hba : b ≠ a := fun e => hb (by rw [e]; exact List.mem_singleton.mpr (Eq.refl _))
    simp [createAccount, Map.find_assign, hba]

/-- Across a frame, a lookup of an untouched address whose cache entry was coherent returns
what it returned before. -/
theorem Frame.view {s t : State} {l : List Address} (h : Frame s t l) (b : Address)
    (hb : b ∉ l) (hco : s.coherentAt b) : (account t b).1 = (account s b).1 := by
  apply account_fst_congr s t b hco h.trie
  · exact (h.nonExisting b hb).mpr
  · intro hx; exact Or.inl ((h.nonExisting b hb).mp hx)
  · exact h.cache b hb

/-- Across a frame, an untouched address whose entry is still cached has the entry it had. -/
theorem Frame.cached {s t : State} {l : List Address} (h : Frame s t l) (b : Address)
    (hb : b ∉ l) (x : Account) (hx : Map.find t.m_cache b = some x) :
    Map.find s.m_cache b = some x := by
  rcases h.cache b hb with e | ⟨e, _⟩
  · rw [← e]; exact hx
  · rw [e] at hx; cases hx

theorem not_mem_singleton_of_ne {a b : Address} (h : b ≠ a) : b ∉ [a] :=
  fun e => h (List.mem_singleton.mp e)

/-! ## Lookups write nothing -/

/-- A lookup keeps coherent cache entries coherent. -/
theorem account_coherentAt (s : State) (a c : Address) (hco : s.coherentAt c) :
    (account s a).2.coherentAt c := by
  rcases account_cases s a with ⟨x, _, e⟩ | ⟨_, _, e⟩ | ⟨hc, hn, ht, e⟩ | ⟨r, hc, hn, ht, e⟩
  · rw [e]; exact hco
  · rw [e]; exact hco
  · rw [e]
    unfold State.coherentAt at hco ⊢
    show match Map.find s.m_cache c with
      | some x => x.dirty = false →
          c ∉ AddressSet.insert s.m_nonExistingAccountsCache a ∧
            (Map.find s.m_state c).map decodeAccount = some x
      | none => True
    cases hfc : Map.find s.m_cache c with
    | none => trivial
    | some x =>
      rw [hfc] at hco
      intro hd
      have hw := hco hd
      refine ⟨fun hx => ?_, hw.2⟩
      rcases (AddressSet.mem_insert _ _ _).mp hx with hca | hx'
      · rw [hca, hc] at hfc; cases hfc
      · exact hw.1 hx'
  · rw [e]
    have hev := clearCacheIfTooLarge_evicts s
    unfold State.coherentAt at hco ⊢
    show match Map.find (Map.emplace (clearCacheIfTooLarge s).m_cache a (decodeAccount r)) c with
      | some x => x.dirty = false →
          c ∉ (clearCacheIfTooLarge s).m_nonExistingAccountsCache ∧
            (Map.find (clearCacheIfTooLarge s).m_state c).map decodeAccount = some x
      | none => True
    rw [hev.nonExisting, hev.trie, Map.find_emplace]
    by_cases hca : c = a
    · subst hca
      have hnone : Map.find (clearCacheIfTooLarge s).m_cache c = none := by
        rcases hev.cache c with h1 | ⟨h1, _⟩
        · rw [h1]; exact hc
        · exact h1
      simp only [hnone, if_true]
      intro _
      exact ⟨hn, by rw [ht]; rfl⟩
    · simp only [hca, if_false]
      rcases hev.cache c with h1 | ⟨h1, _⟩
      · rw [h1]; exact hco
      · rw [h1]; trivial

theorem unwritten.same (s : State) (b : Address) : unwritten s s b := Or.inl (Eq.refl _)

theorem unwritten.step {s t u : State} {b : Address} (h1 : unwritten s t b)
    (h2 : unwritten t u b) (htrie : t.m_state = s.m_state) : unwritten s u b := by
  rcases h2 with e2 | ⟨hd2, hu⟩
  · rcases h1 with e1 | ⟨hd1, ht⟩
    · exact Or.inl (e2.trans e1)
    · exact Or.inr ⟨hd1, by rw [e2]; exact ht⟩
  · rw [htrie] at hu
    rcases h1 with e1 | ⟨hd1, _⟩
    · exact Or.inr ⟨fun a ha => hd2 a (by rw [e1]; exact ha), hu⟩
    · exact Or.inr ⟨hd1, hu⟩

/-- A lookup writes no field of any account. -/
theorem account_unwritten (s : State) (a b : Address) : unwritten s (account s a).2 b := by
  rcases account_cases s a with ⟨x, _, e⟩ | ⟨_, _, e⟩ | ⟨hc, hn, ht, e⟩ | ⟨r, hc, hn, ht, e⟩
  · rw [e]; exact unwritten.same s b
  · rw [e]; exact unwritten.same s b
  · rw [e]; exact Or.inl (Eq.refl _)
  · rw [e]
    have hev := clearCacheIfTooLarge_evicts s
    unfold unwritten
    show Map.find (Map.emplace (clearCacheIfTooLarge s).m_cache a (decodeAccount r)) b
          = Map.find s.m_cache b ∨ _
    rw [Map.find_emplace]
    by_cases hba : b = a
    · subst hba
      have hnone : Map.find (clearCacheIfTooLarge s).m_cache b = none := by
        rcases hev.cache b with h1 | ⟨h1, _⟩
        · rw [h1]; exact hc
        · exact h1
      refine Or.inr ⟨fun x hx => (by rw [hc] at hx; cases hx), Or.inr ?_⟩
      simp only [hnone, if_true, ht]
      rfl
    · simp only [hba, if_false]
      rcases hev.cache b with h1 | ⟨h1, x, hx, hd⟩
      · exact Or.inl h1
      · exact Or.inr ⟨fun y hy => (by rw [hx] at hy; cases hy; exact hd), Or.inl h1⟩

theorem Untouched.id (s : State) : Untouched s s :=
  ⟨Eq.refl _, Eq.refl _, Eq.refl _, Eq.refl _, fun b => unwritten.same s b, fun _ h => h,
   fun _ _ => Eq.refl _⟩

theorem Untouched.seq {s t u : State} (h1 : Untouched s t) (h2 : Untouched t u) :
    Untouched s u :=
  ⟨h2.changeLog.trans h1.changeLog, h2.trie.trans h1.trie, h2.db.trans h1.db,
   h2.startNonce.trans h1.startNonce,
   fun b => (h1.cache b).step (h2.cache b) h1.trie,
   fun b hb => h2.coherent b (h1.coherent b hb),
   fun b hb => (h2.view b (h1.coherent b hb)).trans (h1.view b hb)⟩

/-- A lookup leaves the state untouched. -/
theorem account_Untouched (s : State) (a : Address) : Untouched s (account s a).2 :=
  ⟨(account_frame s a).1, (account_frame s a).2.1, (account_frame s a).2.2.2,
   (account_frame s a).2.2.1, fun b => account_unwritten s a b,
   fun b hb => account_coherentAt s a b hb, fun b hb => account_view s a b hb⟩

/-- Two lookups in a row leave the state untouched. -/
theorem account2_Untouched (s : State) (a b : Address) :
    Untouched s (account (account s a).2 b).2 :=
  (account_Untouched s a).seq (account_Untouched _ b)

/-- After a second lookup, the entry the first lookup returned is still the cache entry of its
address, or it was dropped from the cache (a pointer to it dangles). -/
theorem account_kept (s : State) (A B : Address) (x : Account) (h : (account s A).1 = some x) :
    Map.find (account (account s A).2 B).2.m_cache A = some x ∨
    Map.find (account (account s A).2 B).2.m_cache A = none := by
  have hf : Map.find (account s A).2.m_cache A = some x := by rw [account_find, h]
  by_cases hAB : A = B
  · subst hAB
    rw [account_hit _ A x hf]; exact Or.inl hf
  · rcases (account_effect (account s A).2 B A).2.2 hAB with e | ⟨e, _⟩
    · rw [e]; exact Or.inl hf
    · exact Or.inr e

/-! ## Mutators write nothing outside their addresses -/

set_option linter.unusedTactic false
set_option linter.unreachableTactic false

theorem frame_account {s t : State} {l : List Address} (a : Address) (ha : a ∈ l)
    (h : Frame s t l) : Frame s (account t a).2 l :=
  h.chain ((account_Frame t a).mono (fun b hb => by rw [List.mem_singleton.mp hb]; exact ha))

theorem frame_modify {s t : State} {l : List Address} (a : Address) (f : Account → Account)
    (ha : a ∈ l) (h : Frame s t l) : Frame s (t.modifyAccount a f) l :=
  h.chain ((modifyAccount_Frame t a f).mono
    (fun b hb => by rw [List.mem_singleton.mp hb]; exact ha))

theorem frame_create {s t : State} {l : List Address} (a : Address) (x : Account)
    (ha : a ∈ l) (h : Frame s t l) : Frame s (createAccount t a x) l :=
  h.chain ((createAccount_Frame t a x).mono
    (fun b hb => by rw [List.mem_singleton.mp hb]; exact ha))

theorem frame_log {s t : State} {l : List Address} (c : Change) (h : Frame s t l) :
    Frame s (t.log c) l := h.chain (log_Frame t c l)

theorem frame_logTouch {s t : State} {l : List Address} (x : Account) (i : Address)
    (h : Frame s t l) : Frame s (logTouch t x i) l := h.chain (logTouch_Frame t x i l)

theorem frame_logIfNonZero {s t : State} {l : List Address} (k : Change.Kind) (i v : Nat)
    (h : Frame s t l) : Frame s (logIfNonZero t k i v) l :=
  h.chain (logIfNonZero_Frame t k i v l)

theorem frame_andThen {s : State} {l : List Address} (o : Outcome) (f : State → Outcome)
    (h : Frame s o.state l) (hf : ∀ t, Frame s t l → Frame s (f t).state l) :
    Frame s (o.andThen f).state l := by
  unfold Outcome.andThen
  split
  · exact h
  · exact hf _ h

theorem frame_incNonce {s t : State} {l : List Address} (a : Address) (ha : a ∈ l)
    (h : Frame s t l) : Frame s (incNonce t a).state l := by
  unfold incNonce
  try dsimp only
  repeat' split
  all_goals
    try simp only [Outcome.ok, Outcome.throw]
    repeat' (first
      | assumption
      | apply frame_log
      | apply frame_logIfNonZero
      | apply frame_logTouch
      | apply frame_modify _ _ ha
      | apply frame_create _ _ ha
      | apply frame_account _ ha
      | apply frame_andThen
      | intro _ _
      | split)

theorem frame_setNonce {s t : State} {l : List Address} (a : Address) (n : Nat) (ha : a ∈ l)
    (h : Frame s t l) : Frame s (setNonce t a n).state l := by
  unfold setNonce
  try dsimp only
  repeat' split
  all_goals
    try simp only [Outcome.ok, Outcome.throw]
    repeat' (first
      | assumption
      | apply frame_log
      | apply frame_logIfNonZero
      | apply frame_logTouch
      | apply frame_modify _ _ ha
      | apply frame_create _ _ ha
      | apply frame_account _ ha
      | apply frame_andThen
      | intro _ _
      | split)

theorem frame_addBalance {s t : State} {l : List Address} (a : Address) (v : Nat) (ha : a ∈ l)
    (h : Frame s t l) : Frame s (addBalance t a v).state l := by
  unfold addBalance
  try dsimp only
  repeat' split
  all_goals
    try simp only [Outcome.ok, Outcome.throw]
    repeat' (first
      | assumption
      | apply frame_log
      | apply frame_logIfNonZero
      | apply frame_logTouch
      | apply frame_modify _ _ ha
      | apply frame_create _ _ ha
      | apply frame_account _ ha
      | apply frame_andThen
      | intro _ _
      | split)

theorem frame_addBallot {s t : State} {l : List Address} (a : Address) (v : Nat) (ha : a ∈ l)
    (h : Frame s t l) : Frame s (addBallot t a v).state l := by
  unfold addBallot
  try dsimp only
  repeat' split
  all_goals
    try simp only [Outcome.ok, Outcome.throw]
    repeat' (first
      | assumption
      | apply frame_log
      | apply frame_logIfNonZero
      | apply frame_logTouch
      | apply frame_modify _ _ ha
      | apply frame_create _ _ ha
      | apply frame_account _ ha
      | apply frame_andThen
      | intro _ _
      | split)

theorem frame_addBRC {s t : State} {l : List Address} (a : Address) (v : Nat) (ha : a ∈ l)
    (h : Frame s t l) : Frame s (addBRC t a v).state l := by
  unfold addBRC
  try dsimp only
  repeat' split
  all_goals
    try simp only [Outcome.ok, Outcome.throw]
    repeat' (first
      | assumption
      | apply frame_log
      | apply frame_logIfNonZero
      | apply frame_logTouch
      | apply frame_modify _ _ ha
      | apply frame_create _ _ ha
      | apply frame_account _ ha
      | apply frame_andThen
      | intro _ _
      | split)

theorem frame_addFBRC {s t : State} {l : List Address} (a : Address) (v : Nat) (ha : a ∈ l)
    (h : Frame s t l) : Frame s (addFBRC t a v).state l := by
  unfold addFBRC
  try dsimp only
  repeat' split
  all_goals
    try simp only [Outcome.ok, Outcome.throw]
    repeat' (first
      | assumption
      | apply frame_log
      | apply frame_logIfNonZero
      | apply frame_logTouch
      | apply frame_modify _ _ ha
      | apply frame_create _ _ ha
      | apply frame_account _ ha
      | apply frame_andThen
      | intro _ _
      | split)

theorem frame_addFBalance {s t : State} {l : List Address} (a : Address) (v : Nat) (ha : a ∈ l)
    (h : Frame s t l) : Frame s (addFBalance t a v).state l := by
  unfold addFBalance
  try dsimp only
  repeat' split
  all_goals
    try simp only [Outcome.ok, Outcome.throw]
    repeat' (first
      | assumption
      | apply frame_log
      | apply frame_logIfNonZero
      | apply frame_logTouch
      | apply frame_modify _ _ ha
      | apply frame_create _ _ ha
      | apply frame_account _ ha
      | apply frame_andThen
      | intro _ _
      | split)

theorem frame_addPoll {s t : State} {l : List Address} (a : Address) (v : Nat) (ha : a ∈ l)
    (h : Frame s t l) : Frame s (addPoll t a v).state l := by
  unfold addPoll
  try dsimp only
  repeat' split
  all_goals
    try simp only [Outcome.ok, Outcome.throw]
    repeat' (first
      | assumption
      | apply frame_log
      | apply frame_logIfNonZero
      | apply frame_logTouch
      | apply frame_modify _ _ ha
      | apply frame_create _ _ ha
      | apply frame_account _ ha
      | apply frame_andThen
      | intro _ _
      | split)

theorem frame_subBalance {s t : State} {l : List Address} (a : Address) (v : Nat) (ha : a ∈ l)
    (h : Frame s t l) : Frame s (subBalance t a v).state l := by
  unfold subBalance
  try dsimp only
  repeat' split
  all_goals
    try simp only [Outcome.ok, Outcome.throw]
    repeat' (first
      | assumption
      | apply frame_addBalance _ _ ha
      | apply frame_log
      | apply frame_logIfNonZero
      | apply frame_logTouch
      | apply frame_modify _ _ ha
      | apply frame_create _ _ ha
      | apply frame_account _ ha
      | apply frame_andThen
      | intro _ _
      | split)

theorem frame_subBallot {s t : State} {l : List Address} (a : Address) (v : Nat) (ha : a ∈ l)
    (h : Frame s t l) : Frame s (subBallot t a v).state l := by
  unfold subBallot
  try dsimp only
  repeat' split
  all_goals
    try simp only [Outcome.ok, Outcome.throw]
    repeat' (first
      | assumption
      | apply frame_addBallot _ _ ha
      | apply frame_log
      | apply frame_logIfNonZero
      | apply frame_logTouch
      | apply frame_modify _ _ ha
      | apply frame_create _ _ ha
      | apply frame_account _ ha
      | apply frame_andThen
      | intro _ _
      | split)

theorem frame_subBRC {s t : State} {l : List Address} (a : Address) (v : Nat) (ha : a ∈ l)
    (h : Frame s t l) : Frame s (subBRC t a v).state l := by
  unfold subBRC
  try dsimp only
  repeat' split
  all_goals
    try simp only [Outcome.ok, Outcome.throw]
    repeat' (first
      | assumption
      | apply frame_addBRC _ _ ha
      | apply frame_log
      | apply frame_logIfNonZero
      | apply frame_logTouch
      | apply frame_modify _ _ ha
      | apply frame_create _ _ ha
      | apply frame_account _ ha
      | apply frame_andThen
      | intro _ _
      | split)

theorem frame_subFBRC {s t : State} {l : List Address} (a : Address) (v : Nat) (ha : a ∈ l)
    (h : Frame s t l) : Frame s (subFBRC t a v).state l := by
  unfold subFBRC
  try dsimp only
  repeat' split
  all_goals
    try simp only [Outcome.ok, Outcome.throw]
    repeat' (first
      | assumption
      | apply frame_addFBRC _ _ ha
      | apply frame_log
      | apply frame_logIfNonZero
      | apply frame_logTouch
      | apply frame_modify _ _ ha
      | apply frame_create _ _ ha
      | apply frame_account _ ha
      | apply frame_andThen
      | intro _ _
      | split)

theorem frame_subFBalance {s t : State} {l : List Address} (a : Address) (v : Nat) (ha : a ∈ l)
    (h : Frame s t l) : Frame s (subFBalance t a v).state l := by
  unfold subFBalance
  try dsimp only
  repeat' split
  all_goals
    try simp only [Outcome.ok, Outcome.throw]
    repeat' (first
      | assumption
      | apply frame_addFBalance _ _ ha
      | apply frame_log
      | apply frame_logIfNonZero
      | apply frame_logTouch
      | apply frame_modify _ _ ha
      | apply frame_create _ _ ha
      | apply frame_account _ ha
      | apply frame_andThen
      | intro _ _
      | split)

theorem frame_subPoll {s t : State} {l : List Address} (a : Address) (v : Nat) (ha : a ∈ l)
    (h : Frame s t l) : Frame s (subPoll t a v).state l := by
  unfold subPoll
  try dsimp only
  repeat' split
  all_goals
    try simp only [Outcome.ok, Outcome.throw]
    repeat' (first
      | assumption
      | apply frame_addPoll _ _ ha
      | apply frame_log
      | apply frame_logIfNonZero
      | apply frame_logTouch
      | apply frame_modify _ _ ha
      | apply frame_create _ _ ha
      | apply frame_account _ ha
      | apply frame_andThen
      | intro _ _
      | split)

theorem frame_setBalance {s t : State} {l : List Address} (a : Address) (v : Nat) (ha : a ∈ l)
    (h : Frame s t l) : Frame s (setBalance t a v).state l := by
  unfold setBalance
  try dsimp only
  repeat' split
  all_goals
    try simp only [Outcome.ok, Outcome.throw]
    repeat' (first
      | assumption
      | apply frame_addBalance _ _ ha
      | apply frame_log
      | apply frame_logIfNonZero
      | apply frame_logTouch
      | apply frame_modify _ _ ha
      | apply frame_create _ _ ha
      | apply frame_account _ ha
      | apply frame_andThen
      | intro _ _
      | split)

theorem frame_setBRC {s t : State} {l : List Address} (a : Address) (v : Nat) (ha : a ∈ l)
    (h : Frame s t l) : Frame s (setBRC t a v).state l := by
  unfold setBRC
  try dsimp only
  repeat' split
  all_goals
    try simp only [Outcome.ok, Outcome.throw]
    repeat' (first
      | assumption
      | apply frame_addBRC _ _ ha
      | apply frame_log
      | apply frame_logIfNonZero
      | apply frame_logTouch
      | apply frame_modify _ _ ha
      | apply frame_create _ _ ha
      | apply frame_account _ ha
      | apply frame_andThen
      | intro _ _
      | split)

theorem frame_brcPendingOrder {s t : State} {l : List Address} (a : Address) (v p hsh : Nat) (ty : PendingOrderEnum) (ha : a ∈ l)
    (h : Frame s t l) : Frame s (brcPendingOrder t a v p hsh ty).state l := by
  unfold brcPendingOrder
  try dsimp only
  repeat' split
  all_goals
    try simp only [Outcome.ok, Outcome.throw]
    repeat' (first
      | assumption
      | apply frame_subBalance _ _ ha
      | apply frame_addFBalance _ _ ha
      | apply frame_subBRC _ _ ha
      | apply frame_addFBRC _ _ ha
      | apply frame_log
      | apply frame_logIfNonZero
      | apply frame_logTouch
      | apply frame_modify _ _ ha
      | apply frame_create _ _ ha
      | apply frame_account _ ha
      | apply frame_andThen
      | intro _ _
      | split)

theorem frame_fuelPendingOrder {s t : State} {l : List Address} (a : Address) (v p hsh : Nat) (ty : PendingOrderEnum) (ha : a ∈ l)
    (h : Frame s t l) : Frame s (fuelPendingOrder t a v p hsh ty).state l := by
  unfold fuelPendingOrder
  try dsimp only
  repeat' split
  all_goals
    try simp only [Outcome.ok, Outcome.throw]
    repeat' (first
      | assumption
      | apply frame_subBalance _ _ ha
      | apply frame_addFBalance _ _ ha
      | apply frame_subBRC _ _ ha
      | apply frame_addFBRC _ _ ha
      | apply frame_log
      | apply frame_logIfNonZero
      | apply frame_logTouch
      | apply frame_modify _ _ ha
      | apply frame_create _ _ ha
      | apply frame_account _ ha
      | apply frame_andThen
      | intro _ _
      | split)

theorem frame_cancelPendingOrder {s t : State} {l : List Address} (a : Address) (v : Nat) (ty : PendingOrderEnum) (hsh : Nat) (ha : a ∈ l)
    (h : Frame s t l) : Frame s (cancelPendingOrder t a v ty hsh).state l := by
  unfold cancelPendingOrder
  try dsimp only
  repeat' split
  all_goals
    try simp only [Outcome.ok, Outcome.throw]
    repeat' (first
      | assumption
      | apply frame_subFBRC _ _ ha
      | apply frame_addBRC _ _ ha
      | apply frame_log
      | apply frame_logIfNonZero
      | apply frame_logTouch
      | apply frame_modify _ _ ha
      | apply frame_create _ _ ha
      | apply frame_account _ ha
      | apply frame_andThen
      | intro _ _
      | split)

theorem frame_createContract {s t : State} {l : List Address} (a : Address) (ha : a ∈ l)
    (h : Frame s t l) : Frame s (createContract t a).state l := by
  unfold createContract
  try dsimp only
  repeat' split
  all_goals
    try simp only [Outcome.ok, Outcome.throw]
    repeat' (first
      | assumption
      | apply frame_log
      | apply frame_logIfNonZero
      | apply frame_logTouch
      | apply frame_modify _ _ ha
      | apply frame_create _ _ ha
      | apply frame_account _ ha
      | apply frame_andThen
      | intro _ _
      | split)

theorem frame_kill {s t : State} {l : List Address} (a : Address) (ha : a ∈ l)
    (h : Frame s t l) : Frame s (kill t a) l := by
  unfold kill
  try dsimp only
  repeat' split
  all_goals
    try simp only [Outcome.ok, Outcome.throw]
    repeat' (first
      | assumption
      | apply frame_log
      | apply frame_logIfNonZero
      | apply frame_logTouch
      | apply frame_modify _ _ ha
      | apply frame_create _ _ ha
      | apply frame_account _ ha
      | apply frame_andThen
      | intro _ _
      | split)

theorem frame_addSysVoteDate {s t : State} {l : List Address} (a b : Address) (ha : a ∈ l)
    (hb : b ∈ l) (h : Frame s t l) : Frame s (addSysVoteDate t a b).state l := by
  unfold addSysVoteDate
  try dsimp only
  repeat' split
  all_goals
    try simp only [Outcome.ok, Outcome.throw]
    repeat' (first
      | assumption
      | apply frame_log
      | apply frame_logIfNonZero
      | apply frame_logTouch
      | apply frame_modify _ _ ha
      | apply frame_create _ _ ha
      | apply frame_account _ ha
      | apply frame_modify _ _ hb
      | apply frame_create _ _ hb
      | apply frame_account _ hb
      | apply frame_andThen
      | intro _ _
      | split)

theorem frame_subSysVoteDate {s t : State} {l : List Address} (a b : Address) (ha : a ∈ l)
    (hb : b ∈ l) (h : Frame s t l) : Frame s (subSysVoteDate t a b).state l := by
  unfold subSysVoteDate
  try dsimp only
  repeat' split
  all_goals
    try simp only [Outcome.ok, Outcome.throw]
    repeat' (first
      | assumption
      | apply frame_log
      | apply frame_logIfNonZero
      | apply frame_logTouch
      | apply frame_modify _ _ ha
      | apply frame_create _ _ ha
      | apply frame_account _ ha
      | apply frame_modify _ _ hb
      | apply frame_create _ _ hb
      | apply frame_account _ hb
      | apply frame_andThen
      | intro _ _
      | split)

theorem frame_transferBallotBuy {s t : State} {l : List Address} (P : Nat) (a b : Address) (v : Nat) (ha : a ∈ l)
    (hb : b ∈ l) (h : Frame s t l) : Frame s (transferBallotBuy P t a b v).state l := by
  unfold transferBallotBuy
  repeat' (first
      | assumption
      | apply frame_subBRC _ _ ha
      | apply frame_addBRC _ _ hb
      | apply frame_addBallot _ _ ha
      | apply frame_andThen
      | intro _ _)

theorem frame_transferBallotSell {s t : State} {l : List Address} (P : Nat) (a b : Address) (v : Nat) (ha : a ∈ l)
    (hb : b ∈ l) (h : Frame s t l) : Frame s (transferBallotSell P t a b v).state l := by
  unfold transferBallotSell
  repeat' (first
      | assumption
      | apply frame_subBallot _ _ ha
      | apply frame_addBRC _ _ ha
      | apply frame_subBRC _ _ hb
      | apply frame_andThen
      | intro _ _)

set_option linter.unusedTactic true
set_option linter.unreachableTactic true

/-! ## Reads of an absent address -/

theorem account_absent (s : State) (addr : Address)
    (hc : Map.find s.m_cache addr = none) (ht : Map.find s.m_state addr = none) :
    account s addr =
      (none, { s with m_nonExistingAccountsCache :=
                        AddressSet.insert s.m_nonExistingAccountsCache addr }) := by
  have h1 : (account s addr).1 = none := by
    rw [account_fst, hc, ht]; simp
  have h2 := account_none_state s addr h1
  exact Prod.ext h1 h2

/-- C7: for an address that is neither in the cache nor in the trie, `balance`, `BRC`,
`FBRC`, `FBalance`, `ballot`, `poll`, `voteAll` and `voteAdress` return 0, and the state
after the read is the state before with the address inserted into the non-existence set
(an insertion that changes nothing when the address is already a member). -/
theorem read_absent_zero (s : State) (addr receiver : Address)
    (hc : Map.find s.m_cache addr = none) (ht : Map.find s.m_state addr = none) :
    balance s addr = (0, { s with m_nonExistingAccountsCache :=
                                    AddressSet.insert s.m_nonExistingAccountsCache addr }) ∧
    BRC s addr = (0, { s with m_nonExistingAccountsCache :=
                                AddressSet.insert s.m_nonExistingAccountsCache addr }) ∧
    FBRC s addr = (0, { s with m_nonExistingAccountsCache :=
                                 AddressSet.insert s.m_nonExistingAccountsCache addr }) ∧
    FBalance s addr = (0, { s with m_nonExistingAccountsCache :=
                                     AddressSet.insert s.m_nonExistingAccountsCache addr }) ∧
    ballot s addr = (0, { s with m_nonExistingAccountsCache :=
                                   AddressSet.insert s.m_nonExistingAccountsCache addr }) ∧
    poll s addr = (0, { s with m_nonExistingAccountsCache :=
                                 AddressSet.insert s.m_nonExistingAccountsCache addr }) ∧
    voteAll s addr = (0, { s with m_nonExistingAccountsCache :=
                                    AddressSet.insert s.m_nonExistingAccountsCache addr }) ∧
    voteAdress s addr receiver =
      (0, { s with m_nonExistingAccountsCache :=
                     AddressSet.insert s.m_nonExistingAccountsCache addr }) := by
  have h := account_absent s addr hc ht
  simp only [balance, BRC, FBRC, FBalance, ballot, poll, voteAll, voteAdress, h]
  simp

theorem read_absent_zero_witness :
    (balance stTrie 2).1 = 0 ∧ (poll stTrie 2).2.m_nonExistingAccountsCache = [2] :=
  ⟨by rw [(read_absent_zero stTrie 2 0 (by decide) (by decide)).1],
   by rw [(read_absent_zero stTrie 2 0 (by decide) (by decide)).2.2.2.2.2.1]; decide⟩

/-! ## Failing subtractions -/

/-- A lookup depends only on the cache entry, membership in the non-existence set and the
trie. -/
theorem account_fst_eq (s s' : State) (c : Address)
    (hcache : Map.find s'.m_cache c = Map.find s.m_cache c)
    (hmem : c ∈ s'.m_nonExistingAccountsCache ↔ c ∈ s.m_nonExistingAccountsCache)
    (htrie : s'.m_state = s.m_state) :
    (account s' c).1 = (account s c).1 := by
  rw [account_fst, account_fst, hcache, htrie]
  cases Map.find s.m_cache c with
  | some a => rfl
  | none =>
    by_cases h : c ∈ s.m_nonExistingAccountsCache
    · simp [h, hmem.mpr h]
    · have h' : c ∉ s'.m_nonExistingAccountsCache := fun hh => h (hmem.mp hh)
      simp [h, h']

@[simp]
theorem logIfNonZero_cache (s : State) (k : Change.Kind) (i v : Nat) :
    (logIfNonZero s k i v).m_cache = s.m_cache := by
  unfold logIfNonZero; split <;> rfl

@[simp]
theorem logIfNonZero_nonExisting (s : State) (k : Change.Kind) (i v : Nat) :
    (logIfNonZero s k i v).m_nonExistingAccountsCache = s.m_nonExistingAccountsCache := by
  unfold logIfNonZero; split <;> rfl

@[simp]
theorem logIfNonZero_trie (s : State) (k : Change.Kind) (i v : Nat) :
    (logIfNonZero s k i v).m_state = s.m_state := by
  unfold logIfNonZero; split <;> rfl

@[simp]
theorem logIfNonZero_startNonce (s : State) (k : Change.Kind) (i v : Nat) :
    (logIfNonZero s k i v).m_accountStartNonce = s.m_accountStartNonce := by
  unfold logIfNonZero; split <;> rfl

theorem logIfNonZero_changeLog (s : State) (k : Change.Kind) (i v : Nat) :
    (logIfNonZero s k i v).m_changeLog =
      s.m_changeLog ++ (if v ≠ 0 then [{ kind := k, address := i, value := v }] else []) := by
  unfold logIfNonZero; split <;> simp [State.log]

@[simp]
theorem logTouch_cache (s : State) (a : Account) (i : Nat) :
    (logTouch s a i).m_cache = s.m_cache := by
  unfold logTouch; split <;> rfl

@[simp]
theorem logTouch_nonExisting (s : State) (a : Account) (i : Nat) :
    (logTouch s a i).m_nonExistingAccountsCache = s.m_nonExistingAccountsCache := by
  unfold logTouch; split <;> rfl

@[simp]
theorem logTouch_trie (s : State) (a : Account) (i : Nat) :
    (logTouch s a i).m_state = s.m_state := by
  unfold logTouch; split <;> rfl

theorem logTouch_changeLog (s : State) (a : Account) (i : Nat) :
    (logTouch s a i).m_changeLog =
      s.m_changeLog ++
        (if !a.isDirty && a.isEmpty then [{ kind := Change.Kind.Touch, address := i }] else []) :=
          by
  unfold logTouch; split <;> simp [State.log]

/-- The shared shape of the add operations on an existing account: an optional Touch record,
the update of the entry, an optional record of the amount. -/
theorem touchModifyLog_spec (s : State) (addr : Address) (a : Account)
    (h : (account s addr).1 = some a) (f : Account → Account) (k : Change.Kind) (v : Nat) :
    (account (logIfNonZero ((logTouch (account s addr).2 a addr).modifyAccount addr f)
        k addr v) addr).1 = some (f a) ∧
    (logIfNonZero ((logTouch (account s addr).2 a addr).modifyAccount addr f)
        k addr v).m_changeLog =
      s.m_changeLog ++
        (if !a.isDirty && a.isEmpty then [{ kind := Change.Kind.Touch, address := addr }] else [])
        ++ (if v ≠ 0 then [{ kind := k, address := addr, value := v }] else []) := by
  have hfind := account_find s addr
  rw [h] at hfind
  refine ⟨?_, ?_⟩
  · rw [account_fst]
    simp [State.modifyAccount, Map.find_modify, hfind]
  · rw [logIfNonZero_changeLog]
    simp [State.modifyAccount, logTouch_changeLog, (account_frame s addr).1]

/-- Across a frame around `A`, a lookup of another address whose cache entry was coherent
returns what it returned before. -/
theorem Frame.views {s t : State} {A : Address} (h : Frame s t [A]) :
    ∀ b, b ≠ A → s.coherentAt b → (account t b).1 = (account s b).1 :=
  fun b hb hc => h.view b (not_mem_singleton_of_ne hb) hc

/-- The creating branch of the add operations: the account is installed, Create is logged,
then an optional record of the amount. -/
theorem createLog_spec (s : State) (addr : Address) (h : (account s addr).1 = none)
    (acc : Account) (k : Change.Kind) (v : Nat) :
    (account (logIfNonZero (createAccount (account s addr).2 addr acc) k addr v) addr).1 =
      some acc ∧
    (logIfNonZero (createAccount (account s addr).2 addr acc) k addr v).m_changeLog =
      s.m_changeLog ++ [{ kind := Change.Kind.Create, address := addr }]
        ++ (if v ≠ 0 then [{ kind := k, address := addr, value := v }] else []) ∧
    ∀ b, b ≠ addr →
      (account (logIfNonZero (createAccount (account s addr).2 addr acc) k addr v) b).1 =
        (account s b).1 := by
  have hs := account_none_state s addr h
  refine ⟨?_, ?_, ?_⟩
  · rw [account_fst]
    simp [createAccount, Map.find_assign]
  · rw [logIfNonZero_changeLog]
    simp [createAccount, (account_frame s addr).1]
  · intro b hb
    apply account_fst_eq
    · simp [createAccount, Map.find_assign, hb, hs]
    · simp [createAccount, hs, AddressSet.mem_erase, AddressSet.mem_insert, hb]
    · simp [createAccount, hs]

theorem requireAccountStartNonce_account (s : State) (b : Address) :
    requireAccountStartNonce (account s b).2 = requireAccountStartNonce s := by
  unfold requireAccountStartNonce; rw [(account_frame s b).2.2.1]

/-- C5 (amended): `addBalance(addr, amt)`, for every state.  If `addr` exists, the call returns
normally, the balance becomes `(old + amt) mod 2^256` and the entry is marked dirty with no
other field changed, and the records appended are Touch iff the account was clean and empty,
then Balance(amt) iff `amt ≠ 0`.  If `addr` is absent and the start nonce is set, the call
returns normally, `addr` becomes an alive dirty account with nonce the start nonce and
balance `amt`, and the records appended are Create, then Balance(amt) iff `amt ≠ 0`; with the
start nonce unset the call raises and appends nothing.  In every case nothing is written
outside `addr`: the trie is as it was and the cache entry of every other address is untouched
(or, when it is not dirty, dropped by the eviction of the lookup), and a lookup of any other
address whose cache entry was coherent returns what it returned before. -/
theorem addBalance_spec (s : State) (addr amt : Nat) :
    (match (account s addr).1 with
     | some a =>
       (addBalance s addr amt).error = none ∧
       (account (addBalance s addr amt).state addr).1 =
         some { a with balance := (a.balance + amt) % 2 ^ 256, dirty := true } ∧
       (addBalance s addr amt).state.m_changeLog =
         s.m_changeLog ++
           (if a.dirty = false ∧ a.isEmpty = true
            then [{ kind := Change.Kind.Touch, address := addr }] else []) ++
           (if amt ≠ 0
            then [{ kind := Change.Kind.Balance, address := addr, value := amt }] else [])
     | none =>
       match requireAccountStartNonce s with
       | some n =>
         (addBalance s addr amt).error = none ∧
         (account (addBalance s addr amt).state addr).1 =
           some { nonce := n, balance := amt, dirty := true, alive := true } ∧
         n = s.m_accountStartNonce ∧
         (addBalance s addr amt).state.m_changeLog =
           s.m_changeLog ++ [{ kind := Change.Kind.Create, address := addr }] ++
             (if amt ≠ 0
              then [{ kind := Change.Kind.Balance, address := addr, value := amt }] else [])
       | none =>
         (addBalance s addr amt).error = some Error.InvalidAccountStartNonceInState ∧
         (addBalance s addr amt).state.m_changeLog = s.m_changeLog ∧
         (addBalance s addr amt).state.m_cache = s.m_cache) ∧
    Frame s (addBalance s addr amt).state [addr] ∧
    ∀ b, b ≠ addr → s.coherentAt b →
      (account (addBalance s addr amt).state b).1 = (account s b).1 := by
  have hfr : Frame s (addBalance s addr amt).state [addr] :=
    frame_addBalance addr amt (List.mem_singleton.mpr (Eq.refl _)) (Frame.rfl s _)
  refine ⟨?_, hfr, hfr.views⟩
  cases h : (account s addr).1 with
  | some a =>
    have e : addBalance s addr amt = Outcome.ok (logIfNonZero
        ((logTouch (account s addr).2 a addr).modifyAccount addr (fun x => x.addBalance amt))
        Change.Kind.Balance addr amt) := by
      unfold addBalance; simp [h]
    have hsp := touchModifyLog_spec s addr a h (fun x => x.addBalance amt)
      Change.Kind.Balance amt
    rw [e]
    refine ⟨rfl, ?_, ?_⟩
    · simpa [Outcome.ok, Account.addBalance, u256.add] using hsp.1
    · simpa [Outcome.ok, Account.isDirty] using hsp.2
  | none =>
    have hreq := requireAccountStartNonce_account s addr
    cases hn : requireAccountStartNonce s with
    | some n =>
      have e : addBalance s addr amt = Outcome.ok (logIfNonZero
          (createAccount (account s addr).2 addr (Account.create n amt))
          Change.Kind.Balance addr amt) := by
        unfold addBalance; simp [h, hreq, hn]
      have hsp := createLog_spec s addr h (Account.create n amt) Change.Kind.Balance amt
      have hn' : n = s.m_accountStartNonce := by
        unfold requireAccountStartNonce at hn
        split at hn
        · cases hn
        · exact (Option.some.inj hn).symm
      rw [e]
      exact ⟨rfl, hsp.1, hn', hsp.2.1⟩
    | none =>
      have e : addBalance s addr amt =
          Outcome.throw Error.InvalidAccountStartNonceInState (account s addr).2 := by
        unfold addBalance; simp [h, hreq, hn]
      rw [e]
      exact ⟨rfl, (account_frame s addr).1, account_none_cache s addr h⟩

/-- C9: `addBallot(addr, v)`.  On an absent address it raises InvalidAddress for every `v`,
leaving the cache (no account is created) and the change log as they were.  On an existing
account it returns normally, the ballot becomes `(old + v) mod 2^256` and the entry is marked
dirty with no other field changed, and the records appended are Touch iff the account was
clean and empty, then Ballot(v) iff `v ≠ 0`. -/
theorem addBallot_spec (s : State) (addr v : Nat) :
    match (account s addr).1 with
    | none =>
      (addBallot s addr v).error = some Error.InvalidAddress ∧
      (addBallot s addr v).state.m_cache = s.m_cache ∧
      (account (addBallot s addr v).state addr).1 = none ∧
      (addBallot s addr v).state.m_changeLog = s.m_changeLog
    | some a =>
      (addBallot s addr v).error = none ∧
      (account (addBallot s addr v).state addr).1 =
        some { a with ballot := (a.ballot + v) % 2 ^ 256, dirty := true } ∧
      (addBallot s addr v).state.m_changeLog =
        s.m_changeLog ++
          (if a.dirty = false ∧ a.isEmpty = true
           then [{ kind := Change.Kind.Touch, address := addr }] else []) ++
          (if v ≠ 0
           then [{ kind := Change.Kind.Ballot, address := addr, value := v }] else []) := by
  cases h : (account s addr).1 with
  | none =>
    have e : addBallot s addr v = Outcome.throw Error.InvalidAddress (account s addr).2 := by
      unfold addBallot; simp [h]
    rw [e]
    refine ⟨rfl, account_none_cache s addr h, ?_, (account_frame s addr).1⟩
    show (account (account s addr).2 addr).1 = none
    rw [account_account, h]
  | some a =>
    have e : addBallot s addr v = Outcome.ok (logIfNonZero
        ((logTouch (account s addr).2 a addr).modifyAccount addr (fun x => x.addBallot v))
        Change.Kind.Ballot addr v) := by
      unfold addBallot; simp [h]
    have hsp := touchModifyLog_spec s addr a h (fun x => x.addBallot v) Change.Kind.Ballot v
    rw [e]
    refine ⟨rfl, ?_, ?_⟩
    · simpa [Outcome.ok, Account.addBallot, u256.add] using hsp.1
    · simpa [Outcome.ok, Account.isDirty] using hsp.2

/-! ## Subtraction and assignment of balances -/

theorem addBalance_existing (s : State) (addr amt : Nat) (a : Account)
    (h : (account s addr).1 = some a) :
    addBalance s addr amt = Outcome.ok (logIfNonZero
      ((logTouch (account s addr).2 a addr).modifyAccount addr (fun x => x.addBalance amt))
      Change.Kind.Balance addr amt) := by
  unfold addBalance; simp [h]

theorem addBRC_existing (s : State) (addr amt : Nat) (a : Account)
    (h : (account s addr).1 = some a) :
    addBRC s addr amt = Outcome.ok (logIfNonZero
      ((logTouch (account s addr).2 a addr).modifyAccount addr (fun x => x.addBRC amt))
      Change.Kind.BRC addr amt) := by
  unfold addBRC; simp [h]

theorem u256_sub_zero_pos (v : Nat) (h0 : 0 < v) (hv : v < 2 ^ 256) :
    u256.sub 0 v = 2 ^ 256 - v := by
  unfold u256.sub; omega

theorem u256_add_sub_zero (b v : Nat) (hb : b < 2 ^ 256) (hle : v ≤ b) :
    u256.add b (u256.sub 0 v) = b - v := by
  unfold u256.add u256.sub; omega

/-- C4: for an existing account `addr` (whose balance is a `u256`) and `0 < v ≤ balance(addr)`,
`subBalance(addr, v)` returns normally, the balance read afterwards is the old balance minus
`v` as a natural number, the entry is the old one with that balance and the dirty mark (no
other field changes), and exactly one record, Balance carrying `2^256 - v`, is appended;
`subBalance(addr, 0)` returns the state unchanged for every state and address. -/
theorem subBalance_spec (s : State) (addr v : Nat) (a : Account)
    (h : (account s addr).1 = some a) (hr : a.balance < 2 ^ 256) (hv : 0 < v)
    (hle : v ≤ a.balance) :
    (subBalance s addr v).error = none ∧
    (balance (subBalance s addr v).state addr).1 = a.balance - v ∧
    (account (subBalance s addr v).state addr).1 =
      some { a with balance := a.balance - v, dirty := true } ∧
    (subBalance s addr v).state.m_changeLog =
      s.m_changeLog ++ [{ kind := Change.Kind.Balance, address := addr, value := 2 ^ 256 - v }] ∧
    ∀ (t : State) (c : Address), subBalance t c 0 = Outcome.ok t := by
  have h' : (account (account s addr).2 addr).1 = some a := by rw [account_account, h]
  have e : subBalance s addr v = Outcome.ok (logIfNonZero
      ((logTouch (account s addr).2 a addr).modifyAccount addr
        (fun x => x.addBalance (u256.sub 0 v)))
      Change.Kind.Balance addr (u256.sub 0 v)) := by
    have hnlt : ¬ a.balance < v := by omega
    have hv0 : v ≠ 0 := by omega
    unfold subBalance
    simp only [hv0, if_false, h, hnlt]
    rw [addBalance_existing _ addr _ a h', account_account]
  have hsp := touchModifyLog_spec s addr a h (fun x => x.addBalance (u256.sub 0 v))
    Change.Kind.Balance (u256.sub 0 v)
  have hsub : u256.sub 0 v = 2 ^ 256 - v := u256_sub_zero_pos v hv (by omega)
  have hbal : u256.add a.balance (u256.sub 0 v) = a.balance - v :=
    u256_add_sub_zero a.balance v hr hle
  have hne : a.isEmpty = false := by
    have : a.balance ≠ 0 := by omega
    simp [Account.isEmpty, this]
  have hacc : (account (subBalance s addr v).state addr).1 =
      some { a with balance := a.balance - v, dirty := true } := by
    rw [e]
    simpa [Outcome.ok, Account.addBalance, hbal] using hsp.1
  refine ⟨by rw [e]; rfl, ?_, hacc, ?_, ?_⟩
  · simp only [balance, hacc]
  · have hnz : u256.sub 0 v ≠ 0 := by rw [hsub]; omega
    rw [e]
    show (logIfNonZero _ _ _ _).m_changeLog = _
    rw [hsp.2, hne, if_pos hnz, hsub]
    simp
  · intro t c
    unfold subBalance; simp

theorem balance_of_account (s : State) (addr : Address) (a : Account)
    (h : (account s addr).1 = some a) : (balance s addr).1 = a.balance := by
  simp only [balance, h]

theorem BRC_of_account (s : State) (addr : Address) (a : Account)
    (h : (account s addr).1 = some a) : (BRC s addr).1 = a.brc := by
  simp only [BRC, h]

theorem addBalance_absent (s : State) (addr amt : Nat) (h : (account s addr).1 = none) :
    addBalance s addr amt =
      match requireAccountStartNonce s with
      | none => Outcome.throw Error.InvalidAccountStartNonceInState (account s addr).2
      | some n => Outcome.ok (logIfNonZero
          (createAccount (account s addr).2 addr (Account.create n amt))
          Change.Kind.Balance addr amt) := by
  unfold addBalance
  simp only [h, requireAccountStartNonce_account]

theorem addBRC_absent (s : State) (addr amt : Nat) (h : (account s addr).1 = none) :
    addBRC s addr amt =
      match requireAccountStartNonce s with
      | none => Outcome.throw Error.InvalidAccountStartNonceInState (account s addr).2
      | some n => Outcome.ok (logIfNonZero
          (createAccount (account s addr).2 addr (Account.createBRC n 0 amt))
          Change.Kind.BRC addr amt) := by
  unfold addBRC
  simp only [h, requireAccountStartNonce_account]

theorem requireAccountStartNonce_eq_none (s : State) :
    requireAccountStartNonce s = none ↔ s.m_accountStartNonce = Invalid256 := by
  unfold requireAccountStartNonce
  split <;> simp_all

theorem u256_add_sub_cancel (b v : Nat) (hv : v < 2 ^ 256) :
    u256.add b (u256.sub v b) = v := by
  unfold u256.add u256.sub; omega

theorem u256_sub_zero_right (v : Nat) (hv : v < 2 ^ 256) : u256.sub v 0 = v := by
  unfold u256.sub; omega

/-- C6 (amended): for every state, address (present or absent) and `u256` value `v`:
`setBalance(addr, v)` returns normally exactly when `addr` exists or the start nonce is set,
and after it has returned `balance(addr)` is `v`; likewise `setBRC(addr, v)` and `BRC(addr)`.
The difference `v - current` is taken modulo `2^256`, so this includes `v` smaller than the
current value. -/
theorem setBalance_setBRC_spec (s : State) (addr v : Nat) (hv : v < 2 ^ 256) :
    ((setBalance s addr v).error = none ↔
      ((account s addr).1 ≠ none ∨ s.m_accountStartNonce ≠ Invalid256)) ∧
    ((setBalance s addr v).error = none →
      (balance (setBalance s addr v).state addr).1 = v) ∧
    ((setBRC s addr v).error = none ↔
      ((account s addr).1 ≠ none ∨ s.m_accountStartNonce ≠ Invalid256)) ∧
    ((setBRC s addr v).error = none →
      (BRC (setBRC s addr v).state addr).1 = v) := by
  cases h : (account s addr).1 with
  | some a =>
    have h' : (account (account s addr).2 addr).1 = some a := by rw [account_account, h]
    have e1 : setBalance s addr v = Outcome.ok (logIfNonZero
        ((logTouch (account s addr).2 a addr).modifyAccount addr
          (fun x => x.addBalance (u256.sub v a.balance)))
        Change.Kind.Balance addr (u256.sub v a.balance)) := by
      unfold setBalance
      simp only [h]
      rw [addBalance_existing _ addr _ a h', account_account]
    have e2 : setBRC s addr v = Outcome.ok (logIfNonZero
        ((logTouch (account s addr).2 a addr).modifyAccount addr
          (fun x => x.addBRC (u256.sub v a.brc)))
        Change.Kind.BRC addr (u256.sub v a.brc)) := by
      unfold setBRC
      simp only [h]
      rw [addBRC_existing _ addr _ a h', account_account]
    have hs1 := (touchModifyLog_spec s addr a h (fun x => x.addBalance (u256.sub v a.balance))
      Change.Kind.Balance (u256.sub v a.balance)).1
    have hs2 := (touchModifyLog_spec s addr a h (fun x => x.addBRC (u256.sub v a.brc))
      Change.Kind.BRC (u256.sub v a.brc)).1
    refine ⟨?_, ?_, ?_, ?_⟩
    · rw [e1]; simp [Outcome.ok]
    · intro _
      rw [e1]
      exact (balance_of_account _ _ _ hs1).trans (u256_add_sub_cancel _ _ hv)
    · rw [e2]; simp [Outcome.ok]
    · intro _
      rw [e2]
      exact (BRC_of_account _ _ _ hs2).trans (u256_add_sub_cancel _ _ hv)
  | none =>
    have h' : (account (account s addr).2 addr).1 = none := by rw [account_account, h]
    have hreq := requireAccountStartNonce_account s addr
    have e1 : setBalance s addr v = addBalance (account s addr).2 addr v := by
      unfold setBalance
      simp only [h, u256_sub_zero_right v hv]
    have e2 : setBRC s addr v = addBRC (account s addr).2 addr v := by
      unfold setBRC
      simp only [h, u256_sub_zero_right v hv]
    rw [e1, e2, addBalance_absent _ addr v h', addBRC_absent _ addr v h', hreq, account_account]
    cases hn : requireAccountStartNonce s with
    | none =>
      have hinv := (requireAccountStartNonce_eq_none s).mp hn
      simp [Outcome.throw, hinv]
    | some n =>
      have hinv : s.m_accountStartNonce ≠ Invalid256 := by
        intro hx
        rw [(requireAccountStartNonce_eq_none s).mpr hx] at hn
        cases hn
      have hs1 := (createLog_spec s addr h (Account.create n v) Change.Kind.Balance v).1
      have hs2 := (createLog_spec s addr h (Account.createBRC n 0 v) Change.Kind.BRC v).1
      refine ⟨?_, ?_, ?_, ?_⟩
      · simp [Outcome.ok, hinv]
      · intro _
        exact balance_of_account _ _ _ hs1
      · simp [Outcome.ok, hinv]
      · intro _
        exact BRC_of_account _ _ _ hs2

/-! ## Rollback -/

theorem rollbackStep_changeLog (sha3 : Bytes → Nat) (s : State) (c : Change) :
    (rollbackStep sha3 s c).m_changeLog = s.m_changeLog.dropLast := by
  unfold rollbackStep
  cases c.kind <;> rfl

theorem rollbackStep_frame (sha3 : Bytes → Nat) (s : State) (c : Change) :
    (rollbackStep sha3 s c).m_state = s.m_state ∧
    (rollbackStep sha3 s c).m_nonExistingAccountsCache = s.m_nonExistingAccountsCache ∧
    (rollbackStep sha3 s c).m_accountStartNonce = s.m_accountStartNonce := by
  unfold rollbackStep
  cases c.kind <;> exact ⟨rfl, rfl, rfl⟩

/-- Rolling back to the length of `base` undoes the records above `base`, newest first. -/
theorem rollbackLoop_eq_foldl (sha3 : Bytes → Nat) (base cs : List Change) :
    ∀ (fuel : Nat) (s : State), s.m_changeLog = base ++ cs → cs.length ≤ fuel →
      rollbackLoop sha3 fuel base.length s = cs.reverse.foldl (rollbackStep sha3) s := by
  induction cs using List.reverseRecOn with
  | nil =>
    intro fuel s hlog _
    cases fuel with
    | zero => rfl
    | succ f =>
      unfold rollbackLoop
      simp [hlog]
  | append_singleton cs c ih =>
    intro fuel s hlog hfuel
    cases fuel with
    | zero => simp at hfuel
    | succ f =>
      have hlen : base.length ≠ s.m_changeLog.length := by
        rw [hlog]; simp
      have hlast : s.m_changeLog.getLast? = some c := by
        rw [hlog, ← List.append_assoc]; simp
      have hnext : (rollbackStep sha3 s c).m_changeLog = base ++ cs := by
        rw [rollbackStep_changeLog, hlog, ← List.append_assoc]; simp
      unfold rollbackLoop
      simp only [hlen, ne_eq, not_false_eq_true, if_true, hlast]
      rw [ih f _ hnext (by simpa using hfuel)]
      simp

theorem rollback_eq_foldl (sha3 : Bytes → Nat) (s : State) (base cs : List Change)
    (hlog : s.m_changeLog = base ++ cs) :
    rollback sha3 s base.length = cs.reverse.foldl (rollbackStep sha3) s := by
  unfold rollback
  exact rollbackLoop_eq_foldl sha3 base cs _ s hlog (by rw [hlog]; simp)

theorem u256_add_add_sub_zero (b amt : Nat) (hb : b < 2 ^ 256) :
    u256.add (u256.add b amt) (u256.sub 0 amt) = b := by
  unfold u256.add u256.sub; omega

theorem u256_add_zero (b : Nat) (hb : b < 2 ^ 256) : u256.add b 0 = b := by
  unfold u256.add; omega

theorem setNonce_existing (s : State) (addr n : Nat) (a : Account)
    (h : Map.find s.m_cache addr = some a) :
    setNonce s addr n = Outcome.ok ((s.modifyAccount addr (fun x => x.setNonce n)).log
      { kind := Change.Kind.Nonce, address := addr, value := a.nonce }) := by
  unfold setNonce
  rw [account_hit s addr a h]

/-- Rollback of `addBalance; setNonce` on an existing account: the entry gets its balance and
nonce back. -/
theorem rollback_existing (sha3 : Bytes → Nat) (s : State) (A amt n : Nat) (a : Account)
    (h : (account s A).1 = some a) (hb : a.balance < 2 ^ 256) :
    ((addBalance s A amt).andThen (fun t => setNonce t A n)).error = none ∧
    ∃ x, (account (rollback sha3
        ((addBalance s A amt).andThen (fun t => setNonce t A n)).state (savepoint s)) A).1
        = some x ∧ x.balance = a.balance ∧ x.nonce = a.nonce := by
  have hfind := account_find s A
  rw [h] at hfind
  have hlog0 := (account_frame s A).1
  rw [addBalance_existing s A amt a h]
  have hf1 : Map.find (logIfNonZero
      ((logTouch (account s A).2 a A).modifyAccount A (fun x => x.addBalance amt))
      Change.Kind.Balance A amt).m_cache A = some (a.addBalance amt) := by
    simp [State.modifyAccount, Map.find_modify, hfind]
  simp only [Outcome.andThen, Outcome.ok]
  rw [setNonce_existing _ A n _ hf1]
  refine ⟨rfl, ?_⟩
  simp only [Outcome.ok, savepoint]
  set s1 := logIfNonZero
      ((logTouch (account s A).2 a A).modifyAccount A (fun x => x.addBalance amt))
      Change.Kind.Balance A amt with hs1
  set s2 := (s1.modifyAccount A (fun x => x.setNonce n)).log
      { kind := Change.Kind.Nonce, address := A, value := (a.addBalance amt).nonce } with hs2
  have hlog : s2.m_changeLog = s.m_changeLog ++
        ((if !a.isDirty && a.isEmpty then [{ kind := Change.Kind.Touch, address := A }] else [])
        ++ (if amt ≠ 0 then [{ kind := Change.Kind.Balance, address := A, value := amt }] else [])
        ++ [{ kind := Change.Kind.Nonce, address := A, value := (a.addBalance amt).nonce }]) := by
    simp [hs2, hs1, State.log, State.modifyAccount, logIfNonZero_changeLog, logTouch_changeLog,
      hlog0]
  have hf2 : Map.find s2.m_cache A = some ((a.addBalance amt).setNonce n) := by
    simp [hs2, State.log, State.modifyAccount, Map.find_modify, hf1]
  rw [rollback_eq_foldl sha3 _ _ _ hlog]
  rw [account_fst]
  by_cases ht : (!a.isDirty && a.isEmpty) = true <;> by_cases hz : amt = 0 <;>
    simp [ht, hz, rollbackStep, State.modifyAccount, Map.find_modify, Map.find_emplace, hf2]
  all_goals
    simp [Account.untouch, Account.setNonce, Account.addBalance,
      u256_add_add_sub_zero _ _ hb, u256_add_zero _ hb]

/-- Rollback of `addBalance; setNonce` on an absent address: the address is absent again. -/
theorem rollback_absent (sha3 : Bytes → Nat) (s : State) (A amt n : Nat)
    (hc : Map.find s.m_cache A = none) (htr : Map.find s.m_state A = none) :
    (s.m_accountStartNonce ≠ Invalid256 →
      ((addBalance s A amt).andThen (fun t => setNonce t A n)).error = none) ∧
    (account (rollback sha3
        ((addBalance s A amt).andThen (fun t => setNonce t A n)).state (savepoint s)) A).1
        = none ∧
    (rollback sha3 ((addBalance s A amt).andThen (fun t => setNonce t A n)).state
        (savepoint s)).m_accountStartNonce = s.m_accountStartNonce := by
  have h : (account s A).1 = none := by rw [account_absent s A hc htr]
  have hst := account_none_state s A h
  rw [addBalance_absent s A amt h]
  cases hn : requireAccountStartNonce s with
  | none =>
    have hinv := (requireAccountStartNonce_eq_none s).mp hn
    have hlog : (account s A).2.m_changeLog = s.m_changeLog ++ [] := by
      rw [(account_frame s A).1]; simp
    simp only [Outcome.andThen, Outcome.throw, savepoint]
    rw [rollback_eq_foldl sha3 _ _ _ hlog]
    refine ⟨fun hx => absurd hinv hx, ?_, ?_⟩
    · simp only [List.reverse_nil, List.foldl_nil]
      rw [account_account, h]
    · simp only [List.reverse_nil, List.foldl_nil]
      exact (account_frame s A).2.2.1
  | some n0 =>
    set s1 := logIfNonZero (createAccount (account s A).2 A (Account.create n0 amt))
      Change.Kind.Balance A amt with hs1
    have hf1 : Map.find s1.m_cache A = some (Account.create n0 amt) := by
      simp [hs1, createAccount, Map.find_assign]
    simp only [Outcome.andThen, Outcome.ok]
    rw [setNonce_existing _ A n _ hf1]
    simp only [Outcome.ok, savepoint]
    set s2 := (s1.modifyAccount A (fun x => x.setNonce n)).log
      { kind := Change.Kind.Nonce, address := A, value := (Account.create n0 amt).nonce }
      with hs2
    have hlog : s2.m_changeLog = s.m_changeLog ++
        ([{ kind := Change.Kind.Create, address := A }] ++
         (if amt ≠ 0 then [{ kind := Change.Kind.Balance, address := A, value := amt }] else [])
         ++ [{ kind := Change.Kind.Nonce, address := A,
               value := (Account.create n0 amt).nonce }]) := by
      simp [hs2, hs1, State.log, State.modifyAccount, logIfNonZero_changeLog, createAccount,
        (account_frame s A).1]
    have hne : A ∉ s2.m_nonExistingAccountsCache := by
      simp [hs2, hs1, State.log, State.modifyAccount, createAccount, AddressSet.mem_erase]
    have htrie : s2.m_state = s.m_state := by
      simp [hs2, hs1, State.log, State.modifyAccount, createAccount, hst]
    have hsn : s2.m_accountStartNonce = s.m_accountStartNonce := by
      simp [hs2, hs1, State.log, State.modifyAccount, createAccount, hst]
    rw [rollback_eq_foldl sha3 _ _ _ hlog]
    refine ⟨fun _ => trivial, ?_, ?_⟩
    · rw [account_fst]
      by_cases hz : amt = 0 <;>
        simp [hz, rollbackStep, State.modifyAccount, Map.find_erase, hne, htrie, htr]
    · by_cases hz : amt = 0 <;>
        simp [hz, rollbackStep, State.modifyAccount, hsn]

/-- C2: for every state, every address `A` (present: a lookup finds it, its balance being a
`u256`; or absent: neither in the cache nor in the trie), every amount `amt` and every nonce
`n`: after `s = savepoint(); addBalance(A, amt); setNonce(A, n); rollback(s)` the reads
`balance(A)`, `getNonce(A)` and `addressInUse(A)` return what they returned before the
savepoint.  The two mutators return normally whenever `A` exists or the start nonce is set;
when `addBalance` raises (absent address, start nonce unset), nothing was logged and the reads
are unchanged as well. -/
theorem rollback_addBalance_setNonce (sha3 : Bytes → Nat) (s : State) (A amt n : Nat) :
    (∀ a, (account s A).1 = some a → a.balance < 2 ^ 256 →
      ((addBalance s A amt).andThen (fun t => setNonce t A n)).error = none ∧
      (balance (rollback sha3 ((addBalance s A amt).andThen (fun t => setNonce t A n)).state
        (savepoint s)) A).1 = (balance s A).1 ∧
      (getNonce (rollback sha3 ((addBalance s A amt).andThen (fun t => setNonce t A n)).state
        (savepoint s)) A).1 = (getNonce s A).1 ∧
      (addressInUse (rollback sha3 ((addBalance s A amt).andThen (fun t => setNonce t A n)).state
        (savepoint s)) A).1 = (addressInUse s A).1) ∧
    (Map.find s.m_cache A = none → Map.find s.m_state A = none →
      (s.m_accountStartNonce ≠ Invalid256 →
        ((addBalance s A amt).andThen (fun t => setNonce t A n)).error = none) ∧
      (balance (rollback sha3 ((addBalance s A amt).andThen (fun t => setNonce t A n)).state
        (savepoint s)) A).1 = (balance s A).1 ∧
      (getNonce (rollback sha3 ((addBalance s A amt).andThen (fun t => setNonce t A n)).state
        (savepoint s)) A).1 = (getNonce s A).1 ∧
      (addressInUse (rollback sha3 ((addBalance s A amt).andThen (fun t => setNonce t A n)).state
        (savepoint s)) A).1 = (addressInUse s A).1) := by
  constructor
  · intro a h hb
    obtain ⟨herr, x, hx, hxb, hxn⟩ := rollback_existing sha3 s A amt n a h hb
    refine ⟨herr, ?_, ?_, ?_⟩
    · simp only [balance, hx, h, hxb]
    · simp only [getNonce, hx, h, hxn]
    · simp only [addressInUse, hx, h, Option.isSome]
  · intro hc htr
    have h : (account s A).1 = none := by rw [account_absent s A hc htr]
    obtain ⟨herr, hx, hsn⟩ := rollback_absent sha3 s A amt n hc htr
    refine ⟨herr, ?_, ?_, ?_⟩
    · simp only [balance, hx, h]
    · simp only [getNonce, hx, h, hsn]
    · simp only [addressInUse, hx, h]

theorem rollback_addBalance_setNonce_witness :
    (account stThousand 1).1 = some (decodeAccount
      [.data 0, .data 1000, .data EmptyTrie, .data EmptySHA3, .data 0, .data 0,
        .votes 0 [], .data 0, .data 0, .data 0]) ∧
    (balance stThousand 1).1 = 1000 ∧ (getNonce stThousand 1).1 = 0 ∧
    (balance (rollback (fun _ => 0)
      ((addBalance stThousand 1 500).andThen (fun t => setNonce t 1 7)).state
      (savepoint stThousand)) 1).1 = 1000 ∧
    (getNonce (rollback (fun _ => 0)
      ((addBalance stThousand 1 500).andThen (fun t => setNonce t 1 7)).state
      (savepoint stThousand)) 1).1 = 0 :=
  have h := (rollback_addBalance_setNonce (fun _ => 0) stThousand 1 500 7).1
    (decodeAccount [.data 0, .data 1000, .data EmptyTrie, .data EmptySHA3, .data 0, .data 0,
      .votes 0 [], .data 0, .data 0, .data 0]) (by decide) (by decide)
  ⟨by decide, by decide, by decide, h.2.1.trans (by decide), h.2.2.1.trans (by decide)⟩

/-! ## Witnesses -/

theorem subBalance_spec_witness :
    (account stTen 1).1 = some (Account.create 0 10) ∧ (subBalance stTen 1 3).error = none ∧
    (balance (subBalance stTen 1 3).state 1).1 = 7 ∧
    (subBalance stTen 1 3).state.m_changeLog =
      [{ kind := Change.Kind.Balance, address := 1, value := 2 ^ 256 - 3 }] :=
  have h := subBalance_spec stTen 1 3 (Account.create 0 10) (by decide) (by decide)
    (by decide) (by decide)
  ⟨by decide, h.1, h.2.1, h.2.2.2.1⟩

theorem addBalance_spec_witness :
    stTrie.coherentAt 1 ∧
    ((addBalance stTrie 2 5).error = none ∧
     (account (addBalance stTrie 2 5).state 2).1 =
       some { nonce := 0, balance := 5, dirty := true, alive := true } ∧
     (0 : Nat) = stTrie.m_accountStartNonce ∧
     (addBalance stTrie 2 5).state.m_changeLog =
       [] ++ [{ kind := Change.Kind.Create, address := 2 }] ++
         (if (5 : Nat) ≠ 0
          then [{ kind := Change.Kind.Balance, address := 2, value := 5 }] else [])) ∧
    (account (addBalance stTrie 2 5).state 1).1 = (account stTrie 1).1 :=
  have h := addBalance_spec stTrie 2 5
  ⟨by decide, h.1, h.2.2 1 (by decide) (by decide)⟩

theorem setBalance_setBRC_spec_witness :
    (4 : Nat) < 2 ^ 256 ∧ (balance stTen 1).1 = 10 ∧
    (balance (setBalance stTen 1 4).state 1).1 = 4 ∧
    (BRC (setBRC stTen 1 4).state 1).1 = 4 :=
  have h := setBalance_setBRC_spec stTen 1 4 (by decide)
  ⟨by decide, by decide, h.2.1 (h.1.mpr (Or.inl (by decide))),
   h.2.2.2 (h.2.2.1.mpr (Or.inl (by decide)))⟩

/-! ## Evaluations of the code where it departs from the specification -/

/-- C5 (counterexample): address 1 is absent (neither cached nor in the trie) and the start
nonce is unset; `addBalance(1, 5)` raises InvalidAccountStartNonceInState, no account exists
afterwards and no record is appended. -/
theorem addBalance_absent_unset_nonce :
    Map.find stUnset.m_cache 1 = none ∧ Map.find stUnset.m_state 1 = none ∧
    (addBalance stUnset 1 5).error = some Error.InvalidAccountStartNonceInState ∧
    (account (addBalance stUnset 1 5).state 1).1 = none ∧
    (addBalance stUnset 1 5).state.m_changeLog = [] := by
  decide

/-- C6 (counterexample): address 1 is absent and the start nonce is unset; `setBalance(1, 5)`
and `setBRC(1, 5)` raise InvalidAccountStartNonceInState, and afterwards `balance(1)` and
`BRC(1)` are 0, not 5. -/
theorem setBalance_absent_unset_nonce :
    (setBalance stUnset 1 5).error = some Error.InvalidAccountStartNonceInState ∧
    (balance (setBalance stUnset 1 5).state 1).1 = 0 ∧
    (balance (setBalance stUnset 1 5).state 1).1 ≠ 5 ∧
    (setBRC stUnset 1 5).error = some Error.InvalidAccountStartNonceInState ∧
    (BRC (setBRC stUnset 1 5).state 1).1 = 0 ∧
    (BRC (setBRC stUnset 1 5).state 1).1 ≠ 5 := by
  decide

/-- C1 (failing input): with account 1 holding balance 5 and poll 0, after
`s = savepoint(); addPoll(1, 3); rollback(s)` the reads are `balance(1) = 8` and
`poll(1) = 2^256 - 3`, not the values 5 and 0 read before the savepoint: `State::addPoll`
adds to the balance while the Poll record is undone on the poll. -/
theorem rollback_addPoll_not_inverse :
    (balance stTrie 1).1 = 5 ∧ (poll stTrie 1).1 = 0 ∧
    (addPoll stTrie 1 3).error = none ∧
    (balance (rollback (fun _ => 0) (addPoll stTrie 1 3).state (savepoint stTrie)) 1).1 = 8 ∧
    (poll (rollback (fun _ => 0) (addPoll stTrie 1 3).state (savepoint stTrie)) 1).1
      = 2 ^ 256 - 3 := by
  decide

/-- C8 (failing input): on the absent address 2, `addFBRC(2, 5)` and `addFBalance(2, 5)`
return normally and create no account, but each appends a record (FBRC, FBalance) to the
change log; rolling that record back materialises an account for address 2 whose frozen
field is `2^256 - 5`. -/
theorem addFBRC_absent_appends_record :
    (account stTrie 2).1 = none ∧
    (addFBRC stTrie 2 5).error = none ∧
    (addFBRC stTrie 2 5).state.m_cache = stTrie.m_cache ∧
    (addFBRC stTrie 2 5).state.m_changeLog =
      [{ kind := Change.Kind.FBRC, address := 2, value := 5 }] ∧
    (addFBalance stTrie 2 5).error = none ∧
    (addFBalance stTrie 2 5).state.m_changeLog =
      [{ kind := Change.Kind.FBalance, address := 2, value := 5 }] ∧
    (addressInUse (rollback (fun _ => 0) (addFBRC stTrie 2 5).state 0) 2).1 = true ∧
    (FBRC (rollback (fun _ => 0) (addFBRC stTrie 2 5).state 0) 2).1 = 2 ^ 256 - 5 := by
  decide

/-- C10 (failing input): voter 1 (ballot 100) votes 40 for receiver 2.  The ballot, poll and
ledger are updated as described, but the third record appended is a Poll record on the voter,
not on the receiver: rolling back leaves `poll(2) = 40` and sets `poll(1) = 2^256 - 40`. -/
theorem addVote_poll_record_on_voter :
    (addVote stVote 1 2 40).error = none ∧
    (ballot (addVote stVote 1 2 40).state 1).1 = 60 ∧
    (poll (addVote stVote 1 2 40).state 2).1 = 40 ∧
    (voteAdress (addVote stVote 1 2 40).state 1 2).1 = 40 ∧
    (addVote stVote 1 2 40).state.m_changeLog =
      [{ kind := Change.Kind.Vote, address := 1, vote := (2, 40) },
       { kind := Change.Kind.Ballot, address := 1, value := 2 ^ 256 - 40 },
       { kind := Change.Kind.Poll, address := 1, value := 40 }] ∧
    (poll stVote 2).1 = 0 ∧ (poll stVote 1).1 = 0 ∧
    (poll (rollback (fun _ => 0) (addVote stVote 1 2 40).state (savepoint stVote)) 2).1 = 40 ∧
    (poll (rollback (fun _ => 0) (addVote stVote 1 2 40).state (savepoint stVote)) 1).1
      = 2 ^ 256 - 40 := by
  decide

/-! ## Voting -/

theorem addVote_absent (s : State) (V R a : Nat)
    (h : (account s V).1 = none ∨ (account (account s V).2 R).1 = none) :
    addVote s V R a =
      Outcome.throw Error.InvalidAddressAddr (account (account s V).2 R).2 := by
  unfold addVote
  rcases h with h | h
  · simp only [h]
  · cases h1 : (account s V).1 <;> simp only [h, h1]

/-- The voter's entry was erased by the lookup of the receiver: the pointer `a` dangles. -/
theorem addVote_dangling (s : State) (V R a : Nat) (v r : Account)
    (hV : (account s V).1 = some v) (hR : (account (account s V).2 R).1 = some r)
    (hfV : Map.find (account (account s V).2 R).2.m_cache V = none) :
    addVote s V R a =
      Outcome.throw Error.DanglingPointer (account (account s V).2 R).2 := by
  unfold addVote
  simp only [hV, hR, hfV]

theorem addVote_short (s : State) (V R a : Nat) (v r : Account)
    (hV : (account s V).1 = some v) (hR : (account (account s V).2 R).1 = some r)
    (hfV : Map.find (account (account s V).2 R).2.m_cache V = some v) (hlt : v.ballot < a) :
    addVote s V R a =
      Outcome.throw Error.NotEnoughBallot (account (account s V).2 R).2 := by
  unfold addVote
  simp only [hV, hR, hfV, hlt, if_true]

theorem addVote_ok (s : State) (V R a : Nat) (v r : Account)
    (hV : (account s V).1 = some v) (hR : (account (account s V).2 R).1 = some r)
    (hfV : Map.find (account (account s V).2 R).2.m_cache V = some v)
    (hlt : ¬ v.ballot < a) :
    addVote s V R a = Outcome.ok
      (if a ≠ 0 then
        (((((account (account s V).2 R).2.modifyAccount V
            (fun x => x.addBallot (u256.sub 0 a))).modifyAccount R
            (fun x => x.addPoll a)).modifyAccount V (fun x => x.addVote (R, a))).log
          { kind := Change.Kind.Vote, address := V, vote := (R, a) }).log
          { kind := Change.Kind.Ballot, address := V, value := u256.sub 0 a } |>.log
          { kind := Change.Kind.Poll, address := V, value := a }
       else
        (((account (account s V).2 R).2.modifyAccount V
            (fun x => x.addBallot (u256.sub 0 a))).modifyAccount R
            (fun x => x.addPoll a)).modifyAccount V (fun x => x.addVote (R, a))) := by
  unfold addVote
  simp only [hV, hR, hfV, hlt, if_false]
  split <;> rfl

/-- C11 (what holds): `addVote(voter, receiver, amt)`, for every state.
The call raises InvalidAddress exactly when one of its two lookups finds no account.  When
both find one, the pointer to the voter's entry is dereferenced after the lookup of the
receiver: if that lookup dropped the entry from the cache the pointer dangles (the model marks
the call `DanglingPointer`; in the source it is a use after free, whatever `ballot(voter)` is);
otherwise the call raises NotEnoughBallot (InsufficientBallot) exactly when
`ballot(voter) < amt`.  The lookup of the receiver returns what it returns before the call when
the cache entry of the receiver is coherent.  Whenever one of the two exceptions is raised the
state is the one the two lookups leave: the change log and the trie are as before, no field
(ballot, poll, vote ledger or any other) of any account was written, and a lookup of any
address whose cache entry was coherent returns the account it returned before. -/
theorem addVote_failure (s : State) (voter receiver amt : Nat) :
    ((addVote s voter receiver amt).error = some Error.InvalidAddressAddr ↔
      ((account s voter).1 = none ∨ (account (account s voter).2 receiver).1 = none)) ∧
    ((addVote s voter receiver amt).error = some Error.DanglingPointer ↔
      ((account s voter).1 ≠ none ∧ (account (account s voter).2 receiver).1 ≠ none ∧
        Map.find (account (account s voter).2 receiver).2.m_cache voter = none)) ∧
    ((addVote s voter receiver amt).error = some Error.NotEnoughBallot ↔
      ((account s voter).1 ≠ none ∧ (account (account s voter).2 receiver).1 ≠ none ∧
        Map.find (account (account s voter).2 receiver).2.m_cache voter ≠ none ∧
        (ballot s voter).1 < amt)) ∧
    (s.coherentAt receiver →
      (account (account s voter).2 receiver).1 = (account s receiver).1) ∧
    (((addVote s voter receiver amt).error = some Error.InvalidAddressAddr ∨
        (addVote s voter receiver amt).error = some Error.NotEnoughBallot) →
      (addVote s voter receiver amt).state = (account (account s voter).2 receiver).2 ∧
      (addVote s voter receiver amt).state.m_changeLog = s.m_changeLog ∧
      (addVote s voter receiver amt).state.m_state = s.m_state ∧
      (∀ b, unwritten s (addVote s voter receiver amt).state b) ∧
      ∀ b, s.coherentAt b → (account (addVote s voter receiver amt).state b).1 = (account s b).1) := by
  have hu := account2_Untouched s voter receiver
  have hfr : ∀ e, addVote s voter receiver amt =
      Outcome.throw e (account (account s voter).2 receiver).2 →
      (addVote s voter receiver amt).state = (account (account s voter).2 receiver).2 ∧
      (addVote s voter receiver amt).state.m_changeLog = s.m_changeLog ∧
      (addVote s voter receiver amt).state.m_state = s.m_state ∧
      (∀ b, unwritten s (addVote s voter receiver amt).state b) ∧
      ∀ b, s.coherentAt b → (account (addVote s voter receiver amt).state b).1 = (account s b).1 := by
    intro e he
    rw [he]
    exact ⟨rfl, hu.changeLog, hu.trie, hu.cache, hu.view⟩
  refine ⟨?_, ?_, ?_, fun hco => account_view s voter receiver hco, ?_⟩
  all_goals
    cases h1 : (account s voter).1 with
    | none =>
      have e := addVote_absent s voter receiver amt (Or.inl h1)
      first
        | exact fun _ => hfr _ e
        | (rw [e]; simp [Outcome.throw])
    | some v =>
      cases h2 : (account (account s voter).2 receiver).1 with
      | none =>
        have e := addVote_absent s voter receiver amt (Or.inr h2)
        first
          | exact fun _ => hfr _ e
          | (rw [e]; simp [Outcome.throw])
      | some r =>
        rcases account_kept s voter receiver v h1 with hf | hf
        · by_cases hlt : v.ballot < amt
          · have e := addVote_short s voter receiver amt v r h1 h2 hf hlt
            first
              | exact fun _ => hfr _ e
              | (rw [e]; simp [Outcome.throw, hf, ballot, h1, hlt])
          · have e := addVote_ok s voter receiver amt v r h1 h2 hf hlt
            first
              | (intro hx; rw [e] at hx; simp [Outcome.ok] at hx)
              | (rw [e]; simp [Outcome.ok, hf, ballot, h1, hlt])
        · have e := addVote_dangling s voter receiver amt v r h1 h2 hf
          first
            | (intro hx; rw [e] at hx; simp [Outcome.throw] at hx)
            | (rw [e]; simp [Outcome.throw, hf])

theorem subVote_absent (s : State) (V R a : Nat)
    (h : (account s R).1 = none ∨ (account (account s R).2 V).1 = none) :
    subVote s V R a =
      Outcome.throw Error.InvalidAddressAddr (account (account s R).2 V).2 := by
  unfold subVote
  rcases h with h | h
  · cases h1 : (account (account s R).2 V).1 <;> simp only [h, h1]
  · simp only [h]

theorem subVote_short (s : State) (V R a : Nat) (v r : Account)
    (hR : (account s R).1 = some r) (hV : (account (account s R).2 V).1 = some v)
    (hlt : v.vote R < a) :
    subVote s V R a =
      Outcome.throw Error.NotEnoughVoteLog (account (account s R).2 V).2 := by
  unfold subVote
  simp only [hR, hV, hlt, if_true]

/-- The receiver's entry was erased by the lookup of the voter: the pointer `rec_a` dangles
when the poll is read, after the voter's entry has been updated. -/
theorem subVote_dangling (s : State) (V R a : Nat) (v r : Account)
    (hR : (account s R).1 = some r) (hV : (account (account s R).2 V).1 = some v)
    (hfR : Map.find (account (account s R).2 V).2.m_cache R = none) (hlt : ¬ v.vote R < a) :
    (subVote s V R a).error = some Error.DanglingPointer := by
  have hfV : Map.find (account (account s R).2 V).2.m_cache V = some v := by
    rw [account_find, hV]
  have hRV : R ≠ V := by
    intro e
    have h' : Map.find (account (account s R).2 V).2.m_cache R
        = Map.find (account (account s R).2 V).2.m_cache V := congrArg _ e
    rw [h', hfV] at hfR
    cases hfR
  have hfind : Map.find (((account (account s R).2 V).2.modifyAccount V
        (fun x => x.addVote (R, u256.sub 0 a))).modifyAccount V
        (fun x => x.addBallot a)).m_cache R = none := by
    simp only [State.modifyAccount, Map.find_modify, hRV, if_false, hfR]
  unfold subVote
  simp only [hR, hV, hlt, if_false, hfind]
  rfl

theorem vote_addVote (x : Account) (p : Address × Nat) (k : Address) :
    (x.addVote p).vote k = if k = p.1 then u256.add (x.vote p.1) p.2 else x.vote k := by
  simp only [Account.addVote, Account.vote, Map.find_assign]
  split <;> simp

theorem subVote_ok (s : State) (V R a : Nat) (v r : Account)
    (hR : (account s R).1 = some r) (hV : (account (account s R).2 V).1 = some v)
    (hfR : Map.find (account (account s R).2 V).2.m_cache R = some r)
    (hlt : ¬ v.vote R < a) :
    subVote s V R a = Outcome.ok
      (if clampTo r.poll a ≠ 0 then
        ((((((account (account s R).2 V).2.modifyAccount V
            (fun x => x.addVote (R, u256.sub 0 a))).modifyAccount V
            (fun x => x.addBallot a)).modifyAccount R
            (fun x => x.addPoll (u256.sub 0 (clampTo r.poll a)))).log
          { kind := Change.Kind.Vote, address := V,
            vote := (R, u256.sub 0 (clampTo r.poll a)) }).log
          { kind := Change.Kind.Ballot, address := V, value := clampTo r.poll a }).log
          { kind := Change.Kind.Poll, address := V, value := u256.sub 0 (clampTo r.poll a) }
       else
        (((account (account s R).2 V).2.modifyAccount V
            (fun x => x.addVote (R, u256.sub 0 a))).modifyAccount V
            (fun x => x.addBallot a)).modifyAccount R
            (fun x => x.addPoll (u256.sub 0 (clampTo r.poll a)))) := by
  have hfind : ∃ r', Map.find (((account (account s R).2 V).2.modifyAccount V
        (fun x => x.addVote (R, u256.sub 0 a))).modifyAccount V
        (fun x => x.addBallot a)).m_cache R = some r' ∧ r'.poll = r.poll := by
    simp only [State.modifyAccount, Map.find_modify, hfR]
    by_cases h : R = V
    · exact ⟨(r.addVote (R, u256.sub 0 a)).addBallot a, by simp [h], rfl⟩
    · exact ⟨r, by simp only [h, if_false], rfl⟩
  obtain ⟨r', hr', hp⟩ := hfind
  unfold subVote
  simp only [hR, hV, hlt, if_false, hr', hp]

/-- After a successful `subVote`: the entries of the voter and the receiver, and the log. -/
theorem subVote_entries (s : State) (V R a : Nat) (v r : Account)
    (hR : (account s R).1 = some r) (hV : (account (account s R).2 V).1 = some v)
    (hfR : Map.find (account (account s R).2 V).2.m_cache R = some r)
    (hlt : ¬ v.vote R < a) :
    (subVote s V R a).error = none ∧
    (subVote s V R a).state.m_changeLog = s.m_changeLog ++
      (if clampTo r.poll a ≠ 0 then
        [{ kind := Change.Kind.Vote, address := V, vote := (R, u256.sub 0 (clampTo r.poll a)) },
         { kind := Change.Kind.Ballot, address := V, value := clampTo r.poll a },
         { kind := Change.Kind.Poll, address := V, value := u256.sub 0 (clampTo r.poll a) }]
       else []) ∧
    ∃ v' r', Map.find (subVote s V R a).state.m_cache V = some v' ∧
      Map.find (subVote s V R a).state.m_cache R = some r' ∧
      v'.ballot = u256.add v.ballot a ∧
      r'.poll = u256.add r.poll (u256.sub 0 (clampTo r.poll a)) ∧
      v'.vote R = u256.add (v.vote R) (u256.sub 0 a) := by
  have hfV : Map.find (account (account s R).2 V).2.m_cache V = some v := by
    rw [account_find, hV]
  have hlog : (account (account s R).2 V).2.m_changeLog = s.m_changeLog := by
    rw [(account_frame _ V).1, (account_frame s R).1]
  rw [subVote_ok s V R a v r hR hV hfR hlt]
  refine ⟨rfl, ?_, ?_⟩
  · by_cases h0 : clampTo r.poll a = 0 <;>
      simp [Outcome.ok, h0, State.log, State.modifyAccount, hlog]
  by_cases hVR : V = R
  · subst hVR
    have hvr : v = r := by rw [hfV] at hfR; exact Option.some.inj hfR
    subst hvr
    refine ⟨((v.addVote (V, u256.sub 0 a)).addBallot a).addPoll (u256.sub 0 (clampTo v.poll a)),
      ((v.addVote (V, u256.sub 0 a)).addBallot a).addPoll (u256.sub 0 (clampTo v.poll a)),
      ?_, ?_, ?_, ?_, ?_⟩
    · by_cases h0 : clampTo v.poll a = 0 <;>
        simp [Outcome.ok, h0, State.log, State.modifyAccount, Map.find_modify, hfV]
    · by_cases h0 : clampTo v.poll a = 0 <;>
        simp [Outcome.ok, h0, State.log, State.modifyAccount, Map.find_modify, hfV]
    · simp [Account.addVote, Account.addPoll, Account.addBallot]
    · simp [Account.addVote, Account.addPoll, Account.addBallot]
    · have := vote_addVote v (V, u256.sub 0 a) V
      simpa [Account.vote, Account.addPoll, Account.addBallot] using this
  · have hRV : ¬ R = V := fun h => hVR h.symm
    refine ⟨(v.addVote (R, u256.sub 0 a)).addBallot a,
      r.addPoll (u256.sub 0 (clampTo r.poll a)), ?_, ?_, ?_, ?_, ?_⟩
    · by_cases h0 : clampTo r.poll a = 0 <;>
        simp [Outcome.ok, h0, State.log, State.modifyAccount, Map.find_modify, hfV, hVR]
    · by_cases h0 : clampTo r.poll a = 0 <;>
        simp [Outcome.ok, h0, State.log, State.modifyAccount, Map.find_modify, hfR, hRV]
    · simp [Account.addVote, Account.addBallot]
    · simp [Account.addPoll]
    · have := vote_addVote v (R, u256.sub 0 a) R
      simpa [Account.vote, Account.addBallot] using this

theorem u256_sub_add_cancel (b a : Nat) (hb : b < 2 ^ 256) :
    u256.add (u256.add b (u256.sub 0 a)) a = b := by
  unfold u256.add u256.sub; omega

theorem u256_add_lt (b a : Nat) (h : b + a < 2 ^ 256) : u256.add b a = b + a := by
  unfold u256.add; omega

/-- After a successful `addVote`, the entries of the voter and the receiver. -/
theorem addVote_entries (s : State) (V R a : Nat) (v r : Account)
    (hV : (account s V).1 = some v) (hR : (account (account s V).2 R).1 = some r)
    (hfV : Map.find (account (account s V).2 R).2.m_cache V = some v) (hlt : ¬ v.ballot < a) :
    (addVote s V R a).error = none ∧
    ∃ v' r', Map.find (addVote s V R a).state.m_cache V = some v' ∧
      Map.find (addVote s V R a).state.m_cache R = some r' ∧
      v'.ballot = u256.add v.ballot (u256.sub 0 a) ∧
      r'.poll = u256.add r.poll a ∧
      v'.vote R = u256.add (v.vote R) a := by
  have hfR : Map.find (account (account s V).2 R).2.m_cache R = some r := by
    rw [account_find, hR]
  rw [addVote_ok s V R a v r hV hR hfV hlt]
  refine ⟨rfl, ?_⟩
  by_cases hVR : V = R
  · subst hVR
    have hvr : v = r := by rw [hfV] at hfR; exact Option.some.inj hfR
    subst hvr
    refine ⟨((v.addBallot (u256.sub 0 a)).addPoll a).addVote (V, a),
      ((v.addBallot (u256.sub 0 a)).addPoll a).addVote (V, a), ?_, ?_, ?_, ?_, ?_⟩
    · by_cases h0 : a = 0 <;>
        simp [Outcome.ok, h0, State.log, State.modifyAccount, Map.find_modify, hfV]
    · by_cases h0 : a = 0 <;>
        simp [Outcome.ok, h0, State.log, State.modifyAccount, Map.find_modify, hfV]
    · simp [Account.addVote, Account.addPoll, Account.addBallot]
    · simp [Account.addVote, Account.addPoll, Account.addBallot]
    · rw [vote_addVote]; simp [Account.vote, Account.addPoll, Account.addBallot]
  · have hRV : ¬ R = V := fun h => hVR h.symm
    refine ⟨(v.addBallot (u256.sub 0 a)).addVote (R, a), r.addPoll a, ?_, ?_, ?_, ?_, ?_⟩
    · by_cases h0 : a = 0 <;>
        simp [Outcome.ok, h0, State.log, State.modifyAccount, Map.find_modify, hfV, hVR]
    · by_cases h0 : a = 0 <;>
        simp [Outcome.ok, h0, State.log, State.modifyAccount, Map.find_modify, hfR, hRV]
    · simp [Account.addVote, Account.addBallot]
    · simp [Account.addPoll]
    · rw [vote_addVote]; simp [Account.vote, Account.addBallot]

theorem andThen_of_ok (o : Outcome) (f : State → Outcome) (h : o.error = none) :
    o.andThen f = f o.state := by
  unfold Outcome.andThen; rw [h]

theorem andThen_of_error (o : Outcome) (f : State → Outcome) (h : o.error ≠ none) :
    o.andThen f = o := by
  unfold Outcome.andThen
  cases he : o.error with
  | none => exact absurd he h
  | some e => rfl

theorem ballot_of_find (s : State) (addr : Address) (a : Account)
    (h : Map.find s.m_cache addr = some a) : (ballot s addr).1 = a.ballot := by
  simp only [ballot, account_hit s addr a h]

theorem poll_of_find (s : State) (addr : Address) (a : Account)
    (h : Map.find s.m_cache addr = some a) : (poll s addr).1 = a.poll := by
  simp only [poll, account_hit s addr a h]

theorem voteAdress_of_find (s : State) (addr receiver : Address) (a : Account)
    (h : Map.find s.m_cache addr = some a) :
    (voteAdress s addr receiver).1 = a.vote receiver := by
  simp only [voteAdress, account_hit s addr a h]

/-- C12 (amended): vote conservation.  For every state in which the lookups of `addVote` find
the accounts `V` (its ballot a `u256`) and `R`, and every `a ≤ ballot(V)` with neither
`poll(R) + a` nor `voteAdress(V, R) + a` overflowing: `addVote(V, R, a)` followed by
`subVote(V, R, a)` returns normally unless the lookup of `R` dropped the cache entry of `V`
(then `addVote` dereferences a dangling pointer), and when it returns normally `ballot(V)`,
`poll(R)` and `voteAdress(V, R)` are what they were before the `addVote`.  The lookup of `R`
returns what it returns before the call when the cache entry of `R` is coherent. -/
theorem vote_roundtrip (s : State) (V R a : Nat) (v r : Account)
    (hV : (account s V).1 = some v) (hR : (account (account s V).2 R).1 = some r)
    (hvb : v.ballot < 2 ^ 256)
    (ha : a ≤ v.ballot) (hpoll : r.poll + a < 2 ^ 256) (hled : v.vote R + a < 2 ^ 256) :
    (((addVote s V R a).andThen (fun t => subVote t V R a)).error = none ∨
      ((addVote s V R a).andThen (fun t => subVote t V R a)).error = some Error.DanglingPointer) ∧
    (((addVote s V R a).andThen (fun t => subVote t V R a)).error = some Error.DanglingPointer ↔
      Map.find (account (account s V).2 R).2.m_cache V = none) ∧
    (((addVote s V R a).andThen (fun t => subVote t V R a)).error = none →
      (ballot ((addVote s V R a).andThen (fun t => subVote t V R a)).state V).1 = v.ballot ∧
      (poll ((addVote s V R a).andThen (fun t => subVote t V R a)).state R).1 = r.poll ∧
      (voteAdress ((addVote s V R a).andThen (fun t => subVote t V R a)).state V R).1 = v.vote R) ∧
    (s.coherentAt R → (account (account s V).2 R).1 = (account s R).1) := by
  rcases account_kept s V R v hV with hkept | hgone
  · obtain ⟨he, v', r', hfV, hfR, hb, hp, hl⟩ :=
      addVote_entries s V R a v r hV hR hkept (by omega)
    have h1 : (account (addVote s V R a).state R).1 = some r' := by
      rw [account_hit _ R r' hfR]
    have h2 : (account (account (addVote s V R a).state R).2 V).1 = some v' := by
      rw [account_hit _ R r' hfR, account_hit _ V v' hfV]
    have h3 : Map.find (account (account (addVote s V R a).state R).2 V).2.m_cache R
        = some r' := by
      rw [account_hit _ R r' hfR, account_hit _ V v' hfV]; exact hfR
    have hl' : v'.vote R = v.vote R + a := by rw [hl]; exact u256_add_lt _ _ hled
    have hp' : r'.poll = r.poll + a := by rw [hp]; exact u256_add_lt _ _ hpoll
    obtain ⟨he2, -, v'', r'', hfV2, hfR2, hb2, hp2, hl2⟩ :=
      subVote_entries (addVote s V R a).state V R a v' r' h1 h2 h3 (by omega)
    have hcl : clampTo r'.poll a = a := by
      unfold clampTo; rw [hp']; simp
    rw [andThen_of_ok _ _ he]
    refine ⟨Or.inl he2, ?_, fun _ => ⟨?_, ?_, ?_⟩, fun hco => account_view s V R hco⟩
    · rw [he2, hkept]; simp
    · rw [ballot_of_find _ V v'' hfV2, hb2, hb]
      exact u256_sub_add_cancel _ _ hvb
    · rw [poll_of_find _ R r'' hfR2, hp2, hcl, hp']
      unfold u256.add u256.sub; omega
    · rw [voteAdress_of_find _ V R v'' hfV2, hl2, hl']
      unfold u256.add u256.sub; omega
  · have e := addVote_dangling s V R a v r hV hR hgone
    have herr : (addVote s V R a).error ≠ none := by rw [e]; simp [Outcome.throw]
    rw [andThen_of_error _ _ herr, e]
    refine ⟨Or.inr rfl, ?_, fun hx => ?_, fun hco => account_view s V R hco⟩
    · simp [Outcome.throw, hgone]
    · simp [Outcome.throw] at hx

/-- C15 (amended): for every state in which the lookups of `subVote(V, R, amt)` find the
receiver `R` and the voter `V`, with `voteAdress(V, R) ≥ amt` (a `u256`) and `poll(R) < amt`:
the call returns normally unless the lookup of `V` dropped the cache entry of `R` (then the
poll is read through a dangling pointer), and when it returns normally the ledger entry of `V`
for `R` is decremented by the original `amt`, the ballot of `V` is incremented by the original
`amt` (mod 2^256), `poll(R)` becomes 0, and the records appended are, when `poll(R) ≠ 0`, the
three records Vote, Ballot and Poll carrying the clamped amount `poll(R)` (negated mod 2^256 in
Vote and Poll), and none when `poll(R) = 0`.  The lookup of `V` returns what it returns before
the call when the cache entry of `V` is coherent. -/
theorem subVote_clamp (s : State) (V R a : Nat) (v r : Account)
    (hR : (account s R).1 = some r) (hV : (account (account s R).2 V).1 = some v)
    (hge : a ≤ v.vote R) (hL : v.vote R < 2 ^ 256) (hlt : r.poll < a) :
    ((subVote s V R a).error = none ∨
      (subVote s V R a).error = some Error.DanglingPointer) ∧
    ((subVote s V R a).error = some Error.DanglingPointer ↔
      Map.find (account (account s R).2 V).2.m_cache R = none) ∧
    ((subVote s V R a).error = none →
      (voteAdress (subVote s V R a).state V R).1 = v.vote R - a ∧
      (ballot (subVote s V R a).state V).1 = (v.ballot + a) % 2 ^ 256 ∧
      (poll (subVote s V R a).state R).1 = 0 ∧
      (subVote s V R a).state.m_changeLog = s.m_changeLog ++
        (if r.poll ≠ 0 then
          [{ kind := Change.Kind.Vote, address := V, vote := (R, 2 ^ 256 - r.poll) },
           { kind := Change.Kind.Ballot, address := V, value := r.poll },
           { kind := Change.Kind.Poll, address := V, value := 2 ^ 256 - r.poll }]
         else [])) ∧
    (s.coherentAt V → (account (account s R).2 V).1 = (account s V).1) := by
  have hrp : r.poll < 2 ^ 256 := by omega
  rcases account_kept s R V r hR with hfR | hgone
  · obtain ⟨he, hlog, v', r', hfV2, hfR2, hb2, hp2, hl2⟩ :=
      subVote_entries s V R a v r hR hV hfR (by omega)
    have hcl : clampTo r.poll a = r.poll := by
      unfold clampTo; simp [hlt]
    refine ⟨Or.inl he, ?_, fun _ => ⟨?_, ?_, ?_, ?_⟩, fun hco => account_view s R V hco⟩
    · rw [he, hfR]; simp
    · rw [voteAdress_of_find _ V R v' hfV2, hl2]
      unfold u256.add u256.sub; omega
    · rw [ballot_of_find _ V v' hfV2, hb2]; rfl
    · rw [poll_of_find _ R r' hfR2, hp2, hcl]
      unfold u256.add u256.sub; omega
    · rw [hlog, hcl]
      by_cases h0 : r.poll = 0
      · simp [h0]
      · have hs : u256.sub 0 r.poll = 2 ^ 256 - r.poll := u256_sub_zero_pos _ (by omega) hrp
        rw [hs]
  · have e := subVote_dangling s V R a v r hR hV hgone (by omega)
    refine ⟨Or.inr e, ?_, fun hx => ?_, fun hco => account_view s R V hco⟩
    · rw [e, hgone]; simp
    · rw [e] at hx; cases hx

/-- C15 (counterexample): the voter has 40 votes recorded for a receiver whose poll is 0;
`subVote(1, 2, 40)` returns normally, takes 40 off the ledger and adds 40 to the ballot, and
appends no record at all: the clamped amount is 0 and the records are guarded by it. -/
theorem subVote_poll_zero_no_record :
    (voteAdress stPollZero 1 2).1 = 40 ∧ (poll stPollZero 2).1 = 0 ∧
    (ballot stPollZero 1).1 = 60 ∧
    (subVote stPollZero 1 2 40).error = none ∧
    (voteAdress (subVote stPollZero 1 2 40).state 1 2).1 = 0 ∧
    (ballot (subVote stPollZero 1 2 40).state 1).1 = 100 ∧
    (poll (subVote stPollZero 1 2 40).state 2).1 = 0 ∧
    (subVote stPollZero 1 2 40).state.m_changeLog = stPollZero.m_changeLog ∧
    (subVote stPollZero 1 2 40).state.m_changeLog = [] := by
  decide

set_option maxRecDepth 100000

theorem subVote_clamp_witness :
    (account stPollTen 2).1 = some { Account.create 0 0 with poll := 10 } ∧
    (voteAdress stPollTen 1 2).1 = 40 ∧ (poll stPollTen 2).1 = 10 ∧
    (subVote stPollTen 1 2 40).error = none ∧
    (voteAdress (subVote stPollTen 1 2 40).state 1 2).1 = 40 - 40 ∧
    (poll (subVote stPollTen 1 2 40).state 2).1 = 0 ∧
    (subVote stCrowdedReceiver 1 2000 40).error = some Error.DanglingPointer :=
  have h := subVote_clamp stPollTen 1 2 40
    { Account.create 0 0 with ballot := 60, voteLedger := [(2, 40)] }
    { Account.create 0 0 with poll := 10 } (by decide) (by decide) (by decide) (by decide)
    (by decide)
  have hok : (subVote stPollTen 1 2 40).error = none := by decide
  ⟨by decide, by decide, by decide, hok, (h.2.2.1 hok).1, (h.2.2.1 hok).2.2.1, by decide⟩

/-- C12 (counterexample): voter 1 has ballot 1 and ledger entry `2^256 - 1` for receiver 2,
whose poll is 0, so `1 ≤ ballot` and `poll + 1` does not overflow.  `addVote(1, 2, 1)` wraps
the ledger entry to 0, and `subVote(1, 2, 1)` then raises NotEnoughVoteLog: ballot, poll and
ledger stay at 0, 1 and 0 instead of returning to 1, 0 and `2^256 - 1`. -/
theorem vote_roundtrip_ledger_overflow :
    (account stLedgerFull 1).1 ≠ none ∧ (account stLedgerFull 2).1 ≠ none ∧
    (ballot stLedgerFull 1).1 = 1 ∧ (poll stLedgerFull 2).1 = 0 ∧
    (voteAdress stLedgerFull 1 2).1 = 2 ^ 256 - 1 ∧
    (addVote stLedgerFull 1 2 1).error = none ∧
    (voteAdress (addVote stLedgerFull 1 2 1).state 1 2).1 = 0 ∧
    ((addVote stLedgerFull 1 2 1).andThen (fun t => subVote t 1 2 1)).error
      = some Error.NotEnoughVoteLog ∧
    (ballot ((addVote stLedgerFull 1 2 1).andThen (fun t => subVote t 1 2 1)).state 1).1 = 0 ∧
    (poll ((addVote stLedgerFull 1 2 1).andThen (fun t => subVote t 1 2 1)).state 2).1 = 1 ∧
    (voteAdress ((addVote stLedgerFull 1 2 1).andThen (fun t => subVote t 1 2 1)).state 1 2).1
      = 0 := by
  decide

/-- C13 (failing input): voter 1 (ballot 100) and receiver 2, `s = savepoint();
addVote(1, 2, 30); rollback(s)`.  Only the ballots are restored: the Poll record names the
voter, so `poll(1)` becomes `2^256 - 30` and `poll(2)` stays 30, and the Vote record is undone
by the same `addVote` call that made it, so `voteAdress(1, 2)` becomes 60. -/
theorem rollback_addVote_not_inverse :
    (ballot stVote 1).1 = 100 ∧ (poll stVote 1).1 = 0 ∧ (poll stVote 2).1 = 0 ∧
    (ballot stVote 2).1 = 0 ∧ (voteAdress stVote 1 2).1 = 0 ∧
    (addVote stVote 1 2 30).error = none ∧
    (ballot (rollback (fun _ => 0) (addVote stVote 1 2 30).state (savepoint stVote)) 1).1
      = 100 ∧
    (poll (rollback (fun _ => 0) (addVote stVote 1 2 30).state (savepoint stVote)) 1).1
      = 2 ^ 256 - 30 ∧
    (poll (rollback (fun _ => 0) (addVote stVote 1 2 30).state (savepoint stVote)) 2).1
      = 30 ∧
    (ballot (rollback (fun _ => 0) (addVote stVote 1 2 30).state (savepoint stVote)) 2).1
      = 0 ∧
    (voteAdress (rollback (fun _ => 0) (addVote stVote 1 2 30).state (savepoint stVote)) 1 2).1
      = 60 := by
  decide

/-- C11 (failing input): a crowded cache.  Voter 1 (ballot 100) and receiver 2000 both exist;
the entry of the voter is cached and not dirty, the receiver is in the trie only, and the
clean-entry list holds 1001 addresses.  In `addVote(1, 2000, amt)` the lookup of the receiver
runs `clearCacheIfTooLarge`, which erases the cache entry of the voter, so the pointer `a`
dangles when `a->ballot()` is read: the call with `amt = 101 > ballot(1)` does not raise
NotEnoughBallot and the call with `amt = 40 ≤ ballot(1)` does not return normally (both are
marked `DanglingPointer`).  On a cache that is not crowded the same calls raise InvalidAddress
for an absent receiver and NotEnoughBallot for `amt = 101`. -/
theorem addVote_use_after_free :
    (account stCrowded 1).1 ≠ none ∧ (account stCrowded 2000).1 ≠ none ∧
    stCrowded.coherentAt 1 ∧ stCrowded.coherentAt 2000 ∧ (ballot stCrowded 1).1 = 100 ∧
    Map.find (account stCrowded 1).2.m_cache 1 ≠ none ∧
    Map.find (account (account stCrowded 1).2 2000).2.m_cache 1 = none ∧
    (addVote stCrowded 1 2000 101).error = some Error.DanglingPointer ∧
    (addVote stCrowded 1 2000 101).error ≠ some Error.NotEnoughBallot ∧
    (addVote stCrowded 1 2000 40).error = some Error.DanglingPointer ∧
    (addVote stCrowded 1 2000 40).error ≠ none ∧
    (addVote stVote 1 3 40).error = some Error.InvalidAddressAddr ∧
    (addVote stVote 1 2 101).error = some Error.NotEnoughBallot :=
  have h1 := addVote_failure stCrowded 1 2000 101
  have h2 := addVote_failure stCrowded 1 2000 40
  have h3 := addVote_failure stVote 1 3 40
  have h4 := addVote_failure stVote 1 2 101
  have e1 := h1.2.1.mpr ⟨by decide, by decide, by decide⟩
  have e2 := h2.2.1.mpr ⟨by decide, by decide, by decide⟩
  ⟨by decide, by decide, by decide, by decide, by decide, by decide, by decide,
   e1, by rw [e1]; decide, e2, by rw [e2]; decide,
   h3.1.mpr (Or.inr (by decide)),
   h4.2.2.1.mpr ⟨by decide, by decide, by decide, by decide⟩⟩

theorem vote_roundtrip_witness :
    (ballot stVote 1).1 = 100 ∧
    (ballot (addVote stVote 1 2 40).state 1).1 = 60 ∧
    (poll (addVote stVote 1 2 40).state 2).1 = 40 ∧
    (voteAdress (addVote stVote 1 2 40).state 1 2).1 = 40 ∧
    ((addVote stVote 1 2 40).andThen (fun t => subVote t 1 2 40)).error = none ∧
    (ballot ((addVote stVote 1 2 40).andThen (fun t => subVote t 1 2 40)).state 1).1 = 100 ∧
    (poll ((addVote stVote 1 2 40).andThen (fun t => subVote t 1 2 40)).state 2).1 = 0 ∧
    (voteAdress ((addVote stVote 1 2 40).andThen (fun t => subVote t 1 2 40)).state 1 2).1
      = 0 :=
  have h := vote_roundtrip stVote 1 2 40
    { Account.create 0 0 with ballot := 100 } (Account.create 0 0) (by decide) (by decide)
    (by decide) (by decide) (by decide) (by decide)
  have hok : ((addVote stVote 1 2 40).andThen (fun t => subVote t 1 2 40)).error = none := by
    decide
  ⟨by decide, by decide, by decide, by decide, hok, (h.2.2.1 hok).1, (h.2.2.1 hok).2.1,
   (h.2.2.1 hok).2.2⟩

set_option maxRecDepth 512

/-! ## When the primitive mutators raise -/

theorem addBallot_existing (s : State) (addr amt : Nat) (a : Account)
    (h : (account s addr).1 = some a) :
    addBallot s addr amt = Outcome.ok (logIfNonZero
      ((logTouch (account s addr).2 a addr).modifyAccount addr (fun x => x.addBallot amt))
      Change.Kind.Ballot addr amt) := by
  unfold addBallot; simp [h]

theorem addPoll_existing (s : State) (addr amt : Nat) (a : Account)
    (h : (account s addr).1 = some a) :
    addPoll s addr amt = Outcome.ok (logIfNonZero
      ((account s addr).2.modifyAccount addr (fun x => x.addBalance amt))
      Change.Kind.Poll addr amt) := by
  unfold addPoll; simp [h]

theorem addFBRC_error (s : State) (addr amt : Nat) : (addFBRC s addr amt).error = none := by
  unfold addFBRC; rfl

theorem addFBalance_error (s : State) (addr amt : Nat) :
    (addFBalance s addr amt).error = none := by
  unfold addFBalance; rfl

theorem setNonce_error (s : State) (addr n : Nat) : (setNonce s addr n).error = none := by
  unfold setNonce
  cases h : (account s addr).1 <;> simp [h, Outcome.ok]

theorem addBalance_error_state (s : State) (addr amt : Nat)
    (h : (addBalance s addr amt).error ≠ none) :
    (addBalance s addr amt).state = (account s addr).2 := by
  cases h1 : (account s addr).1 with
  | some a => rw [addBalance_existing s addr amt a h1] at h; exact absurd rfl h
  | none =>
    rw [addBalance_absent s addr amt h1] at h ⊢
    cases hn : requireAccountStartNonce s with
    | none => rfl
    | some n => rw [hn] at h; exact absurd rfl h

theorem addBRC_error_state (s : State) (addr amt : Nat)
    (h : (addBRC s addr amt).error ≠ none) :
    (addBRC s addr amt).state = (account s addr).2 := by
  cases h1 : (account s addr).1 with
  | some a => rw [addBRC_existing s addr amt a h1] at h; exact absurd rfl h
  | none =>
    rw [addBRC_absent s addr amt h1] at h ⊢
    cases hn : requireAccountStartNonce s with
    | none => rfl
    | some n => rw [hn] at h; exact absurd rfl h

theorem addBallot_error_state (s : State) (addr amt : Nat)
    (h : (addBallot s addr amt).error ≠ none) :
    (addBallot s addr amt).state = (account s addr).2 := by
  cases h1 : (account s addr).1 with
  | some a => rw [addBallot_existing s addr amt a h1] at h; exact absurd rfl h
  | none => unfold addBallot; simp [h1, Outcome.throw]

theorem addPoll_error_state (s : State) (addr amt : Nat)
    (h : (addPoll s addr amt).error ≠ none) :
    (addPoll s addr amt).state = (account s addr).2 := by
  cases h1 : (account s addr).1 with
  | some a => rw [addPoll_existing s addr amt a h1] at h; exact absurd rfl h
  | none => unfold addPoll; simp [h1, Outcome.throw]

theorem incNonce_error_state (s : State) (addr : Nat)
    (h : (incNonce s addr).error ≠ none) :
    (incNonce s addr).state = (account s addr).2 := by
  unfold incNonce at h ⊢
  cases h1 : (account s addr).1 with
  | some a => simp [h1, Outcome.ok] at h
  | none =>
    simp only [h1] at h ⊢
    cases hn : requireAccountStartNonce (account s addr).2 with
    | none => rfl
    | some n => simp [hn, Outcome.ok] at h

theorem account_some_again (s : State) (addr : Address) (a : Account)
    (h : (account s addr).1 = some a) :
    (account (account s addr).2 addr).1 = some a := by
  rw [account_account, h]

theorem subBalance_error_state (s : State) (addr v : Nat)
    (h : (subBalance s addr v).error ≠ none) :
    (subBalance s addr v).state = (account s addr).2 := by
  unfold subBalance at h ⊢
  by_cases hv : v = 0
  · simp [hv, Outcome.ok] at h
  · simp only [hv, if_false] at h ⊢
    cases h1 : (account s addr).1 with
    | none => rfl
    | some a =>
      simp only [h1] at h ⊢
      by_cases hlt : a.balance < v
      · simp only [hlt, if_true]; rfl
      · simp only [hlt, if_false] at h
        rw [addBalance_existing _ addr _ a (account_some_again s addr a h1)] at h
        exact absurd rfl h

theorem subBRC_error_state (s : State) (addr v : Nat)
    (h : (subBRC s addr v).error ≠ none) :
    (subBRC s addr v).state = (account s addr).2 := by
  unfold subBRC at h ⊢
  by_cases hv : v = 0
  · simp [hv, Outcome.ok] at h
  · simp only [hv, if_false] at h ⊢
    cases h1 : (account s addr).1 with
    | none => rfl
    | some a =>
      simp only [h1] at h ⊢
      by_cases hlt : a.brc < v
      · simp only [hlt, if_true]; rfl
      · simp only [hlt, if_false] at h
        rw [addBRC_existing _ addr _ a (account_some_again s addr a h1)] at h
        exact absurd rfl h

theorem subBallot_error_state (s : State) (addr v : Nat)
    (h : (subBallot s addr v).error ≠ none) :
    (subBallot s addr v).state = (account s addr).2 := by
  unfold subBallot at h ⊢
  by_cases hv : v = 0
  · simp [hv, Outcome.ok] at h
  · simp only [hv, if_false] at h ⊢
    cases h1 : (account s addr).1 with
    | none => rfl
    | some a =>
      simp only [h1] at h ⊢
      by_cases hlt : a.ballot < v
      · simp only [hlt, if_true]; rfl
      · simp only [hlt, if_false] at h
        rw [addBallot_existing _ addr _ a (account_some_again s addr a h1)] at h
        exact absurd rfl h

theorem subPoll_error_state (s : State) (addr v : Nat)
    (h : (subPoll s addr v).error ≠ none) :
    (subPoll s addr v).state = (account s addr).2 := by
  unfold subPoll at h ⊢
  by_cases hv : v = 0
  · simp [hv, Outcome.ok] at h
  · simp only [hv, if_false] at h ⊢
    cases h1 : (account s addr).1 with
    | none => rfl
    | some a =>
      simp only [h1] at h ⊢
      by_cases hlt : a.poll < v
      · simp only [hlt, if_true]; rfl
      · simp only [hlt, if_false] at h
        rw [addPoll_existing _ addr _ a (account_some_again s addr a h1)] at h
        exact absurd rfl h

theorem subFBRC_error_state (s : State) (addr v : Nat)
    (h : (subFBRC s addr v).error ≠ none) :
    (subFBRC s addr v).state = (account s addr).2 := by
  unfold subFBRC at h ⊢
  by_cases hv : v = 0
  · simp [hv, Outcome.ok] at h
  · simp only [hv, if_false] at h ⊢
    cases h1 : (account s addr).1 with
    | none => rfl
    | some a =>
      simp only [h1] at h ⊢
      by_cases hlt : a.fbrc < v
      · simp only [hlt, if_true]; rfl
      · simp only [hlt, if_false] at h
        exact absurd (addFBRC_error _ _ _) h

theorem subFBalance_error_state (s : State) (addr v : Nat)
    (h : (subFBalance s addr v).error ≠ none) :
    (subFBalance s addr v).state = (account s addr).2 := by
  unfold subFBalance at h ⊢
  by_cases hv : v = 0
  · simp [hv, Outcome.ok] at h
  · simp only [hv, if_false] at h ⊢
    cases h1 : (account s addr).1 with
    | none => rfl
    | some a =>
      simp only [h1] at h ⊢
      by_cases hlt : a.fbalance < v
      · simp only [hlt, if_true]; rfl
      · simp only [hlt, if_false] at h
        exact absurd (addFBalance_error _ _ _) h

theorem setBalance_error_state (s : State) (addr v : Nat)
    (h : (setBalance s addr v).error ≠ none) :
    (setBalance s addr v).state = (account s addr).2 := by
  unfold setBalance at h ⊢
  rw [addBalance_error_state _ _ _ h, account_account]

theorem setBRC_error_state (s : State) (addr v : Nat)
    (h : (setBRC s addr v).error ≠ none) :
    (setBRC s addr v).state = (account s addr).2 := by
  unfold setBRC at h ⊢
  rw [addBRC_error_state _ _ _ h, account_account]


/-! ## When the two-address and the order operations raise -/

theorem addVote_error_state (s : State) (V R a : Nat)
    (h : (addVote s V R a).error ≠ none) :
    (addVote s V R a).state = (account (account s V).2 R).2 := by
  cases h1 : (account s V).1 with
  | none => rw [addVote_absent s V R a (Or.inl h1)]; rfl
  | some v =>
    cases h2 : (account (account s V).2 R).1 with
    | none => rw [addVote_absent s V R a (Or.inr h2)]; rfl
    | some r =>
      rcases account_kept s V R v h1 with hf | hf
      · by_cases hlt : v.ballot < a
        · rw [addVote_short s V R a v r h1 h2 hf hlt]; rfl
        · rw [addVote_ok s V R a v r h1 h2 hf hlt] at h; exact absurd rfl h
      · rw [addVote_dangling s V R a v r h1 h2 hf]; rfl

theorem subVote_error_state (s : State) (V R a : Nat) (e : Error)
    (h : (subVote s V R a).error = some e) (he : e ≠ Error.DanglingPointer) :
    (subVote s V R a).state = (account (account s R).2 V).2 := by
  cases h1 : (account s R).1 with
  | none => rw [subVote_absent s V R a (Or.inl h1)]; rfl
  | some r =>
    cases h2 : (account (account s R).2 V).1 with
    | none => rw [subVote_absent s V R a (Or.inr h2)]; rfl
    | some v =>
      by_cases hlt : v.vote R < a
      · rw [subVote_short s V R a v r h1 h2 hlt]; rfl
      · rcases account_kept s R V r h1 with hf | hf
        · rw [subVote_ok s V R a v r h1 h2 hf hlt] at h; cases h
        · rw [subVote_dangling s V R a v r h1 h2 hf hlt] at h
          exact absurd (Option.some.inj h).symm he

theorem subSysVoteDate_error_state (s : State) (Y M : Nat)
    (h : (subSysVoteDate s Y M).error ≠ none) :
    (subSysVoteDate s Y M).state = (account (account s Y).2 M).2 := by
  unfold subSysVoteDate at h ⊢
  cases h1 : (account s Y).1 with
  | none => simp only [h1]; rfl
  | some v =>
    cases h2 : (account (account s Y).2 M).1 with
    | none => simp only [h1, h2]; rfl
    | some r =>
      simp only [h1, h2] at h ⊢
      cases h3 : Map.find (account (account s Y).2 M).2.m_cache Y with
      | none => simp only [h3]; rfl
      | some y =>
        simp only [h3] at h
        exact absurd rfl h

theorem subFBRC_ok_exists (s : State) (addr v : Nat) (hv : v ≠ 0)
    (h : (subFBRC s addr v).error = none) :
    ∃ a, (account (subFBRC s addr v).state addr).1 = some a := by
  unfold subFBRC at h ⊢
  simp only [hv, if_false] at h ⊢
  cases h1 : (account s addr).1 with
  | none => simp [h1, Outcome.throw] at h
  | some a =>
    simp only [h1] at h ⊢
    by_cases hlt : a.fbrc < v
    · simp [hlt, Outcome.throw] at h
    · simp only [hlt, if_false]
      have h' := account_some_again s addr a h1
      have hsp := (touchModifyLog_spec (account s addr).2 addr a h'
        (fun x => x.addFBRC (u256.sub 0 v)) Change.Kind.FBRC (u256.sub 0 v)).1
      refine ⟨a.addFBRC (u256.sub 0 v), ?_⟩
      unfold addFBRC
      simp only [h', Outcome.ok]
      exact hsp

/-- The order operations raise only in their first step. -/
theorem brcPendingOrder_error_state (s : State) (A v p hsh : Nat) (t : PendingOrderEnum)
    (h : (brcPendingOrder s A v p hsh t).error ≠ none) :
    (brcPendingOrder s A v p hsh t).state = (account s A).2 := by
  cases t with
  | EBuyBrcPendingOrder =>
    simp only [brcPendingOrder] at h ⊢
    by_cases he : (subBalance s A (u256.mul v p)).error = none
    · rw [andThen_of_ok _ _ he] at h
      exact absurd (addFBalance_error _ _ _) h
    · rw [andThen_of_error _ _ he]
      exact subBalance_error_state s A _ he
  | ESellBrcPendingOrder =>
    simp only [brcPendingOrder] at h ⊢
    by_cases he : (subBRC s A v).error = none
    · rw [andThen_of_ok _ _ he] at h
      exact absurd (addFBRC_error _ _ _) h
    · rw [andThen_of_error _ _ he]
      exact subBRC_error_state s A _ he
  | EBuyFuelPendingOrder => simp [brcPendingOrder, Outcome.ok] at h
  | ESellFuelPendingOrder => simp [brcPendingOrder, Outcome.ok] at h

theorem fuelPendingOrder_error_state (s : State) (A v p hsh : Nat) (t : PendingOrderEnum)
    (h : (fuelPendingOrder s A v p hsh t).error ≠ none) :
    (fuelPendingOrder s A v p hsh t).state = (account s A).2 := by
  cases t with
  | EBuyFuelPendingOrder =>
    simp only [fuelPendingOrder] at h ⊢
    by_cases he : (subBRC s A (u256.mul v p)).error = none
    · rw [andThen_of_ok _ _ he] at h
      exact absurd (addFBRC_error _ _ _) h
    · rw [andThen_of_error _ _ he]
      exact subBRC_error_state s A _ he
  | ESellFuelPendingOrder =>
    simp only [fuelPendingOrder] at h ⊢
    by_cases he : (subBalance s A v).error = none
    · rw [andThen_of_ok _ _ he] at h
      exact absurd (addFBalance_error _ _ _) h
    · rw [andThen_of_error _ _ he]
      exact subBalance_error_state s A _ he
  | EBuyBrcPendingOrder => simp [fuelPendingOrder, Outcome.ok] at h
  | ESellBrcPendingOrder => simp [fuelPendingOrder, Outcome.ok] at h

theorem cancelPendingOrder_error_state (s : State) (A v : Nat) (t : PendingOrderEnum) (hsh : Nat)
    (h : (cancelPendingOrder s A v t hsh).error ≠ none) :
    (cancelPendingOrder s A v t hsh).state = (account s A).2 := by
  unfold cancelPendingOrder at h ⊢
  by_cases he : (subFBRC s A v).error = none
  · rw [andThen_of_ok _ _ he] at h ⊢
    by_cases hv : v = 0
    · subst hv
      have e0 : subFBRC s A 0 = Outcome.ok s := by unfold subFBRC; simp
      rw [e0] at h ⊢
      exact addBRC_error_state s A 0 h
    · obtain ⟨a, ha⟩ := subFBRC_ok_exists s A v hv he
      rw [addBRC_existing _ A v a ha] at h
      exact absurd rfl h
  · rw [andThen_of_error _ _ he]
    exact subFBRC_error_state s A _ he

/-- C16 (amended): for every state, a call of a primitive add / sub / set operation, of a
nonce operation, of `addVote`, `subVote`, `subSysVoteDate`, `brcPendingOrder`,
`fuelPendingOrder` or `cancelPendingOrder` that raises a domain error leaves the state its
lookups leave: the change log and the trie are as they were, no field of any account was
written (a cache entry is what it was, or, not being dirty, it was dropped by the eviction or
loaded from the trie), and a lookup of any address whose cache entry was coherent returns what
it returned before the call, so the same accounts exist and each has the same fields. -/
theorem fail_fast (s : State) (c : Call) (e : Error) (h : (c.run s).error = some e)
    (he : e ≠ Error.DanglingPointer) :
    (c.run s).state.m_changeLog = s.m_changeLog ∧
    (c.run s).state.m_state = s.m_state ∧
    (∀ b, unwritten s (c.run s).state b) ∧
    ∀ b, s.coherentAt b → (account (c.run s).state b).1 = (account s b).1 := by
  have hne : (c.run s).error ≠ none := by rw [h]; simp
  suffices hu : Untouched s (c.run s).state from ⟨hu.changeLog, hu.trie, hu.cache, hu.view⟩
  cases c with
  | addBalance a v =>
    simp only [Call.run] at hne ⊢
    rw [addBalance_error_state s a v hne]
    exact account_Untouched s a
  | subBalance a v =>
    simp only [Call.run] at hne ⊢
    rw [subBalance_error_state s a v hne]
    exact account_Untouched s a
  | setBalance a v =>
    simp only [Call.run] at hne ⊢
    rw [setBalance_error_state s a v hne]
    exact account_Untouched s a
  | addBRC a v =>
    simp only [Call.run] at hne ⊢
    rw [addBRC_error_state s a v hne]
    exact account_Untouched s a
  | subBRC a v =>
    simp only [Call.run] at hne ⊢
    rw [subBRC_error_state s a v hne]
    exact account_Untouched s a
  | setBRC a v =>
    simp only [Call.run] at hne ⊢
    rw [setBRC_error_state s a v hne]
    exact account_Untouched s a
  | subFBRC a v =>
    simp only [Call.run] at hne ⊢
    rw [subFBRC_error_state s a v hne]
    exact account_Untouched s a
  | subFBalance a v =>
    simp only [Call.run] at hne ⊢
    rw [subFBalance_error_state s a v hne]
    exact account_Untouched s a
  | addBallot a v =>
    simp only [Call.run] at hne ⊢
    rw [addBallot_error_state s a v hne]
    exact account_Untouched s a
  | subBallot a v =>
    simp only [Call.run] at hne ⊢
    rw [subBallot_error_state s a v hne]
    exact account_Untouched s a
  | addPoll a v =>
    simp only [Call.run] at hne ⊢
    rw [addPoll_error_state s a v hne]
    exact account_Untouched s a
  | subPoll a v =>
    simp only [Call.run] at hne ⊢
    rw [subPoll_error_state s a v hne]
    exact account_Untouched s a
  | incNonce a =>
    simp only [Call.run] at hne ⊢
    rw [incNonce_error_state s a hne]
    exact account_Untouched s a
  | addFBRC a v => exact absurd (addFBRC_error s a v) hne
  | addFBalance a v => exact absurd (addFBalance_error s a v) hne
  | setNonce a n => exact absurd (setNonce_error s a n) hne
  | addVote v r x =>
    simp only [Call.run] at hne ⊢
    rw [addVote_error_state s v r x hne]
    exact account2_Untouched s v r
  | subVote v r x =>
    simp only [Call.run] at h ⊢
    rw [subVote_error_state s v r x e h he]
    exact account2_Untouched s r v
  | subSysVoteDate y m =>
    simp only [Call.run] at hne ⊢
    rw [subSysVoteDate_error_state s y m hne]
    exact account2_Untouched s y m
  | brcPendingOrder a v p hs t =>
    simp only [Call.run] at hne ⊢
    rw [brcPendingOrder_error_state s a v p hs t hne]
    exact account_Untouched s a
  | fuelPendingOrder a v p hs t =>
    simp only [Call.run] at hne ⊢
    rw [fuelPendingOrder_error_state s a v p hs t hne]
    exact account_Untouched s a
  | cancelPendingOrder a v t hs =>
    simp only [Call.run] at hne ⊢
    rw [cancelPendingOrder_error_state s a v t hs hne]
    exact account_Untouched s a


/-- C16 (counterexample): the composite mutators raise after a partial mutation. With any
ballot price, `transferBallotBuy(1, 2, 0)` on the empty state creates account 2 and logs the
creation before `addBallot` raises `InvalidAddress` for the absent account 1; with price 3,
`transferBallotSell(1, 2, 2)` has already taken 2 ballots from account 1 and credited it 6 BRC
when `subBRC` raises `NotEnoughCash` on account 2; `addSysVoteDate(1, 2)` on the empty state
creates the system account 1 before it raises `InvalidAddressAddr` for the absent member 2. -/
theorem composite_partial_mutation :
    (∀ P, (transferBallotBuy P stEmpty 1 2 0).error = some Error.InvalidAddress ∧
      (account stEmpty 2).1 = none ∧
      (account (transferBallotBuy P stEmpty 1 2 0).state 2).1 ≠ none ∧
      stEmpty.m_changeLog = [] ∧
      (transferBallotBuy P stEmpty 1 2 0).state.m_changeLog
        = [{ kind := Change.Kind.Create, address := 2 }]) ∧
    ((transferBallotSell 3 stVote 1 2 2).error = some Error.NotEnoughCash ∧
      (ballot stVote 1).1 = 100 ∧ (BRC stVote 1).1 = 0 ∧
      (ballot (transferBallotSell 3 stVote 1 2 2).state 1).1 = 98 ∧
      (BRC (transferBallotSell 3 stVote 1 2 2).state 1).1 = 6) ∧
    ((addSysVoteDate stEmpty 1 2).error = some Error.InvalidAddressAddr ∧
      (account stEmpty 1).1 = none ∧
      (account (addSysVoteDate stEmpty 1 2).state 1).1 ≠ none) := by
  refine ⟨fun P => ?_, by decide, by decide⟩
  have h0 : u256.mul 0 P = 0 := by simp [u256.mul]
  unfold transferBallotBuy
  rw [h0]
  decide

theorem fail_fast_witness :
    ((Call.subBalance 1 11).run stTen).error = some Error.NotEnoughCash ∧
    Error.NotEnoughCash ≠ Error.DanglingPointer ∧
    ((Call.subBalance 1 11).run stTen).state.m_changeLog = stTen.m_changeLog ∧
    ((Call.subBalance 1 11).run stTen).state.m_state = stTen.m_state ∧
    (∀ b, unwritten stTen ((Call.subBalance 1 11).run stTen).state b) ∧
    ∀ b, stTen.coherentAt b →
      (account ((Call.subBalance 1 11).run stTen).state b).1 = (account stTen b).1 :=
  ⟨by decide, by decide,
   fail_fast stTen (Call.subBalance 1 11) Error.NotEnoughCash (by decide) (by decide)⟩

/-! ## Updates of one account -/

/-- A dirty cache entry is coherent: the eviction never drops it. -/
theorem coherentAt_of_dirty (s : State) (A : Address) (x : Account)
    (h : Map.find s.m_cache A = some x) (hd : x.dirty = true) : s.coherentAt A := by
  unfold State.coherentAt
  rw [h]
  intro h2
  rw [hd] at h2
  cases h2

/-- An address whose entry is not cached is coherent. -/
theorem coherentAt_of_none (s : State) (A : Address) (h : Map.find s.m_cache A = none) :
    s.coherentAt A := by
  unfold State.coherentAt
  rw [h]
  trivial

/-- After the shared shape of the add operations the entry of the address is cached. -/
theorem touchModifyLog_cached (s : State) (A : Address) (a : Account)
    (h : (account s A).1 = some a) (f : Account → Account) (k : Change.Kind) (v : Nat) :
    Map.find (logIfNonZero ((logTouch (account s A).2 a A).modifyAccount A f) k A v).m_cache A
      = some (f a) := by
  have hfind := account_find s A
  rw [h] at hfind
  simp [State.modifyAccount, Map.find_modify, hfind]

/-- After the creating branch of the add operations the new entry is cached. -/
theorem createLog_cached (s : State) (A : Address) (acc : Account) (k : Change.Kind) (v : Nat) :
    Map.find (logIfNonZero (createAccount (account s A).2 A acc) k A v).m_cache A = some acc := by
  simp [createAccount, Map.find_assign]

/-- The shared shape of the add operations on an existing account, as an update. -/
theorem touchModifyLog_updates (s : State) (A : Address) (a : Account)
    (h : (account s A).1 = some a) (f : Account → Account) (k : Change.Kind) (v : Nat) :
    Updates s (logIfNonZero ((logTouch (account s A).2 a A).modifyAccount A f) k A v) A (f a) :=
  ⟨(touchModifyLog_spec s A a h f k v).1,
   frame_logIfNonZero k A v (frame_modify A f (List.mem_singleton_self A)
     (frame_logTouch a A (frame_account A (List.mem_singleton_self A) (Frame.rfl s [A]))))⟩

theorem Updates.next {s t u : State} {A : Address} {x y : Account}
    (h1 : Updates s t A x) (h2 : Updates t u A y) : Updates s u A y :=
  ⟨h2.self, h1.frame.chain h2.frame⟩

theorem Updates.unchanged (s : State) (A : Address) (a : Account)
    (h : (account s A).1 = some a) : Updates s s A a :=
  ⟨h, Frame.rfl s [A]⟩

/-- A lookup of `A` first does not change what an update of `A` is measured against. -/
theorem Updates.of_lookup {s t : State} {A : Address} {x : Account}
    (h : Updates (account s A).2 t A x) : Updates s t A x :=
  ⟨h.self, (account_Frame s A).chain h.frame⟩

/-! ## The add and sub operations as updates of one account -/

theorem addBRC_updates (s : State) (A v : Nat) (a : Account)
    (h : (account s A).1 = some a) :
    (addBRC s A v).error = none ∧ Updates s (addBRC s A v).state A (a.addBRC v) ∧
    (addBRC s A v).state.coherentAt A := by
  rw [addBRC_existing s A v a h]
  exact ⟨rfl, touchModifyLog_updates s A a h _ _ _,
    coherentAt_of_dirty _ A _ (touchModifyLog_cached s A a h _ _ _) rfl⟩

theorem addBallot_updates (s : State) (A v : Nat) (a : Account)
    (h : (account s A).1 = some a) :
    (addBallot s A v).error = none ∧ Updates s (addBallot s A v).state A (a.addBallot v) ∧
    (addBallot s A v).state.coherentAt A := by
  rw [addBallot_existing s A v a h]
  exact ⟨rfl, touchModifyLog_updates s A a h _ _ _,
    coherentAt_of_dirty _ A _ (touchModifyLog_cached s A a h _ _ _) rfl⟩

/-- A covered `subBRC` on an existing account with a `u256` BRC balance is an update that
lowers the BRC balance and keeps the other numeric fields; unless the amount is zero the entry
is dirty afterwards. -/
theorem subBRC_updates (s : State) (A v : Nat) (a : Account)
    (h : (account s A).1 = some a) (hb : a.brc < 2 ^ 256) (hv : v ≤ a.brc) :
    (subBRC s A v).error = none ∧
    ∃ x, Updates s (subBRC s A v).state A x ∧ x.brc = a.brc - v ∧
      x.fbrc = a.fbrc ∧ x.balance = a.balance ∧ x.fbalance = a.fbalance ∧
      x.ballot = a.ballot ∧ x.poll = a.poll ∧
      (v ≠ 0 → (subBRC s A v).state.coherentAt A) ∧ (v = 0 → (subBRC s A v).state = s) := by
  unfold subBRC
  by_cases h0 : v = 0
  · subst h0
    simp only [if_true]
    exact ⟨rfl, a, Updates.unchanged s A a h, rfl, rfl, rfl, rfl, rfl, rfl,
      fun hne => absurd rfl hne, fun _ => rfl⟩
  · simp only [h0, if_false, h, Nat.not_lt.mpr hv]
    have h' := account_some_again s A a h
    obtain ⟨he, hu, hco⟩ := addBRC_updates _ A (u256.sub 0 v) a h'
    refine ⟨he, _, Updates.of_lookup hu, ?_, rfl, rfl, rfl, rfl, rfl, fun _ => hco,
      fun e => e.elim⟩
    show u256.add a.brc (u256.sub 0 v) = a.brc - v
    unfold u256.add u256.sub
    omega

/-! ## Order placement -/

theorem FBRC_of_account (s : State) (addr : Address) (a : Account)
    (h : (account s addr).1 = some a) : (FBRC s addr).1 = a.fbrc := by
  simp only [FBRC, h]

theorem FBalance_of_account (s : State) (addr : Address) (a : Account)
    (h : (account s addr).1 = some a) : (FBalance s addr).1 = a.fbalance := by
  simp only [FBalance, h]

theorem ballot_of_account (s : State) (addr : Address) (a : Account)
    (h : (account s addr).1 = some a) : (ballot s addr).1 = a.ballot := by
  simp only [ballot, h]

theorem poll_of_account (s : State) (addr : Address) (a : Account)
    (h : (account s addr).1 = some a) : (poll s addr).1 = a.poll := by
  simp only [poll, h]

/-- The reads of a field in terms of the lookup. -/
theorem reads_of_lookup (s : State) (A : Address) :
    (balance s A).1 = (((account s A).1).map Account.balance).getD 0 ∧
    (BRC s A).1 = (((account s A).1).map Account.brc).getD 0 ∧
    (FBRC s A).1 = (((account s A).1).map Account.fbrc).getD 0 ∧
    (FBalance s A).1 = (((account s A).1).map Account.fbalance).getD 0 ∧
    (ballot s A).1 = (((account s A).1).map Account.ballot).getD 0 ∧
    (poll s A).1 = (((account s A).1).map Account.poll).getD 0 := by
  simp only [balance, BRC, FBRC, FBalance, ballot, poll]
  cases (account s A).1 <;> simp

/-- The creating branch of `addBRC` as an update. -/
theorem addBRC_creates (s : State) (T v : Nat) (h : (account s T).1 = none)
    (hn : s.m_accountStartNonce < Invalid256) :
    (addBRC s T v).error = none ∧
    Updates s (addBRC s T v).state T (Account.createBRC s.m_accountStartNonce 0 v) ∧
    (addBRC s T v).state.coherentAt T := by
  have hreq : requireAccountStartNonce s = some s.m_accountStartNonce := by
    unfold requireAccountStartNonce
    rw [if_neg (Nat.ne_of_lt hn)]
  rw [addBRC_absent s T v h, hreq]
  have hsp := createLog_spec s T h (Account.createBRC s.m_accountStartNonce 0 v)
    Change.Kind.BRC v
  exact ⟨rfl, ⟨hsp.1, frame_logIfNonZero _ _ _ (frame_create T _ (List.mem_singleton_self T)
    (frame_account T (List.mem_singleton_self T) (Frame.rfl s [T])))⟩,
    coherentAt_of_dirty _ T _ (createLog_cached s T _ _ _) rfl⟩

/-- A credit of BRC to an account that exists or can be created; the entry is dirty
afterwards. -/
theorem addBRC_credit (s : State) (T v : Nat) (hv : v < 2 ^ 256)
    (hT : (account s T).1 ≠ none ∨ s.m_accountStartNonce < Invalid256) :
    (addBRC s T v).error = none ∧
    ∃ x, Updates s (addBRC s T v).state T x ∧
      x.brc = ((BRC s T).1 + v) % 2 ^ 256 ∧ x.balance = (balance s T).1 ∧
      x.fbrc = (FBRC s T).1 ∧ x.fbalance = (FBalance s T).1 ∧
      x.ballot = (ballot s T).1 ∧ x.poll = (poll s T).1 ∧
      (addBRC s T v).state.coherentAt T := by
  obtain ⟨r1, r2, r3, r4, r5, r6⟩ := reads_of_lookup s T
  rw [r1, r2, r3, r4, r5, r6]
  cases h : (account s T).1 with
  | some t =>
    obtain ⟨he, hu, hco⟩ := addBRC_updates s T v t h
    exact ⟨he, _, hu, rfl, rfl, rfl, rfl, rfl, rfl, hco⟩
  | none =>
    have hn : s.m_accountStartNonce < Invalid256 := by
      rcases hT with hT | hT
      · exact absurd h hT
      · exact hT
    obtain ⟨he, hu, hco⟩ := addBRC_creates s T v h hn
    refine ⟨he, _, hu, ?_, rfl, rfl, rfl, rfl, rfl, hco⟩
    show v = _
    simp only [Option.map_none', Option.getD_none]
    omega

theorem u256_mul_lt (a b : Nat) : u256.mul a b < 2 ^ 256 := by
  unfold u256.mul; omega

/-- Reads of an address agree in two states whose lookups of it agree. -/
theorem reads_congr (s t : State) (A : Address) (h : (account t A).1 = (account s A).1) :
    (balance t A).1 = (balance s A).1 ∧ (BRC t A).1 = (BRC s A).1 ∧
    (FBRC t A).1 = (FBRC s A).1 ∧ (FBalance t A).1 = (FBalance s A).1 ∧
    (ballot t A).1 = (ballot s A).1 ∧ (poll t A).1 = (poll s A).1 := by
  obtain ⟨a1, a2, a3, a4, a5, a6⟩ := reads_of_lookup s A
  obtain ⟨b1, b2, b3, b4, b5, b6⟩ := reads_of_lookup t A
  rw [a1, a2, a3, a4, a5, a6, b1, b2, b3, b4, b5, b6, h]
  exact ⟨rfl, rfl, rfl, rfl, rfl, rfl⟩

/-- The first two steps of `transferBallotBuy`, for any amount `x` of BRC: the debit of `F`
and the credit to `T`, and what a lookup of `F` returns after them. -/
theorem debit_credit (s : State) (F T x : Nat) (f : Account)
    (hF : (account s F).1 = some f) (hb : f.brc < 2 ^ 256) (hne : F ≠ T) (hx : x ≤ f.brc)
    (hT : (account (subBRC s F x).state T).1 ≠ none ∨ s.m_accountStartNonce < Invalid256)
    (hF0 : x = 0 → (account (addBRC s T 0).state F).1 = some f) :
    (subBRC s F x).error = none ∧
    (addBRC (subBRC s F x).state T x).error = none ∧
    ∃ y z, (account (addBRC (subBRC s F x).state T x).state F).1 = some y ∧
      y.brc = f.brc - x ∧ y.fbrc = f.fbrc ∧ y.balance = f.balance ∧
      y.fbalance = f.fbalance ∧ y.ballot = f.ballot ∧ y.poll = f.poll ∧
      (account (addBRC (subBRC s F x).state T x).state T).1 = some z ∧
      (addBRC (subBRC s F x).state T x).state.coherentAt T ∧
      z.brc = ((BRC (subBRC s F x).state T).1 + x) % 2 ^ 256 ∧
      z.balance = (balance (subBRC s F x).state T).1 ∧
      z.fbrc = (FBRC (subBRC s F x).state T).1 ∧
      z.fbalance = (FBalance (subBRC s F x).state T).1 ∧
      z.poll = (poll (subBRC s F x).state T).1 := by
  obtain ⟨he1, y, hu1, y1, y2, y3, y4, y5, y6, hco1, hs0⟩ := subBRC_updates s F x f hF hb hx
  have hT1 : (account (subBRC s F x).state T).1 ≠ none ∨
      (subBRC s F x).state.m_accountStartNonce < Invalid256 := by
    rw [hu1.frame.startNonce]; exact hT
  have hxlt : x < 2 ^ 256 := Nat.lt_of_le_of_lt hx hb
  obtain ⟨he2, z, hu2, z1, z2, z3, z4, _, z6, hco2⟩ := addBRC_credit _ T x hxlt hT1
  refine ⟨he1, he2, y, z, ?_, y1, y2, y3, y4, y5, y6, hu2.self, hco2, z1, z2, z3, z4, z6⟩
  by_cases h0 : x = 0
  · subst h0
    have es := hs0 (Eq.refl 0)
    have hy : y = f := by
      have h1 := hu1.self
      rw [es, hF] at h1
      exact (Option.some.inj h1).symm
    rw [es, hy]
    exact hF0 (Eq.refl 0)
  · exact (hu2.frame.view F (not_mem_singleton_of_ne hne) (hco1 h0)).trans hu1.self

/-- The first two steps of `transferBallotBuy` when the credit cannot create the receiver: the
debit of `F` is done, `addBRC` raises, and the BRC balance of `F` stays reduced. -/
theorem debit_no_credit (s : State) (F T x : Nat) (f : Account)
    (hF : (account s F).1 = some f) (hb : f.brc < 2 ^ 256) (hne : F ≠ T) (hx : x ≤ f.brc)
    (hT : (account (subBRC s F x).state T).1 = none)
    (hn : s.m_accountStartNonce = Invalid256) :
    (subBRC s F x).error = none ∧
    (addBRC (subBRC s F x).state T x).error = some Error.InvalidAccountStartNonceInState ∧
    (BRC (addBRC (subBRC s F x).state T x).state F).1 = f.brc - x := by
  obtain ⟨he1, y, hu1, y1, _⟩ := subBRC_updates s F x f hF hb hx
  have hreq : requireAccountStartNonce (subBRC s F x).state = none := by
    rw [requireAccountStartNonce_eq_none, hu1.frame.startNonce]
    exact hn
  rw [addBRC_absent _ T x hT, hreq]
  refine ⟨he1, rfl, ?_⟩
  have hview : (account (account (subBRC s F x).state T).2 F).1
      = (account (subBRC s F x).state F).1 := by
    rw [account_none_state _ T hT]
    apply account_fst_eq
    · rfl
    · simp [AddressSet.mem_insert, hne]
    · rfl
  show (BRC (account (subBRC s F x).state T).2 F).1 = f.brc - x
  rw [BRC_of_account _ _ y (hview.trans hu1.self)]
  exact y1

/-- C18 (amended): `transferBallotBuy(from, to, amt)` in any state where a lookup of `from`
returns the account `f` with a `u256` BRC balance, `from ≠ to` and
`BRC(from) ≥ amt * BALLOT_PRICE` (the `u256` product).  If `to`, as the call finds it after
the debit of `from`, exists or the start nonce is set (a `u256` other than the sentinel), and,
when the product is zero (the debit then does not look `from` up), the lookup of `from` after
the credit to `to` returns `f` as well, then the call returns normally; BRC(from) drops by the
product, ballot(from) grows by `amt` mod 2^256, balance, FBRC, FBalance and poll of `from` are
unchanged; `to` exists afterwards, and relative to what the call read for `to` its BRC grows
by the product mod 2^256 and its balance, FBRC, FBalance and poll are unchanged.  If the call
finds no account for `to` and the start nonce is the sentinel, the call raises
InvalidAccountStartNonceInState after the BRC of `from` has been reduced by the product.  The
lookups inside the call return what a lookup in the state before the call returns whenever
the cache entry of the address was coherent.  Nothing is written outside `from` and `to`, and
a lookup of any third address whose cache entry was coherent returns what it returned
before. -/
theorem transferBallotBuy_spec (P : Nat) (s : State) (F T amt : Nat) (f : Account)
    (hF : (account s F).1 = some f) (hb : f.brc < 2 ^ 256) (hne : F ≠ T)
    (hx : u256.mul amt P ≤ f.brc) :
    (((account (subBRC s F (u256.mul amt P)).state T).1 ≠ none ∨
        s.m_accountStartNonce < Invalid256) →
      (u256.mul amt P = 0 → (account (addBRC s T 0).state F).1 = some f) →
      (transferBallotBuy P s F T amt).error = none ∧
      (BRC (transferBallotBuy P s F T amt).state F).1 = f.brc - u256.mul amt P ∧
      (ballot (transferBallotBuy P s F T amt).state F).1 = (f.ballot + amt) % 2 ^ 256 ∧
      (balance (transferBallotBuy P s F T amt).state F).1 = f.balance ∧
      (FBRC (transferBallotBuy P s F T amt).state F).1 = f.fbrc ∧
      (FBalance (transferBallotBuy P s F T amt).state F).1 = f.fbalance ∧
      (poll (transferBallotBuy P s F T amt).state F).1 = f.poll ∧
      (account (transferBallotBuy P s F T amt).state T).1 ≠ none ∧
      (BRC (transferBallotBuy P s F T amt).state T).1
        = ((BRC (subBRC s F (u256.mul amt P)).state T).1 + u256.mul amt P) % 2 ^ 256 ∧
      (balance (transferBallotBuy P s F T amt).state T).1
        = (balance (subBRC s F (u256.mul amt P)).state T).1 ∧
      (FBRC (transferBallotBuy P s F T amt).state T).1
        = (FBRC (subBRC s F (u256.mul amt P)).state T).1 ∧
      (FBalance (transferBallotBuy P s F T amt).state T).1
        = (FBalance (subBRC s F (u256.mul amt P)).state T).1 ∧
      (poll (transferBallotBuy P s F T amt).state T).1
        = (poll (subBRC s F (u256.mul amt P)).state T).1) ∧
    ((account (subBRC s F (u256.mul amt P)).state T).1 = none →
      s.m_accountStartNonce = Invalid256 →
      (transferBallotBuy P s F T amt).error = some Error.InvalidAccountStartNonceInState ∧
      (BRC (transferBallotBuy P s F T amt).state F).1 = f.brc - u256.mul amt P) ∧
    (s.coherentAt T →
      (account (subBRC s F (u256.mul amt P)).state T).1 = (account s T).1) ∧
    (s.coherentAt F → (account (addBRC s T 0).state F).1 = (account s F).1) ∧
    Frame s (transferBallotBuy P s F T amt).state [F, T] ∧
    ∀ b, b ≠ F → b ≠ T → s.coherentAt b →
      (account (transferBallotBuy P s F T amt).state b).1 = (account s b).1 := by
  have hTF : T ≠ F := fun e => hne e.symm
  have hfr : Frame s (transferBallotBuy P s F T amt).state [F, T] :=
    frame_transferBallotBuy P F T amt (List.mem_cons_self F [T])
      (List.mem_cons_of_mem F (List.mem_singleton_self T)) (Frame.rfl s [F, T])
  refine ⟨fun hT hF0 => ?_, fun hT hn => ?_, fun hco => ?_, fun hco => ?_, hfr,
    fun b hbF hbT hco => ?_⟩
  · obtain ⟨he1, he2, y, z, hF2, y1, y2, y3, y4, y5, y6, hT2, hco2, z1, z2, z3, z4, z6⟩ :=
      debit_credit s F T (u256.mul amt P) f hF hb hne hx hT hF0
    obtain ⟨he3, hu3, _⟩ := addBallot_updates _ F amt y hF2
    have hT3 := (hu3.frame.view T (not_mem_singleton_of_ne hTF) hco2).trans hT2
    have e : transferBallotBuy P s F T amt =
        addBallot (addBRC (subBRC s F (u256.mul amt P)).state T (u256.mul amt P)).state F
          amt := by
      unfold transferBallotBuy
      rw [andThen_of_ok _ _ he1, andThen_of_ok _ _ he2]
    rw [e]
    refine ⟨he3, ?_, ?_, ?_, ?_, ?_, ?_, ?_, ?_, ?_, ?_, ?_, ?_⟩
    · rw [BRC_of_account _ _ _ hu3.self]; exact y1
    · rw [ballot_of_account _ _ _ hu3.self]
      show u256.add y.ballot amt = _
      rw [y5]; rfl
    · rw [balance_of_account _ _ _ hu3.self]; exact y3
    · rw [FBRC_of_account _ _ _ hu3.self]; exact y2
    · rw [FBalance_of_account _ _ _ hu3.self]; exact y4
    · rw [poll_of_account _ _ _ hu3.self]; exact y6
    · rw [hT3]; exact Option.some_ne_none z
    · rw [BRC_of_account _ _ _ hT3]; exact z1
    · rw [balance_of_account _ _ _ hT3]; exact z2
    · rw [FBRC_of_account _ _ _ hT3]; exact z3
    · rw [FBalance_of_account _ _ _ hT3]; exact z4
    · rw [poll_of_account _ _ _ hT3]; exact z6
  · obtain ⟨he1, he2, hbrc⟩ := debit_no_credit s F T (u256.mul amt P) f hF hb hne hx hT hn
    have e : transferBallotBuy P s F T amt
        = addBRC (subBRC s F (u256.mul amt P)).state T (u256.mul amt P) := by
      unfold transferBallotBuy
      rw [andThen_of_ok _ _ he1, andThen_of_error _ _ (by rw [he2]; exact Option.some_ne_none _)]
    rw [e]
    exact ⟨he2, hbrc⟩
  · exact (frame_subBRC F _ (List.mem_singleton_self F) (Frame.rfl s [F])).view T
      (not_mem_singleton_of_ne hTF) hco
  · exact (frame_addBRC T 0 (List.mem_singleton_self T) (Frame.rfl s [T])).view F
      (not_mem_singleton_of_ne hne) hco
  · refine hfr.view b (fun hm => ?_) hco
    rcases List.mem_cons.mp hm with h1 | h1
    · exact hbF h1
    · exact hbT (List.mem_singleton.mp h1)

/-- C18 (counterexample): account 1 exists with BRC 100 and the start nonce is unset; for any
ballot price, `transferBallotBuy(1, 2, 0)` raises `InvalidAccountStartNonceInState` because
`addBRC` cannot create the absent account 2, and so does `transferBallotBuy(1, 2, 5)` with
price 3, after `subBRC` has already taken 15 BRC from account 1. -/
theorem transferBallotBuy_unset_nonce :
    (BRC stUnsetBRC 1).1 = 100 ∧
    (∀ P, (transferBallotBuy P stUnsetBRC 1 2 0).error
      = some Error.InvalidAccountStartNonceInState) ∧
    (transferBallotBuy 3 stUnsetBRC 1 2 5).error = some Error.InvalidAccountStartNonceInState ∧
    (BRC (transferBallotBuy 3 stUnsetBRC 1 2 5).state 1).1 = 85 := by
  refine ⟨by decide, fun P => ?_, by decide, by decide⟩
  have h0 : u256.mul 0 P = 0 := by simp [u256.mul]
  unfold transferBallotBuy
  rw [h0]
  decide

theorem transferBallotBuy_spec_witness :
    (account stSell 2).1 = some { Account.create 0 0 with brc := 100 } ∧
    (2 : Nat) ≠ 3 ∧ u256.mul 2 3 ≤ 100 ∧ stSell.m_accountStartNonce < Invalid256 ∧
    (transferBallotBuy 3 stSell 2 3 2).error = none ∧
    (BRC (transferBallotBuy 3 stSell 2 3 2).state 2).1 = 94 ∧
    (ballot (transferBallotBuy 3 stSell 2 3 2).state 2).1 = 2 ∧
    (BRC (transferBallotBuy 3 stSell 2 3 2).state 3).1 = 6 :=
  have hw := (transferBallotBuy_spec 3 stSell 2 3 2
    { Account.create 0 0 with brc := 100 } (by decide) (by decide) (by decide) (by decide)).1
    (Or.inr (by decide)) (fun h => absurd h (by decide))
  ⟨by decide, by decide, by decide, by decide, hw.1, hw.2.1.trans (by decide),
   hw.2.2.1.trans (by decide), hw.2.2.2.2.2.2.2.2.1.trans (by decide)⟩

/-! ## Selling ballots and cancelling orders -/

/-- A covered `subBallot` on an existing account with a `u256` ballot count is an update that
lowers the ballots and keeps the other numeric fields. -/
theorem subBallot_updates (s : State) (A v : Nat) (a : Account)
    (h : (account s A).1 = some a) (hb : a.ballot < 2 ^ 256) (hv : v ≤ a.ballot) :
    (subBallot s A v).error = none ∧
    ∃ x, Updates s (subBallot s A v).state A x ∧ x.ballot = a.ballot - v ∧
      x.brc = a.brc ∧ x.fbrc = a.fbrc ∧ x.balance = a.balance ∧ x.fbalance = a.fbalance ∧
      x.poll = a.poll := by
  unfold subBallot
  by_cases h0 : v = 0
  · subst h0
    simp only [if_true]
    exact ⟨rfl, a, Updates.unchanged s A a h, rfl, rfl, rfl, rfl, rfl, rfl⟩
  · simp only [h0, if_false, h, Nat.not_lt.mpr hv]
    have h' := account_some_again s A a h
    obtain ⟨he, hu, _⟩ := addBallot_updates _ A (u256.sub 0 v) a h'
    refine ⟨he, _, Updates.of_lookup hu, ?_, rfl, rfl, rfl, rfl, rfl⟩
    show u256.add a.ballot (u256.sub 0 v) = a.ballot - v
    unfold u256.add u256.sub
    omega

/-- What `transferBallotSell` does when its three steps are covered and the cache entry of the
buyer is coherent: the buyer `to` pays the price of one ballot, whatever the amount. -/
theorem transferBallotSell_effect (P : Nat) (s : State) (F T amt : Nat)
    (f t : Account) (hF : (account s F).1 = some f) (hT : (account s T).1 = some t)
    (hfb : f.ballot < 2 ^ 256) (htb : t.brc < 2 ^ 256) (hco : s.coherentAt T)
    (hne : F ≠ T) (hb : amt ≤ f.ballot) (hP : P ≤ t.brc) :
    (transferBallotSell P s F T amt).error = none ∧
    (ballot (transferBallotSell P s F T amt).state F).1 = f.ballot - amt ∧
    (BRC (transferBallotSell P s F T amt).state F).1 = (f.brc + u256.mul amt P) % 2 ^ 256 ∧
    (BRC (transferBallotSell P s F T amt).state T).1 = t.brc - P := by
  obtain ⟨he1, y, hu1, y1, y2, _⟩ := subBallot_updates s F amt f hF hfb hb
  have hTF : T ≠ F := fun e => hne e.symm
  obtain ⟨he2, hu2, hco2⟩ := addBRC_updates _ F (u256.mul amt P) y hu1.self
  have hT2 := ((hu1.next hu2).frame.view T (not_mem_singleton_of_ne hTF) hco).trans hT
  obtain ⟨he3, z, hu3, z1, _⟩ := subBRC_updates _ T P t hT2 htb hP
  have hF3 := (hu3.frame.view F (not_mem_singleton_of_ne hne) hco2).trans hu2.self
  have e : transferBallotSell P s F T amt =
      subBRC (addBRC (subBallot s F amt).state F (u256.mul amt P)).state T P := by
    unfold transferBallotSell
    rw [andThen_of_ok _ _ he1, andThen_of_ok _ _ he2]
  rw [e]
  refine ⟨he3, ?_, ?_, ?_⟩
  · rw [ballot_of_account _ _ _ hF3]; exact y1
  · rw [BRC_of_account _ _ _ hF3]
    show u256.add y.brc _ = _
    rw [y2]; rfl
  · rw [BRC_of_account _ _ _ hu3.self]; exact z1

/-- C17 (failing input): account 1 holds 10 ballots and no BRC, account 2 holds 100 BRC, and
the ballot price is any `P ≤ 50`.  `transferBallotSell(1, 2, 2)` returns normally, takes 2
ballots from account 1 and credits it `2 * P` BRC, but charges account 2 only `P`: BRC(2) is
`100 - P`, not `100 - 2 * P`, and for `P ≠ 0` the sum BRC(1) + BRC(2) is no longer 100. -/
theorem transferBallotSell_price_once (P : Nat) (hP : P ≤ 50) :
    (BRC stSell 1).1 + (BRC stSell 2).1 = 100 ∧
    (transferBallotSell P stSell 1 2 2).error = none ∧
    (ballot (transferBallotSell P stSell 1 2 2).state 1).1 = 8 ∧
    (BRC (transferBallotSell P stSell 1 2 2).state 1).1 = 2 * P ∧
    (BRC (transferBallotSell P stSell 1 2 2).state 2).1 = 100 - P ∧
    (P ≠ 0 →
      (BRC (transferBallotSell P stSell 1 2 2).state 2).1 ≠ 100 - 2 * P ∧
      (BRC (transferBallotSell P stSell 1 2 2).state 1).1 +
        (BRC (transferBallotSell P stSell 1 2 2).state 2).1 ≠ 100) := by
  have hm : (0 + u256.mul 2 P) % 2 ^ 256 = 2 * P := by unfold u256.mul; omega
  obtain ⟨h1, h2, h3, h4⟩ := transferBallotSell_effect P stSell 1 2 2
    { Account.create 0 0 with ballot := 10 } { Account.create 0 0 with brc := 100 }
    (by decide) (by decide) (by decide) (by decide) (by decide) (by decide) (by decide)
    (Nat.le_trans hP (by decide))
  have h2' : (ballot (transferBallotSell P stSell 1 2 2).state 1).1 = 8 := h2
  have h3' : (BRC (transferBallotSell P stSell 1 2 2).state 1).1 = 2 * P := h3.trans hm
  have h4' : (BRC (transferBallotSell P stSell 1 2 2).state 2).1 = 100 - P := h4
  refine ⟨by decide, h1, h2', h3', h4', fun hne => ?_⟩
  rw [h3', h4']
  clear h1 h2 h3 h4 h2' h3' h4' hm
  have hpos : 0 < P := Nat.pos_of_ne_zero hne
  exact ⟨by omega, by omega⟩

theorem transferBallotSell_price_once_witness :
    (3 : Nat) ≤ 50 ∧
    (transferBallotSell 3 stSell 1 2 2).error = none ∧
    (BRC (transferBallotSell 3 stSell 1 2 2).state 1).1 = 6 ∧
    (BRC (transferBallotSell 3 stSell 1 2 2).state 2).1 = 97 :=
  have hw := transferBallotSell_price_once 3 (by decide)
  ⟨by decide, hw.2.1, hw.2.2.2.1, hw.2.2.2.2.1⟩

/-- C20 (failing input): account 1 has balance 100, BRC 50 and empty frozen pools.  After a
BuyBRC order (qty 2, price 10) the balance is 80 and FBalance 20; `cancelPendingOrder` for the
same account, amount and kind raises `NotEnoughCash`, because its four per-kind branches are
empty and it always takes the amount from FBRC, and the balance stays 80.  After a BuyFuel
order (qty 2, price 10) BRC is 30 and FBRC 20; the cancellation gives back 2 only (BRC 32,
FBRC 18).  Only a SellBRC order is undone. -/
theorem cancelPendingOrder_not_inverse :
    (brcPendingOrder stOrder 1 2 10 0 .EBuyBrcPendingOrder).error = none ∧
    (balance (brcPendingOrder stOrder 1 2 10 0 .EBuyBrcPendingOrder).state 1).1
      = 80 ∧
    (FBalance (brcPendingOrder stOrder 1 2 10 0 .EBuyBrcPendingOrder).state 1).1
      = 20 ∧
    (cancelPendingOrder (brcPendingOrder stOrder 1 2 10 0 .EBuyBrcPendingOrder).state
      1 2 .EBuyBrcPendingOrder 0).error = some Error.NotEnoughCash ∧
    (balance (cancelPendingOrder
      (brcPendingOrder stOrder 1 2 10 0 .EBuyBrcPendingOrder).state
      1 2 .EBuyBrcPendingOrder 0).state 1).1 = 80 ∧
    (FBalance (cancelPendingOrder
      (brcPendingOrder stOrder 1 2 10 0 .EBuyBrcPendingOrder).state
      1 2 .EBuyBrcPendingOrder 0).state 1).1 = 20 ∧
    (cancelPendingOrder (fuelPendingOrder stOrder 1 2 10 0 .ESellFuelPendingOrder).state
      1 2 .ESellFuelPendingOrder 0).error = some Error.NotEnoughCash ∧
    (fuelPendingOrder stOrder 1 2 10 0 .EBuyFuelPendingOrder).error = none ∧
    (BRC (fuelPendingOrder stOrder 1 2 10 0 .EBuyFuelPendingOrder).state 1).1 = 30 ∧
    (FBRC (fuelPendingOrder stOrder 1 2 10 0 .EBuyFuelPendingOrder).state 1).1
      = 20 ∧
    (cancelPendingOrder (fuelPendingOrder stOrder 1 2 10 0 .EBuyFuelPendingOrder).state
      1 2 .EBuyFuelPendingOrder 0).error = none ∧
    (BRC (cancelPendingOrder
      (fuelPendingOrder stOrder 1 2 10 0 .EBuyFuelPendingOrder).state
      1 2 .EBuyFuelPendingOrder 0).state 1).1 = 32 ∧
    (FBRC (cancelPendingOrder
      (fuelPendingOrder stOrder 1 2 10 0 .EBuyFuelPendingOrder).state
      1 2 .EBuyFuelPendingOrder 0).state 1).1 = 18 ∧
    (BRC (cancelPendingOrder
      (brcPendingOrder stOrder 1 2 10 0 .ESellBrcPendingOrder).state
      1 2 .ESellBrcPendingOrder 0).state 1).1 = 50 ∧
    (FBRC (cancelPendingOrder
      (brcPendingOrder stOrder 1 2 10 0 .ESellBrcPendingOrder).state
      1 2 .ESellBrcPendingOrder 0).state 1).1 = 0 := by
  decide

/-! ## Savepoints -/

/-- Undoing the records above `base`, newest first, leaves the log equal to `base`. -/
theorem foldl_rollbackStep_changeLog (sha3 : Bytes → Nat) (base cs : List Change) :
    ∀ s : State, s.m_changeLog = base ++ cs →
      (cs.reverse.foldl (rollbackStep sha3) s).m_changeLog = base := by
  induction cs using List.reverseRecOn with
  | nil => intro s h; simpa using h
  | append_singleton cs c ih =>
    intro s h
    rw [List.reverse_append, List.reverse_singleton, List.singleton_append, List.foldl_cons]
    apply ih
    rw [rollbackStep_changeLog, h, ← List.append_assoc, List.dropLast_concat]

/-- C21: `savepoint()` is the length of the change log (it is a read: the state is not
changed).  For every `N ≤ savepoint()`, `rollback(N)` is the undo step applied to the records
above the first `N`, from the newest to the oldest, once each: `length - N` steps, after which
the loop stops (more fuel changes nothing); the change log is then its first `N` records; and
`rollback(savepoint())` is the identity on the whole state. -/
theorem rollback_spec (sha3 : Bytes → Nat) (s : State) (N : Nat) (hN : N ≤ savepoint s) :
    savepoint s = s.m_changeLog.length ∧
    rollback sha3 s N = (s.m_changeLog.drop N).reverse.foldl (rollbackStep sha3) s ∧
    (s.m_changeLog.drop N).reverse.length = s.m_changeLog.length - N ∧
    (∀ fuel, s.m_changeLog.length - N ≤ fuel →
      rollbackLoop sha3 fuel N s = rollback sha3 s N) ∧
    (rollback sha3 s N).m_changeLog = s.m_changeLog.take N ∧
    rollback sha3 s (savepoint s) = s := by
  have hlen : (s.m_changeLog.take N).length = N := by
    rw [List.length_take]; exact Nat.min_eq_left hN
  have hlog : s.m_changeLog = s.m_changeLog.take N ++ s.m_changeLog.drop N :=
    (List.take_append_drop N s.m_changeLog).symm
  have h1 : rollback sha3 s N = (s.m_changeLog.drop N).reverse.foldl (rollbackStep sha3) s := by
    have := rollback_eq_foldl sha3 s _ _ hlog
    rw [hlen] at this
    exact this
  refine ⟨rfl, h1, by simp, ?_, ?_, ?_⟩
  · intro fuel hf
    have := rollbackLoop_eq_foldl sha3 _ _ fuel s hlog (by simpa using hf)
    rw [hlen] at this
    rw [this, h1]
  · rw [h1]
    exact foldl_rollbackStep_changeLog sha3 _ _ s hlog
  · have := rollback_eq_foldl sha3 s s.m_changeLog [] (by simp)
    simpa [savepoint] using this

theorem rollback_spec_witness :
    1 ≤ savepoint (addBalance (addBalance stTen 1 5).state 1 7).state ∧
    (rollback (fun _ => 0) (addBalance (addBalance stTen 1 5).state 1 7).state 1).m_changeLog
      = (addBalance (addBalance stTen 1 5).state 1 7).state.m_changeLog.take 1 ∧
    (balance (rollback (fun _ => 0) (addBalance (addBalance stTen 1 5).state 1 7).state 1) 1).1
      = 15 :=
  ⟨by decide,
   (rollback_spec (fun _ => 0) (addBalance (addBalance stTen 1 5).state 1 7).state 1
     (by decide)).2.2.2.2.1,
   by decide⟩

/-! ## Commit -/

/-- C22: after `commit(b)`, for either commit behaviour and every prior state, the change log
is empty (`savepoint()` is 0), the account cache is empty and the clean-entry list is
empty. -/
theorem commit_clears (trieRoot : List (Nat × Nat) → Nat) (s : State) (b : CommitBehaviour) :
    (commit trieRoot s b).m_changeLog = [] ∧ savepoint (commit trieRoot s b) = 0 ∧
    (commit trieRoot s b).m_cache = [] ∧ (commit trieRoot s b).m_unchangedCacheEntries = [] :=
  ⟨rfl, rfl, rfl, rfl⟩

/-- A commit of a state whose cache is empty changes nothing but the lists it clears. -/
theorem commit_of_empty_cache (trieRoot : List (Nat × Nat) → Nat) (s : State)
    (b : CommitBehaviour) (hc : s.m_cache = []) (hl : s.m_changeLog = [])
    (hu : s.m_unchangedCacheEntries = []) : commit trieRoot s b = s := by
  cases s
  simp only at hc hl hu
  subst hc hl hu
  cases b <;> simp [commit, removeEmptyAccounts, dev.brc.commit]

/-- C23: commit idempotence.  For every state and commit behaviours `b`, `b'`, the state
after `commit(b); commit(b')` is the state after `commit(b)` alone: the account trie (hence
its root hash), the node database and every other member are the same. -/
theorem commit_idempotent (trieRoot : List (Nat × Nat) → Nat) (s : State)
    (b b' : CommitBehaviour) :
    commit trieRoot (commit trieRoot s b) b' = commit trieRoot s b ∧
    (commit trieRoot (commit trieRoot s b) b').m_state = (commit trieRoot s b).m_state := by
  have h := commit_of_empty_cache trieRoot (commit trieRoot s b) b' rfl rfl rfl
  exact ⟨h, by rw [h]⟩

/-! ## Eviction -/

theorem clearCacheStep_length (s : State) :
    (clearCacheStep s).m_unchangedCacheEntries.length = s.m_unchangedCacheEntries.length - 1 := by
  unfold clearCacheStep
  simp

/-- With enough fuel the loop of `clearCacheIfTooLarge` stops by its own condition: the
clean-entry list is then at most 1000 long, and more fuel gives the same state. -/
theorem clearCacheLoop_enough (fuel : Nat) :
    ∀ s : State, s.m_unchangedCacheEntries.length - 1000 ≤ fuel →
      (clearCacheLoop fuel s).m_unchangedCacheEntries.length ≤ 1000 ∧
      ∀ fuel2, s.m_unchangedCacheEntries.length - 1000 ≤ fuel2 →
        clearCacheLoop fuel2 s = clearCacheLoop fuel s := by
  induction fuel with
  | zero =>
    intro s h
    have hle : s.m_unchangedCacheEntries.length ≤ 1000 := by omega
    refine ⟨hle, fun fuel2 _ => ?_⟩
    cases fuel2 with
    | zero => rfl
    | succ f =>
      unfold clearCacheLoop
      rw [if_neg (by omega)]
  | succ n ih =>
    intro s h
    by_cases hgt : s.m_unchangedCacheEntries.length > 1000
    · have hstep := clearCacheStep_length s
      have hn : (clearCacheStep s).m_unchangedCacheEntries.length - 1000 ≤ n := by omega
      obtain ⟨h1, h2⟩ := ih (clearCacheStep s) hn
      have e : clearCacheLoop (n + 1) s = clearCacheLoop n (clearCacheStep s) := by
        rw [clearCacheLoop, if_pos hgt]
      rw [e]
      refine ⟨h1, fun fuel2 hf => ?_⟩
      cases fuel2 with
      | zero => omega
      | succ f =>
        rw [clearCacheLoop, if_pos hgt]
        exact h2 f (by omega)
    · have e : clearCacheLoop (n + 1) s = s := by
        rw [clearCacheLoop, if_neg hgt]
      rw [e]
      refine ⟨by omega, fun fuel2 _ => ?_⟩
      cases fuel2 with
      | zero => rfl
      | succ f => rw [clearCacheLoop, if_neg hgt]

/-- A dirty cache entry survives a lookup of any address. -/
theorem account_keeps_dirty (s : State) (b c : Address) (a : Account)
    (h : Map.find s.m_cache c = some a) (hd : a.dirty = true) :
    Map.find (account s b).2.m_cache c = some a := by
  by_cases hcb : c = b
  · subst hcb
    rw [account_hit s c a h]; exact h
  · rcases (account_effect s b c).2.2 hcb with e | ⟨_, a', ha', hd'⟩
    · rw [e]; exact h
    · rw [h] at ha'
      cases ha'
      rw [hd] at hd'
      cases hd'

theorem loads_keeps_dirty (bs : List Address) :
    ∀ (s : State) (c : Address) (a : Account), Map.find s.m_cache c = some a →
      a.dirty = true → Map.find (loads s bs).m_cache c = some a := by
  induction bs with
  | nil => intro s c a h _; exact h
  | cons b bs ih =>
    intro s c a h hd
    exact ih _ c a (account_keeps_dirty s b c a h hd) hd

/-- C26: eviction safety.  For every state (its cache, clean-entry list and future random
draws), `clearCacheIfTooLarge` stops by its own loop condition (any fuel of at least
`length - 1000` gives the same state), leaves at most 1000 entries in the clean-entry list,
changes nothing but the cache, the clean-entry list and the random engine, erases only cache
entries that are not dirty, and leaves every dirty entry in the cache as it is; hence after
any sequence of lookups a dirty entry is still in the cache, unchanged, and a lookup of its
address returns it. -/
theorem eviction_safety (s : State) :
    (∀ fuel, s.m_unchangedCacheEntries.length - 1000 ≤ fuel →
      clearCacheLoop fuel s = clearCacheIfTooLarge s) ∧
    (clearCacheIfTooLarge s).m_unchangedCacheEntries.length ≤ 1000 ∧
    Evicts s (clearCacheIfTooLarge s) ∧
    (∀ b, Map.find (clearCacheIfTooLarge s).m_cache b = Map.find s.m_cache b ∨
      (Map.find (clearCacheIfTooLarge s).m_cache b = none ∧
        ∃ a, Map.find s.m_cache b = some a ∧ a.dirty = false)) ∧
    (∀ b a, Map.find s.m_cache b = some a → a.dirty = true →
      Map.find (clearCacheIfTooLarge s).m_cache b = some a) ∧
    (∀ bs b a, Map.find s.m_cache b = some a → a.dirty = true →
      Map.find (loads s bs).m_cache b = some a ∧ (account (loads s bs) b).1 = some a) := by
  have hen := clearCacheLoop_enough s.m_unchangedCacheEntries.length s (by omega)
  have hev := clearCacheIfTooLarge_evicts s
  refine ⟨fun fuel hf => hen.2 fuel hf, hen.1, hev, hev.cache, ?_, ?_⟩
  · intro b a h hd
    rcases hev.cache b with e | ⟨_, a', ha', hd'⟩
    · rw [e]; exact h
    · rw [h] at ha'
      cases ha'
      rw [hd] at hd'
      cases hd'
  · intro bs b a h hd
    have hf := loads_keeps_dirty bs s b a h hd
    exact ⟨hf, by rw [account_hit _ b a hf]⟩

/-! ## Lookups -/

/-- C27: `account(addr)`.  A cached address yields its entry and the state is unchanged; an
uncached address of the non-existence set yields null and the state is unchanged; otherwise
on a trie miss the address is inserted into the non-existence set and the result is null, and
on a trie hit the record is decoded into a clean entry that is inserted into the cache (after
`clearCacheIfTooLarge`) and the address is appended to the clean-entry list.  In every case
the change log, the trie and the start nonce are unchanged, and the cache entry of any other
address is either unchanged or a clean entry that was evicted. -/
theorem account_spec (s : State) (addr : Address) :
    (∀ a, Map.find s.m_cache addr = some a → account s addr = (some a, s)) ∧
    (Map.find s.m_cache addr = none → addr ∈ s.m_nonExistingAccountsCache →
      account s addr = (none, s)) ∧
    (Map.find s.m_cache addr = none → addr ∉ s.m_nonExistingAccountsCache →
      Map.find s.m_state addr = none →
      account s addr =
        (none, { s with m_nonExistingAccountsCache :=
                          AddressSet.insert s.m_nonExistingAccountsCache addr })) ∧
    (∀ r, Map.find s.m_cache addr = none → addr ∉ s.m_nonExistingAccountsCache →
      Map.find s.m_state addr = some r →
      account s addr = (some (decodeAccount r),
        { clearCacheIfTooLarge s with
          m_cache := Map.emplace (clearCacheIfTooLarge s).m_cache addr (decodeAccount r),
          m_unchangedCacheEntries :=
            (clearCacheIfTooLarge s).m_unchangedCacheEntries ++ [addr] }) ∧
      (decodeAccount r).dirty = false ∧
      Map.find (account s addr).2.m_cache addr = some (decodeAccount r)) ∧
    (account s addr).2.m_changeLog = s.m_changeLog ∧
    (account s addr).2.m_state = s.m_state ∧
    (account s addr).2.m_accountStartNonce = s.m_accountStartNonce ∧
    (∀ b, b ≠ addr →
      Map.find (account s addr).2.m_cache b = Map.find s.m_cache b ∨
      (Map.find (account s addr).2.m_cache b = none ∧
        ∃ a, Map.find s.m_cache b = some a ∧ a.dirty = false)) := by
  have hfr := account_frame s addr
  refine ⟨fun a h => account_hit s addr a h, fun h hn => account_known_miss s addr h hn,
    fun h _ ht => account_absent s addr h ht, ?_, hfr.1, hfr.2.1, hfr.2.2.1,
    fun b hb => (account_effect s addr b).2.2 hb⟩
  intro r hc hn ht
  have e : account s addr = (some (decodeAccount r),
      { clearCacheIfTooLarge s with
        m_cache := Map.emplace (clearCacheIfTooLarge s).m_cache addr (decodeAccount r),
        m_unchangedCacheEntries :=
          (clearCacheIfTooLarge s).m_unchangedCacheEntries ++ [addr] }) := by
    unfold account
    simp [hc, hn, ht]
  refine ⟨e, rfl, ?_⟩
  have hf := account_find s addr
  rw [hf, e]

/-! ## Start nonce -/

/-- A lookup that finds nothing does not change what later lookups return. -/
theorem account_none_view (s : State) (addr : Address) (h : (account s addr).1 = none)
    (b : Address) : (account (account s addr).2 b).1 = (account s b).1 := by
  by_cases hb : b = addr
  · subst hb; rw [account_account]
  · rw [account_none_state s addr h]
    apply account_fst_eq
    · rfl
    · simp [AddressSet.mem_insert, hb]
    · rfl

theorem incNonce_absent (s : State) (addr : Nat) (h : (account s addr).1 = none) :
    incNonce s addr =
      match requireAccountStartNonce s with
      | none => Outcome.throw Error.InvalidAccountStartNonceInState (account s addr).2
      | some n => Outcome.ok (createAccount (account s addr).2 addr
          (Account.create (u256.add n 1) 0)) := by
  unfold incNonce
  simp only [h, requireAccountStartNonce_account]

/-- C28: start-nonce errors.  `requireAccountStartNonce` raises exactly when the stored start
nonce is the sentinel `Invalid256` and otherwise returns the stored value.
`noteAccountStartNonce(v)` stores `v` when the sentinel is stored, changes nothing when the
stored value is `v`, and raises, leaving the state as it is, exactly when a value other than
the sentinel and other than `v` is stored.  With the sentinel stored, `addBalance`, `addBRC`
and `incNonce` on an absent address and `createContract` raise
`InvalidAccountStartNonceInState`; the state they leave is the one after the failed lookup
(for `createContract`, the state before), so that the change log is unchanged and every
lookup returns what it returned before. -/
theorem start_nonce_errors (s : State) (v addr amt : Nat) :
    (requireAccountStartNonce s = none ↔ s.m_accountStartNonce = Invalid256) ∧
    (s.m_accountStartNonce ≠ Invalid256 →
      requireAccountStartNonce s = some s.m_accountStartNonce) ∧
    (s.m_accountStartNonce = Invalid256 →
      noteAccountStartNonce s v = Outcome.ok { s with m_accountStartNonce := v }) ∧
    (s.m_accountStartNonce = v → noteAccountStartNonce s v = Outcome.ok s) ∧
    ((noteAccountStartNonce s v).error ≠ none ↔
      (s.m_accountStartNonce ≠ Invalid256 ∧ s.m_accountStartNonce ≠ v)) ∧
    ((noteAccountStartNonce s v).error ≠ none →
      noteAccountStartNonce s v = Outcome.throw Error.IncorrectAccountStartNonceInState s) ∧
    (s.m_accountStartNonce = Invalid256 →
      createContract s addr = Outcome.throw Error.InvalidAccountStartNonceInState s) ∧
    (s.m_accountStartNonce = Invalid256 → (account s addr).1 = none →
      addBalance s addr amt
        = Outcome.throw Error.InvalidAccountStartNonceInState (account s addr).2 ∧
      addBRC s addr amt
        = Outcome.throw Error.InvalidAccountStartNonceInState (account s addr).2 ∧
      incNonce s addr
        = Outcome.throw Error.InvalidAccountStartNonceInState (account s addr).2 ∧
      (account s addr).2 =
        { s with m_nonExistingAccountsCache :=
                   AddressSet.insert s.m_nonExistingAccountsCache addr } ∧
      (account s addr).2.m_changeLog = s.m_changeLog ∧
      ∀ b, (account (account s addr).2 b).1 = (account s b).1) := by
  refine ⟨requireAccountStartNonce_eq_none s, ?_, ?_, ?_, ?_, ?_, ?_, ?_⟩
  · intro h
    unfold requireAccountStartNonce
    rw [if_neg h]
  · intro h
    unfold noteAccountStartNonce
    rw [if_pos h]
  · intro h
    unfold noteAccountStartNonce
    by_cases hi : s.m_accountStartNonce = Invalid256
    · rw [if_pos hi]
      subst h
      rfl
    · rw [if_neg hi, if_neg (by simpa using h)]
  · unfold noteAccountStartNonce
    by_cases hi : s.m_accountStartNonce = Invalid256
    · rw [if_pos hi]
      exact ⟨fun h => absurd rfl h, fun h => absurd hi h.1⟩
    · by_cases hv : s.m_accountStartNonce = v
      · rw [if_neg hi, if_neg (fun h => h hv)]
        exact ⟨fun h => absurd rfl h, fun h => absurd hv h.2⟩
      · rw [if_neg hi, if_pos hv]
        exact ⟨fun _ => ⟨hi, hv⟩, fun _ h => Option.noConfusion h⟩
  · intro h
    unfold noteAccountStartNonce at h ⊢
    by_cases hi : s.m_accountStartNonce = Invalid256
    · rw [if_pos hi] at h
      exact absurd rfl h
    · by_cases hv : s.m_accountStartNonce = v
      · rw [if_neg hi, if_neg (fun h => h hv)] at h
        exact absurd rfl h
      · rw [if_neg hi, if_pos hv]
  · intro h
    unfold createContract
    rw [(requireAccountStartNonce_eq_none s).mpr h]
  · intro h hnone
    have hr := (requireAccountStartNonce_eq_none s).mpr h
    refine ⟨?_, ?_, ?_, account_none_state s addr hnone, (account_frame s addr).1,
      account_none_view s addr hnone⟩
    · rw [addBalance_absent s addr amt hnone, hr]
    · rw [addBRC_absent s addr amt hnone, hr]
    · rw [incNonce_absent s addr hnone, hr]

/-! ## The nonce -/

theorem incNonce_existing (s : State) (addr : Nat) (a : Account)
    (h : (account s addr).1 = some a) :
    incNonce s addr = Outcome.ok (((account s addr).2.modifyAccount addr Account.incNonce).log
      { kind := Change.Kind.Nonce, address := addr, value := a.nonce }) := by
  unfold incNonce
  simp only [h]

/-- The state after `incNonce` on an existing account, and after rolling it back. -/
theorem incNonce_existing_spec (sha3 : Bytes → Nat) (s : State) (addr : Nat)
    (a : Account) (h : (account s addr).1 = some a) :
    (incNonce s addr).error = none ∧
    (account (incNonce s addr).state addr).1 = some a.incNonce ∧
    (incNonce s addr).state.m_changeLog =
      s.m_changeLog ++ [{ kind := Change.Kind.Nonce, address := addr, value := a.nonce }] ∧
    (account (rollback sha3 (incNonce s addr).state (savepoint s)) addr).1
      = some (a.incNonce.setNonce a.nonce) := by
  have hfind := account_find s addr
  rw [h] at hfind
  have hlog0 := (account_frame s addr).1
  rw [incNonce_existing s addr a h]
  have hlog : (((account s addr).2.modifyAccount addr Account.incNonce).log
      { kind := Change.Kind.Nonce, address := addr, value := a.nonce }).m_changeLog =
      s.m_changeLog ++ [{ kind := Change.Kind.Nonce, address := addr, value := a.nonce }] := by
    simp [State.log, State.modifyAccount, hlog0]
  simp only [Outcome.ok]
  refine ⟨trivial, ?_, hlog, ?_⟩
  · rw [account_fst]
    simp [State.log, State.modifyAccount, Map.find_modify, hfind]
  · simp only [savepoint]
    rw [rollback_eq_foldl sha3 _ _ _ hlog, account_fst]
    simp [rollbackStep, State.log, State.modifyAccount, Map.find_modify, Map.find_emplace, hfind]

/-- The state after `incNonce` on an absent address, and after rolling it back. -/
theorem incNonce_absent_spec (sha3 : Bytes → Nat) (s : State) (addr : Nat)
    (h : (account s addr).1 = none) :
    (s.m_accountStartNonce ≠ Invalid256 →
      (incNonce s addr).error = none ∧
      (account (incNonce s addr).state addr).1
        = some (Account.create (u256.add s.m_accountStartNonce 1) 0) ∧
      (incNonce s addr).state.m_changeLog =
        s.m_changeLog ++ [{ kind := Change.Kind.Create, address := addr }]) ∧
    (s.m_accountStartNonce = Invalid256 →
      (incNonce s addr).error = some Error.InvalidAccountStartNonceInState ∧
      (account (incNonce s addr).state addr).1 = none ∧
      (incNonce s addr).state.m_changeLog = s.m_changeLog) ∧
    (Map.find s.m_state addr = none →
      (account (rollback sha3 (incNonce s addr).state (savepoint s)) addr).1 = none) ∧
    (rollback sha3 (incNonce s addr).state (savepoint s)).m_accountStartNonce
      = s.m_accountStartNonce := by
  have hst := account_none_state s addr h
  have hlog0 := (account_frame s addr).1
  rw [incNonce_absent s addr h]
  cases hn : requireAccountStartNonce s with
  | none =>
    have hinv := (requireAccountStartNonce_eq_none s).mp hn
    have hlog : (account s addr).2.m_changeLog = s.m_changeLog ++ [] := by
      rw [hlog0]; simp
    simp only [Outcome.throw, savepoint]
    rw [rollback_eq_foldl sha3 _ _ _ hlog]
    simp only [List.reverse_nil, List.foldl_nil]
    refine ⟨fun hx => absurd hinv hx, fun _ => ⟨trivial, ?_, hlog0⟩,
      fun _ => ?_, (account_frame s addr).2.2.1⟩
    · rw [account_account, h]
    · rw [account_account, h]
  | some n =>
    have hne : s.m_accountStartNonce ≠ Invalid256 := fun e => by
      rw [(requireAccountStartNonce_eq_none s).mpr e] at hn; cases hn
    have hn' : n = s.m_accountStartNonce := by
      unfold requireAccountStartNonce at hn
      rw [if_neg hne] at hn
      cases hn; rfl
    subst hn'
    have hsp := createLog_spec s addr h (Account.create (u256.add s.m_accountStartNonce 1) 0)
      Change.Kind.Nonce 0
    have e0 : logIfNonZero (createAccount (account s addr).2 addr
        (Account.create (u256.add s.m_accountStartNonce 1) 0)) Change.Kind.Nonce addr 0
        = createAccount (account s addr).2 addr
            (Account.create (u256.add s.m_accountStartNonce 1) 0) := by
      simp [logIfNonZero]
    rw [e0] at hsp
    have hlog : (createAccount (account s addr).2 addr
        (Account.create (u256.add s.m_accountStartNonce 1) 0)).m_changeLog =
        s.m_changeLog ++ [{ kind := Change.Kind.Create, address := addr }] := by
      simpa using hsp.2.1
    simp only [Outcome.ok, savepoint]
    rw [rollback_eq_foldl sha3 _ _ _ hlog]
    refine ⟨fun _ => ⟨trivial, hsp.1, hlog⟩, fun e => absurd e hne, fun htr => ?_, ?_⟩
    · rw [account_fst]
      simp [rollbackStep, createAccount, hst, Map.find_erase, AddressSet.mem_erase, htr]
    · simp [rollbackStep, createAccount, hst]

/-- C29 (amended): `incNonce(addr)`, for every state.  If `addr` exists, the call returns
normally, appends Nonce(old) and sets the nonce to `old + 1` mod 2^256, marking the entry
dirty and changing no other field.  If the lookup of `addr` returns null and the start nonce is
set, the call returns normally, creates an alive dirty account with nonce
`accountStartNonce + 1` (mod 2^256) and balance 0, and appends a Create record; if the lookup
returns null and the start nonce is the sentinel, the call raises
InvalidAccountStartNonceInState, creates nothing and appends nothing.  Nothing is written
outside `addr` (the cache entry of every other address is untouched or, when it is not dirty,
dropped by the eviction of the lookup), and a lookup of any other address whose cache entry
was coherent returns what it returned before.  When `addr` exists or is absent (the lookup
returns null and the trie has no record of it), rollback to the savepoint taken just before
restores `getNonce(addr)` and `addressInUse(addr)`. -/
theorem incNonce_spec (sha3 : Bytes → Nat) (s : State) (addr : Nat) :
    (∀ a, (account s addr).1 = some a →
      (incNonce s addr).error = none ∧
      (account (incNonce s addr).state addr).1
        = some { a with nonce := (a.nonce + 1) % 2 ^ 256, dirty := true } ∧
      (incNonce s addr).state.m_changeLog =
        s.m_changeLog ++ [{ kind := Change.Kind.Nonce, address := addr, value := a.nonce }]) ∧
    ((account s addr).1 = none → s.m_accountStartNonce ≠ Invalid256 →
      (incNonce s addr).error = none ∧
      (account (incNonce s addr).state addr).1
        = some (Account.create ((s.m_accountStartNonce + 1) % 2 ^ 256) 0) ∧
      (incNonce s addr).state.m_changeLog =
        s.m_changeLog ++ [{ kind := Change.Kind.Create, address := addr }]) ∧
    ((account s addr).1 = none → s.m_accountStartNonce = Invalid256 →
      (incNonce s addr).error = some Error.InvalidAccountStartNonceInState ∧
      (account (incNonce s addr).state addr).1 = none ∧
      (incNonce s addr).state.m_changeLog = s.m_changeLog) ∧
    Frame s (incNonce s addr).state [addr] ∧
    (∀ b, b ≠ addr → s.coherentAt b →
      (account (incNonce s addr).state b).1 = (account s b).1) ∧
    (((account s addr).1 = none → Map.find s.m_state addr = none) →
      (getNonce (rollback sha3 (incNonce s addr).state (savepoint s)) addr).1
        = (getNonce s addr).1 ∧
      (addressInUse (rollback sha3 (incNonce s addr).state (savepoint s)) addr).1
        = (addressInUse s addr).1) := by
  have hfr : Frame s (incNonce s addr).state [addr] :=
    frame_incNonce addr (List.mem_singleton_self addr) (Frame.rfl s [addr])
  cases h : (account s addr).1 with
  | some a =>
    obtain ⟨h1, h2, h3, h5⟩ := incNonce_existing_spec sha3 s addr a h
    refine ⟨fun a' e => ?_, fun e => (by cases e), fun e => (by cases e), hfr, hfr.views,
      fun _ => ⟨?_, ?_⟩⟩
    · cases e
      exact ⟨h1, h2, h3⟩
    · simp only [getNonce, h5, h]
      rfl
    · simp only [addressInUse, h5, h]
      rfl
  | none =>
    obtain ⟨h1, h2, h4, h5⟩ := incNonce_absent_spec sha3 s addr h
    refine ⟨fun a' e => (by cases e), fun _ hn => h1 hn, fun _ hn => h2 hn, hfr, hfr.views,
      fun htr => ⟨?_, ?_⟩⟩
    · simp only [getNonce, h4 (htr rfl), h, h5]
    · simp only [addressInUse, h4 (htr rfl), h]

/-- C29 (counterexample): in the empty state whose start nonce was never set, `incNonce(1)`
raises InvalidAccountStartNonceInState: no account is created and no Create record is
appended. -/
theorem incNonce_absent_unset_nonce :
    (account stUnset 1).1 = none ∧
    (incNonce stUnset 1).error = some Error.InvalidAccountStartNonceInState ∧
    (account (incNonce stUnset 1).state 1).1 = none ∧
    (incNonce stUnset 1).state.m_changeLog = [] := by
  decide

theorem incNonce_spec_witness :
    (getNonce (incNonce stTen 1).state 1).1 = 1 ∧
    (getNonce (rollback (fun _ => 0) (incNonce stTen 1).state (savepoint stTen)) 1).1
      = (getNonce stTen 1).1 :=
  ⟨by decide, ((incNonce_spec (fun _ => 0) stTen 1).2.2.2.2.2 (by decide)).1⟩

/-! ## What commit writes into the trie -/

theorem Map.not_mem_keys_of_find {β : Type} (m : List (Nat × β)) (k : Nat)
    (h : Map.find m k = none) : k ∉ m.map Prod.fst := by
  induction m with
  | nil => simp
  | cons p t ih =>
    obtain ⟨a, b⟩ := p
    by_cases h1 : a = k
    · simp [Map.find, h1] at h
    · simp only [Map.find, h1, if_false] at h
      simp only [List.map_cons, List.mem_cons, not_or]
      exact ⟨fun e => h1 e.symm, ih h⟩

/-- The storage root `dev::brc::commit` writes for an account, given the node database at
that point of the loop. -/
theorem commitEntry_state_self (trieRoot : List (Nat × Nat) → Nat) (r : CommitResult)
    (k : Address) (a : Account) :
    Map.find (commitEntry trieRoot r (k, a)).state k =
      if a.dirty then
        if a.alive then
          some (encodeAccount
            (if a.storageOverlay.isEmpty then a.storageRoot
             else (flushStorage trieRoot r.db a.storageRoot a.storageOverlay).1) a)
        else none
      else Map.find r.state k := by
  unfold commitEntry
  by_cases hd : a.dirty = true
  · by_cases ha : a.alive = true
    · by_cases ho : a.storageOverlay.isEmpty = true
      · simp [Account.isDirty, Account.isAlive, hd, ha, ho, Map.find_assign]
      · simp [Account.isDirty, Account.isAlive, hd, ha, ho, Map.find_assign]
    · simp [Account.isDirty, Account.isAlive, hd, ha, Map.find_erase]
  · simp [Account.isDirty, hd]

theorem commitEntry_state_other (trieRoot : List (Nat × Nat) → Nat) (r : CommitResult)
    (i : Address × Account) (k : Address) (hk : i.1 ≠ k) :
    Map.find (commitEntry trieRoot r i).state k = Map.find r.state k := by
  have hk' : k ≠ i.1 := fun e => hk e.symm
  unfold commitEntry
  by_cases hd : i.2.isDirty = true
  · by_cases ha : i.2.isAlive = true
    · simp [hd, ha, Map.find_assign, hk']
    · simp [hd, ha, Map.find_erase, hk']
  · simp [hd]

theorem foldl_commitEntry_other (trieRoot : List (Nat × Nat) → Nat) (k : Address)
    (l : List (Address × Account)) :
    ∀ r : CommitResult, (∀ i ∈ l, i.1 ≠ k) →
      Map.find (l.foldl (commitEntry trieRoot) r).state k = Map.find r.state k := by
  induction l with
  | nil => intro r _; rfl
  | cons i t ih =>
    intro r h
    rw [List.foldl_cons, ih _ (fun j hj => h j (List.mem_cons_of_mem _ hj)),
      commitEntry_state_other trieRoot r i k (h i (List.mem_cons_self _ _))]

/-- The record of an address after `dev::brc::commit` over a cache with distinct keys is the
one written for its cache entry. -/
theorem commit_state_find (trieRoot : List (Nat × Nat) → Nat) (l : List (Address × Account))
    (st : List (Address × RLPRecord)) (db : OverlayDB) (k : Address) (a : Account)
    (hk : (l.map Prod.fst).Nodup) (hm : (k, a) ∈ l) :
    ∃ db1 : OverlayDB,
      Map.find (dev.brc.commit trieRoot l st db).state k =
        if a.dirty then
          if a.alive then
            some (encodeAccount
              (if a.storageOverlay.isEmpty then a.storageRoot
               else (flushStorage trieRoot db1 a.storageRoot a.storageOverlay).1) a)
          else none
        else Map.find st k := by
  obtain ⟨l1, l2, e⟩ := List.append_of_mem hm
  subst e
  rw [List.map_append, List.map_cons, List.nodup_append] at hk
  obtain ⟨hk1, hk2, hk3⟩ := hk
  have hl2 : ∀ i ∈ l2, i.1 ≠ k := by
    intro i hi e
    have : k ∈ l2.map Prod.fst := e ▸ List.mem_map_of_mem Prod.fst hi
    exact (List.nodup_cons.mp hk2).1 this
  have hl1 : ∀ i ∈ l1, i.1 ≠ k := by
    intro i hi e
    have h1 : i.1 ∈ l1.map Prod.fst := List.mem_map_of_mem Prod.fst hi
    exact hk3 h1 (by rw [e]; exact List.mem_cons_self _ _)
  refine ⟨(l1.foldl (commitEntry trieRoot) { state := st, db := db }).db, ?_⟩
  unfold dev.brc.commit
  rw [List.foldl_append, List.foldl_cons, foldl_commitEntry_other trieRoot k l2 _ hl2,
    commitEntry_state_self, foldl_commitEntry_other trieRoot k l1 _ hl1]

/-- An address that is not a key of the cache keeps its record. -/
theorem commit_state_other (trieRoot : List (Nat × Nat) → Nat) (l : List (Address × Account))
    (st : List (Address × RLPRecord)) (db : OverlayDB) (k : Address)
    (h : ∀ i ∈ l, i.1 ≠ k) :
    Map.find (dev.brc.commit trieRoot l st db).state k = Map.find st k := by
  unfold dev.brc.commit
  rw [foldl_commitEntry_other trieRoot k l _ h]

theorem removeEmptyAccounts_keys (s : State) :
    (removeEmptyAccounts s).m_cache.map Prod.fst = s.m_cache.map Prod.fst := by
  unfold removeEmptyAccounts
  simp only [List.map_map]
  apply List.map_congr_left
  intro i _
  simp only [Function.comp]
  split <;> rfl

/-- On a state with an empty cache a lookup returns nothing for an address without record. -/
theorem account_of_commit_none (trieRoot : List (Nat × Nat) → Nat) (s : State)
    (b : CommitBehaviour) (addr : Address)
    (h : Map.find (commit trieRoot s b).m_state addr = none) :
    (account (commit trieRoot s b) addr).1 = none := by
  have hcache : Map.find (commit trieRoot s b).m_cache addr = none := rfl
  rw [account_fst, hcache]
  simp only [h, Option.map_none']
  split <;> rfl

/-- A dirty empty cache entry is removed from the trie by `commit(RemoveEmptyAccounts)`. -/
theorem commit_removes_empty (trieRoot : List (Nat × Nat) → Nat) (s : State)
    (hk : (s.m_cache.map Prod.fst).Nodup) (addr : Address) (a : Account)
    (hm : (addr, a) ∈ s.m_cache) (hd : a.dirty = true) (he : a.isEmpty = true) :
    Map.find (commit trieRoot s CommitBehaviour.RemoveEmptyAccounts).m_state addr = none := by
  have hm' : (addr, a.kill) ∈ (removeEmptyAccounts s).m_cache := by
    unfold removeEmptyAccounts
    simp only [List.mem_map]
    exact ⟨(addr, a), hm, by simp [Account.isDirty, hd, he]⟩
  obtain ⟨db1, e⟩ := commit_state_find trieRoot (removeEmptyAccounts s).m_cache
    (removeEmptyAccounts s).m_state (removeEmptyAccounts s).m_db addr a.kill
    (by rw [removeEmptyAccounts_keys]; exact hk) hm'
  have e' : Map.find (commit trieRoot s CommitBehaviour.RemoveEmptyAccounts).m_state addr
      = Map.find (dev.brc.commit trieRoot (removeEmptyAccounts s).m_cache
          (removeEmptyAccounts s).m_state (removeEmptyAccounts s).m_db).state addr := rfl
  rw [e', e]
  simp [Account.kill]

/-- An address whose cache entry is absent or not dirty keeps its record through
`commit(RemoveEmptyAccounts)`. -/
theorem commit_keeps_untouched (trieRoot : List (Nat × Nat) → Nat) (s : State)
    (hk : (s.m_cache.map Prod.fst).Nodup) (addr : Address)
    (h : ∀ a, Map.find s.m_cache addr = some a → a.dirty = false) :
    Map.find (commit trieRoot s CommitBehaviour.RemoveEmptyAccounts).m_state addr
      = Map.find s.m_state addr := by
  have e' : Map.find (commit trieRoot s CommitBehaviour.RemoveEmptyAccounts).m_state addr
      = Map.find (dev.brc.commit trieRoot (removeEmptyAccounts s).m_cache
          (removeEmptyAccounts s).m_state (removeEmptyAccounts s).m_db).state addr := rfl
  rw [e']
  cases hf : Map.find s.m_cache addr with
  | none =>
    have hnk := Map.not_mem_keys_of_find _ _ hf
    rw [← removeEmptyAccounts_keys] at hnk
    rw [commit_state_other trieRoot _ _ _ addr
      (fun i hi e => hnk (List.mem_map.mpr ⟨i, hi, e⟩))]
    rfl
  | some a =>
    have hd := h a hf
    have hm' : (addr, a) ∈ (removeEmptyAccounts s).m_cache := by
      unfold removeEmptyAccounts
      simp only [List.mem_map]
      exact ⟨(addr, a), Map.mem_of_find _ _ _ hf, by simp [Account.isDirty, hd]⟩
    obtain ⟨db1, e⟩ := commit_state_find trieRoot (removeEmptyAccounts s).m_cache
      (removeEmptyAccounts s).m_state (removeEmptyAccounts s).m_db addr a
      (by rw [removeEmptyAccounts_keys]; exact hk) hm'
    rw [e, hd]
    rfl

/-- C25 (amended): empty collapse.  For a cache with distinct keys, after
`commit(RemoveEmptyAccounts)` no address whose cache entry was dirty and empty (nonce 0,
balance 0, no code, and ballot, poll, BRC, frozen BRC and frozen balance 0) is in the trie,
and `addressInUse` is false for it; in particular, with account start nonce 0, an address
whose lookup returns null and that is created only by `addBalance(A, 0)` is absent from the
trie and not in use after the commit.  The record of an address whose cache entry is absent
or not dirty, empty or not, stays in the trie as it is. -/
theorem empty_collapse (trieRoot : List (Nat × Nat) → Nat) (s : State)
    (hk : (s.m_cache.map Prod.fst).Nodup) :
    (∀ addr a, (addr, a) ∈ s.m_cache → a.dirty = true → a.isEmpty = true →
      Map.find (commit trieRoot s CommitBehaviour.RemoveEmptyAccounts).m_state addr = none ∧
      (addressInUse (commit trieRoot s CommitBehaviour.RemoveEmptyAccounts) addr).1 = false) ∧
    (∀ A, (account s A).1 = none → s.m_accountStartNonce = 0 →
      (addBalance s A 0).error = none ∧
      (addressInUse (addBalance s A 0).state A).1 = true ∧
      Map.find (commit trieRoot (addBalance s A 0).state
        CommitBehaviour.RemoveEmptyAccounts).m_state A = none ∧
      (addressInUse (commit trieRoot (addBalance s A 0).state
        CommitBehaviour.RemoveEmptyAccounts) A).1 = false) ∧
    (∀ addr, (∀ a, Map.find s.m_cache addr = some a → a.dirty = false) →
      Map.find (commit trieRoot s CommitBehaviour.RemoveEmptyAccounts).m_state addr
        = Map.find s.m_state addr) := by
  have part1 : ∀ (t : State), (t.m_cache.map Prod.fst).Nodup → ∀ addr a,
      (addr, a) ∈ t.m_cache → a.dirty = true → a.isEmpty = true →
      Map.find (commit trieRoot t CommitBehaviour.RemoveEmptyAccounts).m_state addr = none ∧
      (addressInUse (commit trieRoot t CommitBehaviour.RemoveEmptyAccounts) addr).1 = false := by
    intro t ht addr a hm hd he
    have h1 := commit_removes_empty trieRoot t ht addr a hm hd he
    refine ⟨h1, ?_⟩
    simp only [addressInUse, account_of_commit_none trieRoot t _ addr h1]
    rfl
  refine ⟨part1 s hk, ?_, fun addr h => commit_keeps_untouched trieRoot s hk addr h⟩
  intro A hnone h0
  have hcache : Map.find s.m_cache A = none := by
    have := account_fst s A
    rw [hnone] at this
    cases hc : Map.find s.m_cache A with
    | none => rfl
    | some a => rw [hc] at this; cases this
  have hreq : requireAccountStartNonce s = some 0 := by
    unfold requireAccountStartNonce
    rw [h0]
    rfl
  have e : addBalance s A 0 = Outcome.ok (createAccount (account s A).2 A (Account.create 0 0)) := by
    rw [addBalance_absent s A 0 hnone, hreq]
    simp [logIfNonZero]
  have hc2 : (createAccount (account s A).2 A (Account.create 0 0)).m_cache
      = (A, Account.create 0 0) :: s.m_cache := by
    simp only [createAccount, account_none_cache s A hnone]
    unfold Map.assign
    rw [hcache]
  rw [e]
  simp only [Outcome.ok]
  have hin : (addressInUse (createAccount (account s A).2 A (Account.create 0 0)) A).1 = true := by
    have hf : Map.find (createAccount (account s A).2 A (Account.create 0 0)).m_cache A
        = some (Account.create 0 0) := by
      rw [hc2]; simp [Map.find]
    simp only [addressInUse, account_hit _ A _ hf]
    rfl
  have hres := part1 (createAccount (account s A).2 A (Account.create 0 0))
    (by
      rw [hc2, List.map_cons, List.nodup_cons]
      exact ⟨Map.not_mem_keys_of_find _ _ hcache, hk⟩)
    A (Account.create 0 0) (by rw [hc2]; exact List.mem_cons_self _ _) rfl rfl
  exact ⟨trivial, hin, hres.1, hres.2⟩

/-- C25 (counterexample): the trie holds the record of an empty account at address 1 and the
cache is empty; after `commit(RemoveEmptyAccounts)` the record is still in the trie and the
address is in use.  And with start nonce 5, the account created by `addBalance(1, 0)` has
nonce 5: it is not empty, and after `commit(RemoveEmptyAccounts)` it is in the trie and in
use. -/
theorem empty_record_survives_commit :
    (Map.find stEmptyRecord.m_state 1).map (fun r => (decodeAccount r).isEmpty) = some true ∧
    (Map.find (commit (fun _ => 0) stEmptyRecord
      CommitBehaviour.RemoveEmptyAccounts).m_state 1).map
        (fun r => (decodeAccount r).isEmpty) = some true ∧
    (addressInUse (commit (fun _ => 0) stEmptyRecord
      CommitBehaviour.RemoveEmptyAccounts) 1).1 = true ∧
    (account stNonceFive 1).1 = none ∧
    (addBalance stNonceFive 1 0).error = none ∧
    Map.find (commit (fun _ => 0) (addBalance stNonceFive 1 0).state
      CommitBehaviour.RemoveEmptyAccounts).m_state 1
      = some (encodeAccount EmptyTrie (Account.create 5 0)) ∧
    (addressInUse (commit (fun _ => 0) (addBalance stNonceFive 1 0).state
      CommitBehaviour.RemoveEmptyAccounts) 1).1 = true := by
  decide

theorem empty_collapse_witness :
    (stEmpty.m_cache.map Prod.fst).Nodup ∧ (account stEmpty 1).1 = none ∧
    stEmpty.m_accountStartNonce = 0 ∧
    Map.find (commit (fun _ => 0) (addBalance stEmpty 1 0).state
      CommitBehaviour.RemoveEmptyAccounts).m_state 1 = none ∧
    (addressInUse (commit (fun _ => 0) (addBalance stEmpty 1 0).state
      CommitBehaviour.RemoveEmptyAccounts) 1).1 = false :=
  have hw := (empty_collapse (fun _ => 0) stEmpty (by decide)).2.1 1 (by decide) (by decide)
  ⟨by decide, by decide, by decide, hw.2.2.1, hw.2.2.2⟩

/-! ## The poll operations -/

/-- C30 (failing input): account 2 has poll 10 and balance 0.  `addPoll(2, 5)` returns
normally, leaves the poll at 10 and raises the balance to 5; `subPoll(2, 4)` returns normally,
leaves the poll at 10 and sets the balance to `2^256 - 4`; both append a Poll record, and
rolling `addPoll(2, 5)` back to the savepoint taken before it lowers the poll to 5 and leaves
the balance at 5. -/
theorem addPoll_subPoll_change_balance :
    (poll stPollTen 2).1 = 10 ∧ (balance stPollTen 2).1 = 0 ∧
    (addPoll stPollTen 2 5).error = none ∧
    (poll (addPoll stPollTen 2 5).state 2).1 = 10 ∧
    (balance (addPoll stPollTen 2 5).state 2).1 = 5 ∧
    (addPoll stPollTen 2 5).state.m_changeLog
      = [{ kind := Change.Kind.Poll, address := 2, value := 5 }] ∧
    (subPoll stPollTen 2 4).error = none ∧
    (poll (subPoll stPollTen 2 4).state 2).1 = 10 ∧
    (balance (subPoll stPollTen 2 4).state 2).1 = 2 ^ 256 - 4 ∧
    (subPoll stPollTen 2 4).state.m_changeLog
      = [{ kind := Change.Kind.Poll, address := 2, value := 2 ^ 256 - 4 }] ∧
    (poll (rollback (fun _ => 0) (addPoll stPollTen 2 5).state (savepoint stPollTen)) 2).1
      = 5 ∧
    (balance (rollback (fun _ => 0) (addPoll stPollTen 2 5).state (savepoint stPollTen)) 2).1
      = 5 := by
  decide

/-! ## Storage -/

theorem Map.mem_emplace {β : Type} (m : List (Nat × β)) (k : Nat) (v : β) (p : Nat × β)
    (h : p ∈ Map.emplace m k v) : p ∈ m ∨ p = (k, v) := by
  unfold Map.emplace at h
  split at h
  · exact Or.inl h
  · rcases List.mem_cons.mp h with h | h
    · exact Or.inr h
    · exact Or.inl h

/-- A state whose cache and non-existence set only repeat what the trie `T` says answers
every lookup from `T`, and stays so after the lookup. -/
theorem account_from_trie (T : List (Address × RLPRecord)) (t : State) (addr : Address)
    (h1 : t.m_state = T)
    (h2 : ∀ p ∈ t.m_cache, (Map.find T p.1).map decodeAccount = some p.2)
    (h3 : ∀ b ∈ t.m_nonExistingAccountsCache, Map.find T b = none) :
    (account t addr).1 = (Map.find T addr).map decodeAccount ∧
    (account t addr).2.m_state = T ∧
    (∀ p ∈ (account t addr).2.m_cache, (Map.find T p.1).map decodeAccount = some p.2) ∧
    (∀ b ∈ (account t addr).2.m_nonExistingAccountsCache, Map.find T b = none) := by
  have hev := clearCacheIfTooLarge_evicts t
  rcases account_cases t addr with ⟨a, hc, e⟩ | ⟨hc, hn, e⟩ | ⟨hc, hn, ht, e⟩ | ⟨r, hc, hn, ht, e⟩
  · rw [e]
    exact ⟨(h2 (addr, a) (Map.mem_of_find _ _ _ hc)).symm, h1, h2, h3⟩
  · rw [e]
    refine ⟨?_, h1, h2, h3⟩
    simp [h3 addr hn]
  · rw [e]
    rw [h1] at ht
    refine ⟨by simp [ht], h1, h2, ?_⟩
    intro b hb
    rcases (AddressSet.mem_insert _ _ _).mp hb with hb | hb
    · rw [hb]; exact ht
    · exact h3 b hb
  · rw [e]
    rw [h1] at ht
    refine ⟨by simp [ht], ?_, ?_, ?_⟩
    · simp only [hev.trie]; exact h1
    · intro p hp
      rcases Map.mem_emplace _ _ _ p hp with hp | hp
      · exact h2 p (hev.sub p hp)
      · rw [hp]; simp [ht]
    · intro b hb
      simp only [hev.nonExisting] at hb
      exact h3 b hb

theorem loads_from_trie (T : List (Address × RLPRecord)) (bs : List Address) :
    ∀ (t : State) (addr : Address), t.m_state = T →
      (∀ p ∈ t.m_cache, (Map.find T p.1).map decodeAccount = some p.2) →
      (∀ b ∈ t.m_nonExistingAccountsCache, Map.find T b = none) →
      (account (loads t bs) addr).1 = (Map.find T addr).map decodeAccount := by
  induction bs with
  | nil => intro t addr h1 h2 h3; exact (account_from_trie T t addr h1 h2 h3).1
  | cons b bs ih =>
    intro t addr h1 h2 h3
    obtain ⟨_, g1, g2, g3⟩ := account_from_trie T t b h1 h2 h3
    exact ih _ addr g1 g2 g3

/-- C32: after `setRoot(h)`, for every prior state, the account cache, the clean-entry list
and the non-existence set are empty, the trie is the one the database holds under `h` and
`rootHash()` is `h`, for every root function; every lookup, also after any sequence of other
lookups, returns the decoded record of the trie under `h`, whatever the state before the call
was. -/
theorem setRoot_spec (trieAt : Nat → List (Address × RLPRecord))
    (stateRoot : List (Address × RLPRecord) → Nat) (s : State) (h : Nat) :
    (setRoot trieAt s h).m_cache = [] ∧
    (setRoot trieAt s h).m_unchangedCacheEntries = [] ∧
    (setRoot trieAt s h).m_nonExistingAccountsCache = [] ∧
    (setRoot trieAt s h).m_state = trieAt h ∧
    rootHash stateRoot (setRoot trieAt s h) = h ∧
    (∀ bs addr, (account (loads (setRoot trieAt s h) bs) addr).1
      = (Map.find (trieAt h) addr).map decodeAccount) ∧
    (∀ (s2 : State) bs addr, (account (loads (setRoot trieAt s h) bs) addr).1
      = (account (loads (setRoot trieAt s2 h) bs) addr).1) := by
  have key : ∀ (s1 : State) bs addr, (account (loads (setRoot trieAt s1 h) bs) addr).1
      = (Map.find (trieAt h) addr).map decodeAccount := by
    intro s1 bs addr
    exact loads_from_trie (trieAt h) bs (setRoot trieAt s1 h) addr rfl
      (fun p hp => by cases hp) (fun b hb => by cases hb)
  refine ⟨rfl, rfl, rfl, rfl, rfl, key s, fun s2 bs addr => ?_⟩
  rw [key s, key s2]

/-! ## The change log and the caches -/

/-- C36 (failing input): from the freshly constructed state, `addFBRC(1, 5)` appends an FBRC
record for address 1, which is not in the cache; `rollback(0)` then materialises a default
account for it, after which the address is in use.  Likewise `addBalance(1, 5)` followed by
`setRoot`, or run by `execute` with permanence `Reverted`, leaves the Create and Balance
records of address 1 in the log while the cache is empty. -/
theorem changeLog_names_uncached_address :
    (addFBRC stEmpty 1 5).error = none ∧
    (addFBRC stEmpty 1 5).state.m_changeLog
      = [{ kind := Change.Kind.FBRC, address := 1, value := 5 }] ∧
    (addFBRC stEmpty 1 5).state.m_cache = [] ∧
    (addressInUse stEmpty 1).1 = false ∧
    (addressInUse (rollback (fun _ => 0) (addFBRC stEmpty 1 5).state 0) 1).1 = true ∧
    (setRoot (fun _ => []) (addBalance stEmpty 1 5).state 0).m_changeLog
      = [{ kind := Change.Kind.Create, address := 1 },
         { kind := Change.Kind.Balance, address := 1, value := 5 }] ∧
    (setRoot (fun _ => []) (addBalance stEmpty 1 5).state 0).m_cache = [] ∧
    (execute (fun _ => 0) (fun _ => 0) 1 stEmpty
      { ops := [Op.call (Call.addBalance 1 5)], finish := VMEnd.returns true }
      Permanence.Reverted false).thrown = none ∧
    (execute (fun _ => 0) (fun _ => 0) 1 stEmpty
      { ops := [Op.call (Call.addBalance 1 5)], finish := VMEnd.returns true }
      Permanence.Reverted false).state.m_changeLog
      = [{ kind := Change.Kind.Create, address := 1 },
         { kind := Change.Kind.Balance, address := 1, value := 5 }] ∧
    (execute (fun _ => 0) (fun _ => 0) 1 stEmpty
      { ops := [Op.call (Call.addBalance 1 5)], finish := VMEnd.returns true }
      Permanence.Reverted false).state.m_cache = [] := by
  decide

/-- C37 (failing input): from the freshly constructed state, `setStorage(1, 0, 5)` looks the
absent address 1 up, which puts it into the non-existence set, and then writes through
`m_cache[1]`, which inserts an entry: address 1 is a key of the cache and a member of the
non-existence set.  The same holds after `setCode(1, [1])`, after the read `balance(1)`
followed by `clearStorage(1)`, and after `addFBRC(1, 5)` followed by `rollback(0)`. -/
theorem cached_and_nonexisting :
    (Map.find (setStorage stEmpty 1 0 5).m_cache 1).isSome = true ∧
    1 ∈ (setStorage stEmpty 1 0 5).m_nonExistingAccountsCache ∧
    (Map.find (setCode (fun _ => 0) stEmpty 1 [1]).m_cache 1).isSome = true ∧
    1 ∈ (setCode (fun _ => 0) stEmpty 1 [1]).m_nonExistingAccountsCache ∧
    (Map.find (clearStorage (balance stEmpty 1).2 1).m_cache 1).isSome = true ∧
    1 ∈ (clearStorage (balance stEmpty 1).2 1).m_nonExistingAccountsCache ∧
    (Map.find (rollback (fun _ => 0) (addFBRC stEmpty 1 5).state 0).m_cache 1).isSome = true ∧
    1 ∈ (rollback (fun _ => 0) (addFBRC stEmpty 1 5).state 0).m_nonExistingAccountsCache := by
  decide

/-! ## Commit order independence -/

/-- The root a flush computes depends on the database only through the contents stored under
the base root. -/
theorem flushStorage_root_congr (trieRoot : List (Nat × Nat) → Nat) (db1 db : OverlayDB)
    (root : Nat) (o : List (Nat × Nat))
    (h : (Map.find db1.storage root).getD [] = (Map.find db.storage root).getD []) :
    (flushStorage trieRoot db1 root o).1 = (flushStorage trieRoot db root o).1 := by
  unfold flushStorage
  simp only [h]

/-- With an injective root function, committing an entry leaves the contents under every root
that names its own contents as they were. -/
theorem commitEntry_db_lookup (trieRoot : List (Nat × Nat) → Nat)
    (hinj : Function.Injective trieRoot) (r : CommitResult) (i : Address × Account)
    (root : Nat) (h : trieRoot ((Map.find r.db.storage root).getD []) = root) :
    (Map.find (commitEntry trieRoot r i).db.storage root).getD [] =
      (Map.find r.db.storage root).getD [] := by
  have key : ∀ c : List (Nat × Nat),
      (Map.find (Map.assign r.db.storage (trieRoot c) c) root).getD [] =
        (Map.find r.db.storage root).getD [] := by
    intro c
    rw [Map.find_assign]
    by_cases e : root = trieRoot c
    · rw [if_pos e]
      have : trieRoot ((Map.find r.db.storage root).getD []) = trieRoot c := h.trans e
      rw [hinj this]
      rfl
    · rw [if_neg e]
  unfold commitEntry
  by_cases hd : i.2.isDirty = true
  · by_cases ha : i.2.isAlive = true
    · by_cases ho : i.2.storageOverlay.isEmpty = true
      · by_cases hc : i.2.hasNewCode = true <;> simp [hd, ha, ho, hc]
      · by_cases hc : i.2.hasNewCode = true <;>
          simp only [hd, ha, ho, hc, if_true, Bool.not_true, Bool.false_eq_true, if_false,
            flushStorage] <;> exact key _
    · simp [hd, ha]
  · simp [hd]

theorem foldl_commitEntry_db_lookup (trieRoot : List (Nat × Nat) → Nat)
    (hinj : Function.Injective trieRoot) (root : Nat) (l : List (Address × Account)) :
    ∀ r : CommitResult, trieRoot ((Map.find r.db.storage root).getD []) = root →
      (Map.find (l.foldl (commitEntry trieRoot) r).db.storage root).getD [] =
        (Map.find r.db.storage root).getD [] := by
  induction l with
  | nil => intro r _; rfl
  | cons i t ih =>
    intro r h
    have h1 := commitEntry_db_lookup trieRoot hinj r i root h
    rw [List.foldl_cons, ih _ (by rw [h1]; exact h), h1]

/-- The record of a cache entry after `dev::brc::commit`, with the storage root computed from
the database the commit started with. -/
theorem commit_state_find_initial (trieRoot : List (Nat × Nat) → Nat)
    (hinj : Function.Injective trieRoot) (l : List (Address × Account))
    (st : List (Address × RLPRecord)) (db : OverlayDB) (k : Address) (a : Account)
    (hk : (l.map Prod.fst).Nodup) (hm : (k, a) ∈ l)
    (hroot : a.storageOverlay.isEmpty = false →
      trieRoot ((Map.find db.storage a.storageRoot).getD []) = a.storageRoot) :
    Map.find (dev.brc.commit trieRoot l st db).state k =
      if a.dirty then
        if a.alive then
          some (encodeAccount
            (if a.storageOverlay.isEmpty then a.storageRoot
             else (flushStorage trieRoot db a.storageRoot a.storageOverlay).1) a)
        else none
      else Map.find st k := by
  obtain ⟨l1, l2, e⟩ := List.append_of_mem hm
  subst e
  rw [List.map_append, List.map_cons, List.nodup_append] at hk
  obtain ⟨hk1, hk2, hk3⟩ := hk
  have hl2 : ∀ i ∈ l2, i.1 ≠ k := by
    intro i hi e
    have : k ∈ l2.map Prod.fst := e ▸ List.mem_map_of_mem Prod.fst hi
    exact (List.nodup_cons.mp hk2).1 this
  have hl1 : ∀ i ∈ l1, i.1 ≠ k := by
    intro i hi e
    have h1 : i.1 ∈ l1.map Prod.fst := List.mem_map_of_mem Prod.fst hi
    exact hk3 h1 (by rw [e]; exact List.mem_cons_self _ _)
  unfold dev.brc.commit
  rw [List.foldl_append, List.foldl_cons, foldl_commitEntry_other trieRoot k l2 _ hl2,
    commitEntry_state_self, foldl_commitEntry_other trieRoot k l1 _ hl1]
  by_cases ho : a.storageOverlay.isEmpty = true
  · simp only [ho, if_true]
  · have ho' : a.storageOverlay.isEmpty = false := by
      cases h : a.storageOverlay.isEmpty
      · rfl
      · exact absurd h ho
    rw [flushStorage_root_congr trieRoot _ db a.storageRoot a.storageOverlay
      (foldl_commitEntry_db_lookup trieRoot hinj a.storageRoot l1
        { state := st, db := db } (hroot ho'))]

/-- C33: commit order independence.  The account trie is a finite map; the root function of
the storage tries is injective, the cache has distinct keys, and the storage root of every
entry whose overlay is flushed names the contents the database holds for it.  Then
`dev::brc::commit` over any reordering of the cache yields the same trie, and that trie depends
only on the dirty entries: a dirty dead address is removed, a dirty alive address holds its
serialised record, a clean address and an address that is not in the cache keep their
record. -/
theorem commit_order_independent (trieRoot : List (Nat × Nat) → Nat)
    (l l' : List (Address × Account)) (st : List (Address × RLPRecord)) (db : OverlayDB)
    (hperm : l'.Perm l) (hk : (l.map Prod.fst).Nodup) (hinj : Function.Injective trieRoot)
    (hroot : ∀ i ∈ l, i.2.dirty = true → i.2.alive = true →
      i.2.storageOverlay.isEmpty = false →
        trieRoot ((Map.find db.storage i.2.storageRoot).getD []) = i.2.storageRoot) :
    (∀ k, Map.find (dev.brc.commit trieRoot l' st db).state k =
      Map.find (dev.brc.commit trieRoot l st db).state k) ∧
    (∀ k a, (k, a) ∈ l → a.dirty = true → a.alive = false →
      Map.find (dev.brc.commit trieRoot l st db).state k = none) ∧
    (∀ k a, (k, a) ∈ l → a.dirty = true → a.alive = true →
      Map.find (dev.brc.commit trieRoot l st db).state k =
        some (encodeAccount
          (if a.storageOverlay.isEmpty then a.storageRoot
           else (flushStorage trieRoot db a.storageRoot a.storageOverlay).1) a)) ∧
    (∀ k a, (k, a) ∈ l → a.dirty = false →
      Map.find (dev.brc.commit trieRoot l st db).state k = Map.find st k) ∧
    (∀ k, (∀ i ∈ l, i.1 ≠ k) →
      Map.find (dev.brc.commit trieRoot l st db).state k = Map.find st k) := by
  have hk' : (l'.map Prod.fst).Nodup := ((hperm.map Prod.fst).nodup_iff).mpr hk
  have hdead : ∀ (m : List (Address × Account)) (k : Address) (a : Account),
      (m.map Prod.fst).Nodup → (k, a) ∈ m → a.dirty = true → a.alive = false →
        Map.find (dev.brc.commit trieRoot m st db).state k = none := by
    intro m k a hm hmem hd ha
    obtain ⟨db1, e⟩ := commit_state_find trieRoot m st db k a hm hmem
    rw [e, hd, ha]
    rfl
  have hclean : ∀ (m : List (Address × Account)) (k : Address) (a : Account),
      (m.map Prod.fst).Nodup → (k, a) ∈ m → a.dirty = false →
        Map.find (dev.brc.commit trieRoot m st db).state k = Map.find st k := by
    intro m k a hm hmem hd
    obtain ⟨db1, e⟩ := commit_state_find trieRoot m st db k a hm hmem
    rw [e, hd]
    rfl
  have halive : ∀ (m : List (Address × Account)) (k : Address) (a : Account),
      (m.map Prod.fst).Nodup → (k, a) ∈ m → (k, a) ∈ l → a.dirty = true → a.alive = true →
        Map.find (dev.brc.commit trieRoot m st db).state k =
          some (encodeAccount
            (if a.storageOverlay.isEmpty then a.storageRoot
             else (flushStorage trieRoot db a.storageRoot a.storageOverlay).1) a) := by
    intro m k a hm hmem hl hd ha
    rw [commit_state_find_initial trieRoot hinj m st db k a hm hmem
      (fun ho => hroot (k, a) hl hd ha ho), hd, ha]
    rfl
  refine ⟨?_, fun k a h1 h2 h3 => hdead l k a hk h1 h2 h3,
    fun k a h1 h2 h3 => halive l k a hk h1 h1 h2 h3,
    fun k a h1 h2 => hclean l k a hk h1 h2, fun k h => commit_state_other trieRoot l st db k h⟩
  intro k
  by_cases hin : ∃ a, (k, a) ∈ l
  · obtain ⟨a, ha⟩ := hin
    have ha' : (k, a) ∈ l' := hperm.mem_iff.mpr ha
    cases hd : a.dirty with
    | false => rw [hclean l' k a hk' ha' hd, hclean l k a hk ha hd]
    | true =>
      cases hal : a.alive with
      | false => rw [hdead l' k a hk' ha' hd hal, hdead l k a hk ha hd hal]
      | true => rw [halive l' k a hk' ha' ha hd hal, halive l k a hk ha ha hd hal]
  · have hno : ∀ i ∈ l, i.1 ≠ k := by
      intro i hi e
      exact hin ⟨i.2, by rw [← e]; exact hi⟩
    have hno' : ∀ i ∈ l', i.1 ≠ k := fun i hi => hno i (hperm.mem_iff.mp hi)
    rw [commit_state_other trieRoot l' st db k hno', commit_state_other trieRoot l st db k hno]

theorem commit_order_independent_witness :
    ((2, Account.init) :: stStorage.m_cache).Perm (stStorage.m_cache ++ [(2, Account.init)]) ∧
    ∀ k, Map.find (dev.brc.commit (fun c => Encodable.encode c + EmptyTrie)
        ((2, Account.init) :: stStorage.m_cache) stEmptyRecord.m_state {}).state k =
      Map.find (dev.brc.commit (fun c => Encodable.encode c + EmptyTrie)
        (stStorage.m_cache ++ [(2, Account.init)]) stEmptyRecord.m_state {}).state k :=
  ⟨(List.perm_append_singleton _ _).symm, (commit_order_independent (fun c => Encodable.encode c + EmptyTrie)
    (stStorage.m_cache ++ [(2, Account.init)]) ((2, Account.init) :: stStorage.m_cache)
    stEmptyRecord.m_state {} (List.perm_append_singleton _ _).symm (by decide)
    (fun x y h => Encodable.encode_injective (Nat.add_right_cancel h))
    (by
      intro i hi _ _ _
      have hi' : i = (1, { Account.create 0 10 with storageOverlay := [(1, 5)] }) ∨
          i = (2, Account.init) := by
        simpa [stStorage] using hi
      rcases hi' with e | e
      · subst e
        show Encodable.encode ([] : List (Nat × Nat)) + EmptyTrie = EmptyTrie
        rw [Encodable.encode_list_nil, Nat.zero_add]
      · subst e
        show Encodable.encode ([] : List (Nat × Nat)) + EmptyTrie = EmptyTrie
        rw [Encodable.encode_list_nil, Nat.zero_add])).1⟩

/-! ## Ballots and the vote ledger -/

set_option linter.unusedTactic false
set_option linter.unreachableTactic false

set_option linter.unusedTactic true
set_option linter.unreachableTactic true

/-! ## Transaction execution -/

theorem AddressMap.entry_of_emplace (m : List (Nat × Address)) (h : Nat) (a : Address)
    (p : Nat × Address) (hp : p ∈ AddressMap.emplace m h a) : p ∈ m ∨ p = (h, a) := by
  induction m with
  | nil =>
    simp only [AddressMap.emplace, List.mem_singleton] at hp
    exact Or.inr hp
  | cons q t ih =>
    obtain ⟨h1, a1⟩ := q
    simp only [AddressMap.emplace] at hp
    split at hp
    · rcases List.mem_cons.mp hp with e | e
      · exact Or.inr e
      · exact Or.inl e
    · split at hp
      · exact Or.inl hp
      · rcases List.mem_cons.mp hp with e | e
        · exact Or.inl (e ▸ List.mem_cons_self _ _)
        · rcases ih e with e | e
          · exact Or.inl (List.mem_cons_of_mem _ e)
          · exact Or.inr e

theorem AddressMap.keys_emplace (m : List (Nat × Address)) (h : Nat) (a : Address) (k : Nat) :
    k ∈ (AddressMap.emplace m h a).map Prod.fst ↔ k ∈ m.map Prod.fst ∨ k = h := by
  induction m with
  | nil => simp [AddressMap.emplace]
  | cons q t ih =>
    obtain ⟨h1, a1⟩ := q
    simp only [AddressMap.emplace]
    split
    · simp only [List.map_cons, List.mem_cons]
      constructor
      · rintro (e | e | e)
        · exact Or.inr e
        · exact Or.inl (Or.inl e)
        · exact Or.inl (Or.inr e)
      · rintro ((e | e) | e)
        · exact Or.inr (Or.inl e)
        · exact Or.inr (Or.inr e)
        · exact Or.inl e
    · split
      · rename_i heq
        simp only [List.map_cons, List.mem_cons]
        constructor
        · intro e; exact Or.inl e
        · rintro (e | e)
          · exact e
          · exact Or.inl (e.trans heq)
      · simp only [List.map_cons, List.mem_cons, ih]
        constructor
        · rintro (e | e | e)
          · exact Or.inl (Or.inl e)
          · exact Or.inl (Or.inr e)
          · exact Or.inr e
        · rintro ((e | e) | e)
          · exact Or.inl e
          · exact Or.inr (Or.inl e)
          · exact Or.inr (Or.inr e)

theorem AddressMap.sorted_emplace (m : List (Nat × Address)) (h : Nat) (a : Address)
    (hs : m.Pairwise (fun p q => p.1 < q.1)) :
    (AddressMap.emplace m h a).Pairwise (fun p q => p.1 < q.1) := by
  induction m with
  | nil => simp [AddressMap.emplace]
  | cons q t ih =>
    obtain ⟨h1, a1⟩ := q
    rw [List.pairwise_cons] at hs
    simp only [AddressMap.emplace]
    split
    · rename_i hlt
      rw [List.pairwise_cons]
      refine ⟨?_, List.pairwise_cons.mpr hs⟩
      intro p hp
      rcases List.mem_cons.mp hp with e | e
      · rw [e]; exact hlt
      · exact Nat.lt_trans hlt (hs.1 p e)
    · split
      · exact List.pairwise_cons.mpr hs
      · rename_i hnlt hne
        rw [List.pairwise_cons]
        refine ⟨?_, ih hs.2⟩
        intro p hp
        rcases AddressMap.entry_of_emplace t h a p hp with e | e
        · exact hs.1 p e
        · rw [e]
          show h1 < h
          omega

/-- The fold that builds an ordered map out of the entries of `l` that satisfy `c`. -/
theorem foldl_emplace_spec {α : Type} (c : α → Bool) (key : α → Nat) (val : α → Address)
    (l : List α) :
    ∀ m : List (Nat × Address), m.Pairwise (fun p q => p.1 < q.1) →
      (l.foldl (fun m i => if c i then AddressMap.emplace m (key i) (val i) else m) m).Pairwise
        (fun p q => p.1 < q.1) ∧
      (∀ p ∈ l.foldl (fun m i => if c i then AddressMap.emplace m (key i) (val i) else m) m,
        p ∈ m ∨ ∃ i ∈ l, c i = true ∧ p = (key i, val i)) ∧
      (∀ k, k ∈ (l.foldl (fun m i => if c i then AddressMap.emplace m (key i) (val i) else m)
          m).map Prod.fst ↔ k ∈ m.map Prod.fst ∨ ∃ i ∈ l, c i = true ∧ key i = k) := by
  induction l with
  | nil =>
    intro m hm
    exact ⟨hm, fun p hp => Or.inl hp, fun k => by simp⟩
  | cons i t ih =>
    intro m hm
    rw [List.foldl_cons]
    by_cases hc : c i = true
    · rw [if_pos hc]
      obtain ⟨h1, h2, h3⟩ := ih _ (AddressMap.sorted_emplace m (key i) (val i) hm)
      refine ⟨h1, ?_, ?_⟩
      · intro p hp
        rcases h2 p hp with e | ⟨j, hj, hcj, e⟩
        · rcases AddressMap.entry_of_emplace m _ _ p e with e | e
          · exact Or.inl e
          · exact Or.inr ⟨i, List.mem_cons_self _ _, hc, e⟩
        · exact Or.inr ⟨j, List.mem_cons_of_mem _ hj, hcj, e⟩
      · intro k
        rw [h3 k, AddressMap.keys_emplace]
        constructor
        · rintro ((e | e) | ⟨j, hj, hcj, e⟩)
          · exact Or.inl e
          · exact Or.inr ⟨i, List.mem_cons_self _ _, hc, e.symm⟩
          · exact Or.inr ⟨j, List.mem_cons_of_mem _ hj, hcj, e⟩
        · rintro (e | ⟨j, hj, hcj, e⟩)
          · exact Or.inl (Or.inl e)
          · rcases List.mem_cons.mp hj with e2 | e2
            · subst e2; exact Or.inl (Or.inr e.symm)
            · exact Or.inr ⟨j, e2, hcj, e⟩
    · rw [if_neg hc]
      obtain ⟨h1, h2, h3⟩ := ih m hm
      refine ⟨h1, ?_, ?_⟩
      · intro p hp
        rcases h2 p hp with e | ⟨j, hj, hcj, e⟩
        · exact Or.inl e
        · exact Or.inr ⟨j, List.mem_cons_of_mem _ hj, hcj, e⟩
      · intro k
        rw [h3 k]
        constructor
        · rintro (e | ⟨j, hj, hcj, e⟩)
          · exact Or.inl e
          · exact Or.inr ⟨j, List.mem_cons_of_mem _ hj, hcj, e⟩
        · rintro (e | ⟨j, hj, hcj, e⟩)
          · exact Or.inl e
          · rcases List.mem_cons.mp hj with e2 | e2
            · subst e2; exact absurd hcj hc
            · exact Or.inr ⟨j, e2, hcj, e⟩

/-- The entries of the cache listing: each is the hash of a dirty, alive cache account at or
after the begin hash, the keys are strictly increasing, and every qualifying hash is a key. -/
theorem cacheAddresses_spec (hash : Address → Nat) (cache : List (Address × Account))
    (b : Nat) :
    (cacheAddresses hash cache b).Pairwise (fun p q => p.1 < q.1) ∧
    (∀ p ∈ cacheAddresses hash cache b, ∃ i ∈ cache,
      i.2.dirty = true ∧ i.2.alive = true ∧ b ≤ hash i.1 ∧ p = (hash i.1, i.1)) ∧
    (∀ k, k ∈ (cacheAddresses hash cache b).map Prod.fst ↔ ∃ i ∈ cache,
      i.2.dirty = true ∧ i.2.alive = true ∧ b ≤ hash i.1 ∧ hash i.1 = k) := by
  obtain ⟨h1, h2, h3⟩ := foldl_emplace_spec
    (fun i : Address × Account => i.2.isDirty && i.2.isAlive && decide (b ≤ hash i.1))
    (fun i => hash i.1) (fun i => i.1) cache [] List.Pairwise.nil
  have hc : ∀ i : Address × Account,
      (i.2.isDirty && i.2.isAlive && decide (b ≤ hash i.1)) = true ↔
        i.2.dirty = true ∧ i.2.alive = true ∧ b ≤ hash i.1 := by
    intro i
    simp [Account.isDirty, Account.isAlive, and_assoc]
  refine ⟨h1, ?_, ?_⟩
  · intro p hp
    rcases h2 p hp with e | ⟨i, hi, hci, e⟩
    · cases e
    · obtain ⟨a1, a2, a3⟩ := (hc i).mp hci
      exact ⟨i, hi, a1, a2, a3, e⟩
  · intro k
    unfold cacheAddresses
    rw [h3 k]
    constructor
    · rintro (e | ⟨i, hi, hci, e⟩)
      · cases e
      · obtain ⟨a1, a2, a3⟩ := (hc i).mp hci
        exact ⟨i, hi, a1, a2, a3, e⟩
    · rintro ⟨i, hi, a1, a2, a3, e⟩
      exact Or.inr ⟨i, hi, (hc i).mpr ⟨a1, a2, a3⟩, e⟩

/-- Merging the cache listing into the empty result keeps its entries, order and keys. -/
theorem merged_spec (hash : Address → Nat) (cache : List (Address × Account)) (b : Nat) :
    ((cacheAddresses hash cache b).foldl (fun m p => AddressMap.emplace m p.1 p.2)
      []).Pairwise (fun p q => p.1 < q.1) ∧
    (∀ p ∈ (cacheAddresses hash cache b).foldl (fun m p => AddressMap.emplace m p.1 p.2) [],
      ∃ i ∈ cache, i.2.dirty = true ∧ i.2.alive = true ∧ b ≤ hash i.1 ∧ p = (hash i.1, i.1)) ∧
    (∀ k, k ∈ ((cacheAddresses hash cache b).foldl (fun m p => AddressMap.emplace m p.1 p.2)
      []).map Prod.fst ↔ ∃ i ∈ cache,
      i.2.dirty = true ∧ i.2.alive = true ∧ b ≤ hash i.1 ∧ hash i.1 = k) := by
  obtain ⟨c1, c2, c3⟩ := cacheAddresses_spec hash cache b
  obtain ⟨h1, h2, h3⟩ := foldl_emplace_spec (fun _ : Nat × Address => true)
    (fun p => p.1) (fun p => p.2) (cacheAddresses hash cache b) [] List.Pairwise.nil
  simp only [if_true] at h1 h2 h3
  refine ⟨h1, ?_, ?_⟩
  · intro p hp
    rcases h2 p hp with e | ⟨q, hq, _, e⟩
    · cases e
    · have : p = q := e
      rw [this]
      exact c2 q hq
  · intro k
    rw [h3 k, ← c3 k]
    constructor
    · rintro (e | ⟨q, hq, _, e⟩)
      · cases e
      · exact List.mem_map.mpr ⟨q, hq, e⟩
    · intro hk
      obtain ⟨q, hq, e⟩ := List.mem_map.mp hk
      exact Or.inr ⟨q, hq, trivial, e⟩

/-- C38: the paged address listing `addresses(b, n)`, built without full-database iteration,
returns at most `n` entries with strictly increasing keys; each entry maps the hash of an address
to that address, for an account that is dirty and alive in the cache and whose hash is at least
`b`.  A qualifying hash that was not returned is larger than every returned key, and then
exactly `n` entries were returned and the next key is a qualifying hash, not returned, and not
larger than the one left out: the returned entries are the `n` smallest qualifying hashes and
the next key is the smallest one left out.  When every qualifying hash was returned the next key
is zero. -/
theorem addresses_spec (hash : Address → Nat) (s : State) (b n : Nat) :
    (addresses hash s b n).1.length ≤ n ∧
    (addresses hash s b n).1.Pairwise (fun p q => p.1 < q.1) ∧
    (∀ p ∈ (addresses hash s b n).1, ∃ i ∈ s.m_cache,
      i.2.dirty = true ∧ i.2.alive = true ∧ b ≤ hash i.1 ∧ p = (hash i.1, i.1)) ∧
    (∀ i ∈ s.m_cache, i.2.dirty = true → i.2.alive = true → b ≤ hash i.1 →
      hash i.1 ∉ (addresses hash s b n).1.map Prod.fst →
        (addresses hash s b n).1.length = n ∧
        (∀ p ∈ (addresses hash s b n).1, p.1 < hash i.1) ∧
        (addresses hash s b n).2 ≤ hash i.1 ∧
        (addresses hash s b n).2 ∉ (addresses hash s b n).1.map Prod.fst ∧
        ∃ j ∈ s.m_cache, j.2.dirty = true ∧ j.2.alive = true ∧ b ≤ hash j.1 ∧
          hash j.1 = (addresses hash s b n).2) ∧
    ((∀ i ∈ s.m_cache, i.2.dirty = true → i.2.alive = true → b ≤ hash i.1 →
      hash i.1 ∈ (addresses hash s b n).1.map Prod.fst) → (addresses hash s b n).2 = 0) := by
  obtain ⟨m1, m2, m3⟩ := merged_spec hash s.m_cache b
  generalize hm : (cacheAddresses hash s.m_cache b).foldl
    (fun m p => AddressMap.emplace m p.1 p.2) [] = merged at m1 m2 m3
  have hadd : addresses hash s b n =
      if merged.length > n then
        (merged.take n, ((merged.drop n).head?.map Prod.fst).getD 0)
      else (merged, 0) := by
    simp only [addresses, hm]
  rw [hadd]
  by_cases hlen : merged.length > n
  · rw [if_pos hlen]
    have hsplit : merged.take n ++ merged.drop n = merged := List.take_append_drop n merged
    have hpw := m1
    rw [← hsplit, List.pairwise_append] at hpw
    obtain ⟨pt, pd, ptd⟩ := hpw
    obtain ⟨x, rest, hdrop⟩ : ∃ x rest, merged.drop n = x :: rest := by
      cases hd : merged.drop n with
      | nil =>
        have := congrArg List.length hd
        simp only [List.length_drop, List.length_nil] at this
        omega
      | cons x rest => exact ⟨x, rest, rfl⟩
    have hnext : ((merged.drop n).head?.map Prod.fst).getD 0 = x.1 := by
      rw [hdrop]; rfl
    have hxd : x ∈ merged.drop n := by rw [hdrop]; exact List.mem_cons_self _ _
    have hxm : x ∈ merged := List.mem_of_mem_drop hxd
    have hxnot : x.1 ∉ (merged.take n).map Prod.fst := by
      intro hx
      obtain ⟨q, hq, e⟩ := List.mem_map.mp hx
      have := ptd q hq x hxd
      omega
    refine ⟨?_, pt, ?_, ?_, ?_⟩
    · simp only [List.length_take]; omega
    · intro p hp
      exact m2 p (List.mem_of_mem_take hp)
    · intro i hi d1 d2 d3 hnot
      have hk : hash i.1 ∈ merged.map Prod.fst := (m3 _).mpr ⟨i, hi, d1, d2, d3, rfl⟩
      rw [← hsplit, List.map_append, List.mem_append] at hk
      have hkd : hash i.1 ∈ (merged.drop n).map Prod.fst := by
        rcases hk with e | e
        · exact absurd e hnot
        · exact e
      obtain ⟨q, hq, e⟩ := List.mem_map.mp hkd
      refine ⟨?_, ?_, ?_, ?_, ?_⟩
      · simp only [List.length_take]; omega
      · intro p hp
        have := ptd p hp q hq
        omega
      · show ((merged.drop n).head?.map Prod.fst).getD 0 ≤ hash i.1
        rw [hnext]
        rw [hdrop] at hq pd
        rcases List.mem_cons.mp hq with e2 | e2
        · rw [← e2]; omega
        · have := (List.pairwise_cons.mp pd).1 q e2
          omega
      · show ((merged.drop n).head?.map Prod.fst).getD 0 ∉ _
        rw [hnext]
        exact hxnot
      · show ∃ j ∈ s.m_cache, _ ∧ _ ∧ _ ∧ hash j.1 = ((merged.drop n).head?.map Prod.fst).getD 0
        rw [hnext]
        obtain ⟨j, hj, e1, e2, e3, e4⟩ := m2 x hxm
        refine ⟨j, hj, e1, e2, e3, ?_⟩
        rw [e4]
    · intro hall
      exfalso
      obtain ⟨j, hj, e1, e2, e3, e4⟩ := m2 x hxm
      apply hxnot
      have := hall j hj e1 e2 e3
      rw [e4]
      exact this
  · rw [if_neg hlen]
    refine ⟨by simp only; omega, m1, m2, ?_, fun _ => rfl⟩
    intro i hi d1 d2 d3 hnot
    exact absurd ((m3 _).mpr ⟨i, hi, d1, d2, d3, rfl⟩) hnot

/-! ## Peers -/

/-- The value of `Peer::fallbackSeconds` when nothing overflows, by branch. -/
theorem fallbackSeconds_eq (p : Peer) (ht : p.peerType ≠ PeerType.Required)
    (hno : p.noOverflow) :
    p.fallbackSeconds =
      match p.m_lastDisconnect with
      | DisconnectReason.BadProtocol => 30 * (p.m_failedAttempts + 1)
      | DisconnectReason.UselessPeer => 25 * (p.m_failedAttempts + 1)
      | DisconnectReason.TooManyPeers => 25 * (p.m_failedAttempts + 1)
      | DisconnectReason.ClientQuit => 15 * (p.m_failedAttempts + 1)
      | _ =>
        if p.m_failedAttempts < 5 then (if p.m_failedAttempts ≠ 0 then p.m_failedAttempts * 5 else 5)
        else if p.m_failedAttempts < 15 then 25 + (p.m_failedAttempts - 5) * 10
        else 125 + (p.m_failedAttempts - 15) * 20 := by
  unfold Peer.fallbackSeconds
  rw [if_neg ht]
  unfold Peer.noOverflow at hno
  cases hr : p.m_lastDisconnect <;> simp only [hr] at hno ⊢ <;> (try omega)
  all_goals
    by_cases h5 : p.m_failedAttempts < 5
    · by_cases h0 : p.m_failedAttempts = 0
      · simp [h5, h0]
      · simp only [h5, if_true, h0, ne_eq, not_false_eq_true]; omega
    · by_cases h15 : p.m_failedAttempts < 15
      · simp only [h5, h15, if_true, if_false]; omega
      · simp only [h5, h15, if_false]; omega

/-- C39: `Peer::fallbackSeconds`.  A Required peer always gets 5.  For every other peer and
every last-disconnect reason, when the `unsigned` arithmetic of its branch does not overflow,
the result is at least 5, and it is non-decreasing in the number of failed attempts.  In the
default branch (`NoDisconnect` and the reasons without a case) the value is 5 for 0 or 1
failed attempts, `5 * k` for `1 ≤ k < 5`, `25 + 10 * (k - 5)` for `5 ≤ k < 15` and
`125 + 20 * (k - 15)` for `k ≥ 15` (as long as that number fits in 32 bits). -/
theorem fallbackSeconds_spec (p q : Peer) :
    (p.peerType = PeerType.Required → p.fallbackSeconds = 5) ∧
    (p.peerType ≠ PeerType.Required → p.noOverflow → 5 ≤ p.fallbackSeconds) ∧
    (p.peerType = q.peerType → p.m_lastDisconnect = q.m_lastDisconnect →
      p.m_failedAttempts ≤ q.m_failedAttempts → q.noOverflow →
      p.fallbackSeconds ≤ q.fallbackSeconds) ∧
    (p.peerType ≠ PeerType.Required →
      (p.m_lastDisconnect = DisconnectReason.NoDisconnect ∨
        ∃ r, p.m_lastDisconnect = DisconnectReason.other r) →
      ((p.m_failedAttempts = 0 ∨ p.m_failedAttempts = 1) → p.fallbackSeconds = 5) ∧
      (1 ≤ p.m_failedAttempts → p.m_failedAttempts < 5 →
        p.fallbackSeconds = 5 * p.m_failedAttempts) ∧
      (5 ≤ p.m_failedAttempts → p.m_failedAttempts < 15 →
        p.fallbackSeconds = 25 + 10 * (p.m_failedAttempts - 5)) ∧
      (15 ≤ p.m_failedAttempts → 125 + 20 * (p.m_failedAttempts - 15) < 2 ^ 32 →
        p.fallbackSeconds = 125 + 20 * (p.m_failedAttempts - 15))) := by
  refine ⟨?_, ?_, ?_, ?_⟩
  · intro h
    unfold Peer.fallbackSeconds
    rw [if_pos h]
  · intro ht hno
    rw [fallbackSeconds_eq p ht hno]
    cases hr : p.m_lastDisconnect <;> simp only <;> (try omega)
    all_goals (split <;> (try split) <;> omega)
  · intro hty hre hk hno
    by_cases ht : q.peerType = PeerType.Required
    · have hp : p.peerType = PeerType.Required := by rw [hty, ht]
      unfold Peer.fallbackSeconds
      rw [if_pos hp, if_pos ht]
    · have htp : p.peerType ≠ PeerType.Required := by rw [hty]; exact ht
      have hnp : p.noOverflow := by
        unfold Peer.noOverflow at hno ⊢
        rw [hre]
        cases hr : q.m_lastDisconnect <;> simp only [hr] at hno ⊢ <;> omega
      rw [fallbackSeconds_eq p htp hnp, fallbackSeconds_eq q ht hno, hre]
      cases hr : q.m_lastDisconnect <;> simp only <;> (try omega)
      all_goals (split <;> (try split) <;> (try split) <;> (try split) <;> omega)
  · intro ht hre
    have key : ∀ hno : 125 + 20 * (p.m_failedAttempts - 15) < 2 ^ 32,
        p.fallbackSeconds =
          if p.m_failedAttempts < 5 then
            (if p.m_failedAttempts ≠ 0 then p.m_failedAttempts * 5 else 5)
          else if p.m_failedAttempts < 15 then 25 + (p.m_failedAttempts - 5) * 10
          else 125 + (p.m_failedAttempts - 15) * 20 := by
      intro hno
      have hno' : p.noOverflow := by
        unfold Peer.noOverflow
        rcases hre with e | ⟨r, e⟩ <;> rw [e] <;> exact hno
      rw [fallbackSeconds_eq p ht hno']
      rcases hre with e | ⟨r, e⟩ <;> rw [e]
    refine ⟨?_, ?_, ?_, ?_⟩
    · intro h
      rw [key (by omega)]
      rcases h with h | h <;> simp [h]
    · intro h1 h5
      rw [key (by omega)]
      simp only [h5, if_true]
      rw [if_pos (by omega)]
      omega
    · intro h5 h15
      rw [key (by omega)]
      rw [if_neg (by omega), if_pos h15]
      omega
    · intro h15 hno
      rw [key hno]
      rw [if_neg (by omega), if_neg (by omega)]
      omega

end Brc
